import Mathlib

/-!
# tsh.c : job table, reaper and job-control builtins

A shallow embedding of `src/src/tsh.c`.

* The global array `struct job_t jobs[MAXJOBS]` is a `List job_t`; a loop
  `for (i = 0; i < MAXJOBS; i++)` over the array is a left-to-right traversal
  of that list, and the tables the shell itself builds have `MAXJOBS` slots.
* C `int` / `pid_t` values are `Int`.  The only arithmetic on them is
  `nextjid++` and `maxjid(jobs)+1`; signed overflow is undefined in C and is
  not modelled (the counter is an unbounded integer).
* `char cmdline[MAXLINE]` is a `String` (the C string stored in the buffer).
* Everything written with `printf` is collected, one list element per call.
* `sigchld_handler` runs asynchronously.  A run is modelled at three kinds of
  points: between two commands or while the main flow polls in `waitfg`
  (`Event.sigchld`); at `sigprocmask(SIG_UNBLOCK)` in `eval`, where a `SIGCHLD`
  raised while the signal was blocked is delivered (`Sys.pending`); and inside
  `do_bgfg`, which runs with the signal unblocked, right after the lookup of
  the job and before the pointer is tested and used (`Sys.preempt`).
-/

namespace Tsh

/-! ## Manifest constants -/

/-- Constant `MAXJOBS`: max jobs at any point in time. -/
def MAXJOBS : Nat := 16

/-- Job state `UNDEF`. -/
def UNDEF : Int := 0
/-- Job state `FG`: running in foreground. -/
def FG : Int := 1
/-- Job state `BG`: running in background. -/
def BG : Int := 2
/-- Job state `ST`: stopped. -/
def ST : Int := 3

/-! ## The job struct and the job list helpers -/

/-- The job struct `struct job_t`. -/
structure job_t where
  pid : Int
  jid : Int
  state : Int
  cmdline : String
deriving DecidableEq, Repr

/-- Function `clearjob`: clear the entries in a job struct. -/
def clearjob (_job : job_t) : job_t :=
  { pid := 0, jid := 0, state := UNDEF, cmdline := "" }

/-- Function `initjobs`: clear every slot of the job list. -/
def initjobs (jobs : List job_t) : List job_t :=
  jobs.map clearjob

/-- The zero-initialised global array `jobs[MAXJOBS]` after `initjobs(jobs)`,
as `main` leaves it before the read/eval loop. -/
def emptyJobs : List job_t :=
  initjobs (List.replicate MAXJOBS { pid := 0, jid := 0, state := 0, cmdline := "" })

/-- Function `maxjid`: largest allocated job ID (0 when none is positive). -/
def maxjid (jobs : List job_t) : Int :=
  jobs.foldl (fun max j => if j.jid > max then j.jid else max) 0

/-- What a job-list helper that returns an `int` leaves behind: the return
value, the job list, the global `nextjid`, and what it printed. -/
structure JobsRet where
  ret : Int
  jobs : List job_t
  nextjid : Int
  out : List String
deriving DecidableEq, Repr

/-- The `for` loop of `addjob`: the first slot with `pid == 0` is filled;
`none` when the loop falls through (no slot is free). -/
def addjob_loop (pid state nextjid : Int) (cmdline : String) :
    List job_t → Option (List job_t)
  | [] => none
  | j :: rest =>
    if j.pid = 0 then
      some ({ pid := pid, state := state, jid := nextjid, cmdline := cmdline } :: rest)
    else
      (addjob_loop pid state nextjid cmdline rest).map (fun r => j :: r)

/-- Line printed by `addjob` when `verbose` is set: the jid, pid and command
line of the slot it filled. -/
def fmt_added (jid pid : Int) (cmdline : String) : String :=
  "Added job [" ++ toString jid ++ "] " ++ toString pid ++ " " ++ cmdline ++ "\n"

/-- Function `addjob`: add a job to the job list. -/
def addjob (verbose : Bool) (jobs : List job_t) (nextjid : Int)
    (pid state : Int) (cmdline : String) : JobsRet :=
  if pid < 1 then
    { ret := 0, jobs := jobs, nextjid := nextjid, out := [] }
  else
    match addjob_loop pid state nextjid cmdline jobs with
    | some jobs' =>
      { ret := 1
        jobs := jobs'
        nextjid := if nextjid + 1 > (MAXJOBS : Int) then 1 else nextjid + 1
        out := if verbose then [fmt_added nextjid pid cmdline] else [] }
    | none =>
      { ret := 0, jobs := jobs, nextjid := nextjid
        out := ["Tried to create too many jobs\n"] }

/-- The `for` loop of `deletejob`: the first slot with `jobs[i].pid == pid` is
cleared; `none` when the loop falls through (no slot matches). -/
def deletejob_loop (pid : Int) : List job_t → Option (List job_t)
  | [] => none
  | j :: rest =>
    if j.pid = pid then some (clearjob j :: rest)
    else (deletejob_loop pid rest).map (fun r => j :: r)

/-- Function `deletejob`: delete a job whose PID=pid from the job list. -/
def deletejob (jobs : List job_t) (nextjid : Int) (pid : Int) : JobsRet :=
  if pid < 1 then
    { ret := 0, jobs := jobs, nextjid := nextjid, out := [] }
  else
    match deletejob_loop pid jobs with
    | some jobs' => { ret := 1, jobs := jobs', nextjid := maxjid jobs' + 1, out := [] }
    | none => { ret := 0, jobs := jobs, nextjid := nextjid, out := [] }

/-- Function `fgpid`: PID of current foreground job, 0 if no such job. -/
def fgpid : List job_t → Int
  | [] => 0
  | j :: rest => if j.state = FG then j.pid else fgpid rest

/-- The `for` loop of `getjobpid`; the pointer `&jobs[i]` is the index `i`. -/
def getjobpid_loop (pid : Int) : List job_t → Option Nat
  | [] => none
  | j :: rest =>
    if j.pid = pid then some 0 else (getjobpid_loop pid rest).map (fun i => i + 1)

/-- Function `getjobpid`: find a job (by PID) on the job list; `none` is the
`NULL` pointer, `some i` is `&jobs[i]`. -/
def getjobpid (jobs : List job_t) (pid : Int) : Option Nat :=
  if pid < 1 then none else getjobpid_loop pid jobs

/-- The `for` loop of `getjobjid`; the pointer `&jobs[i]` is the index `i`. -/
def getjobjid_loop (jid : Int) : List job_t → Option Nat
  | [] => none
  | j :: rest =>
    if j.jid = jid then some 0 else (getjobjid_loop jid rest).map (fun i => i + 1)

/-- Function `getjobjid`: find a job (by JID) on the job list; `none` is the
`NULL` pointer, `some i` is `&jobs[i]`. -/
def getjobjid (jobs : List job_t) (jid : Int) : Option Nat :=
  if jid < 1 then none else getjobjid_loop jid jobs

/-- Reading through a `struct job_t *`: `none` when the pointer is `NULL`
(the read is then undefined behaviour in C). -/
def deref (jobs : List job_t) (p : Option Nat) : Option job_t :=
  match p with
  | none => none
  | some i => jobs[i]?

/-- The assignment `job->state = st` through the pointer `&jobs[i]`. -/
def set_state : List job_t → Nat → Int → List job_t
  | [], _, _ => []
  | j :: rest, 0, st => { j with state := st } :: rest
  | j :: rest, i + 1, st => j :: set_state rest i st

/-! ## Sequences of job-list calls -/

/-- The two globals the job-list helpers work on: `jobs` and `nextjid`. -/
structure JobState where
  jobs : List job_t
  nextjid : Int
deriving DecidableEq, Repr

/-- The globals as `main` initialises them: `nextjid = 1`, every slot clear. -/
def initState : JobState :=
  { jobs := emptyJobs, nextjid := 1 }

/-- One call of a mutating job-list helper. -/
inductive JobOp where
  | add (pid state : Int) (cmdline : String)
  | del (pid : Int)
deriving DecidableEq, Repr

/-- The globals after one call (`verbose` is off; it only affects output). -/
def JobOp.apply (s : JobState) : JobOp → JobState
  | JobOp.add pid state cmdline =>
    let r := addjob false s.jobs s.nextjid pid state cmdline
    { jobs := r.jobs, nextjid := r.nextjid }
  | JobOp.del pid =>
    let r := deletejob s.jobs s.nextjid pid
    { jobs := r.jobs, nextjid := r.nextjid }

/-- The globals after a sequence of calls, first call first. -/
def runOps (s : JobState) (ops : List JobOp) : JobState :=
  ops.foldl JobOp.apply s

/-- A call sequence in which every `addjob` gets a pid `>= 1` that no slot of
the table holds at that moment (what `fork` hands to the shell). -/
def opsFresh (s : JobState) : List JobOp → Bool
  | [] => true
  | JobOp.add pid state cmdline :: ops =>
    decide (1 ≤ pid) && s.jobs.all (fun j => decide (j.pid ≠ pid)) &&
      opsFresh (JobOp.apply s (JobOp.add pid state cmdline)) ops
  | JobOp.del pid :: ops => opsFresh (JobOp.apply s (JobOp.del pid)) ops

/-- The jids of the live slots (those with `pid != 0`), in slot order. -/
def liveJids (jobs : List job_t) : List Int :=
  (jobs.filter (fun j => decide (j.pid ≠ 0))).map (fun j => j.jid)

/-- Fifteen jobs are added (pids 1..15, jids 1..15), the jobs with pids 2..14
are deleted, and two more jobs are added (pids 16 and 17). -/
def wrap_ops : List JobOp :=
  ([1, 2, 3, 4, 5, 6, 7, 8, 9, 10, 11, 12, 13, 14, 15].map
      (fun p => JobOp.add p BG "/bin/sleep 100 &\n")) ++
  ([2, 3, 4, 5, 6, 7, 8, 9, 10, 11, 12, 13, 14].map JobOp.del) ++
  [JobOp.add 16 BG "/bin/sleep 100 &\n", JobOp.add 17 BG "/bin/sleep 100 &\n"]

/-- Sixteen jobs are added (pids 1..16), then the job with pid 1 is deleted. -/
def full_then_delete_ops : List JobOp :=
  ([1, 2, 3, 4, 5, 6, 7, 8, 9, 10, 11, 12, 13, 14, 15, 16].map
      (fun p => JobOp.add p BG "/bin/sleep 100 &\n")) ++ [JobOp.del 1]

/-! ## The shell process: globals, observable actions, outcomes -/

/-- Signal numbers of `<signal.h>` (Linux). -/
def SIGINT : Int := 2
/-- Signal `SIGKILL`. -/
def SIGKILL : Int := 9
/-- Signal `SIGCHLD`. -/
def SIGCHLD : Int := 17
/-- Signal `SIGCONT`. -/
def SIGCONT : Int := 18
/-- Error numbers of `<errno.h>` (Linux). -/
def EINTR : Int := 4
/-- Error number `ECHILD`. -/
def ECHILD : Int := 10

/-- What the shell process does to the outside world, in program order:
output and system calls, each with the value the call returned, and a marker
for the call of `addjob`. -/
inductive Action where
  /-- Text written by `printf`. -/
  | print (text : String)
  /-- The line `msg: strerror(errno)` written by `perror` or `unix_error`. -/
  | perror (msg : String)
  /-- The call `kill(pid, sig)`. -/
  | kill (pid sig : Int)
  /-- The call `sigprocmask(SIG_BLOCK, {SIGCHLD})`. -/
  | sigblock
  /-- The call `sigprocmask(SIG_UNBLOCK, {SIGCHLD})`. -/
  | sigunblock
  /-- The call `fork()` and what it returned in this process. -/
  | fork (ret : Int)
  /-- The call `open(path, O_RDONLY)`; `path = none` is a `NULL` argument. -/
  | open_rd (path : Option String) (ret : Int)
  /-- The call `open(path, O_WRONLY | O_CREAT | O_TRUNC, 0666)`. -/
  | open_wr (path : Option String) (ret : Int)
  /-- The call `pipe(pipe_fds)`: return value and the two descriptors stored. -/
  | pipe (ret rd wr : Int)
  /-- The call `close(fd)`. -/
  | close (fd : Int)
  /-- The call `dup2(oldfd, newfd)`. -/
  | dup2 (oldfd newfd : Int)
  /-- The call `setpgid(pid, pgid)`. -/
  | setpgid (pid pgid : Int)
  /-- The call `execve(path, argv, environ)`; `path = none` is `NULL`. -/
  | execve (path : Option String) (argv : List String)
  /-- The call `addjob(jobs, pid, state, cmdline)` and what it returned. -/
  | addjob (pid state ret : Int)
deriving DecidableEq, Repr

/-- The shell process: the globals `jobs`, `nextjid`, `verbose`, everything it
has done so far, and, while the main flow is inside `waitfg(pid)`, that pid. -/
structure Shell where
  jobs : List job_t
  nextjid : Int
  verbose : Bool
  trace : List Action
  waiting : Option Int
deriving DecidableEq, Repr

/-- The shell as `main` enters the read/eval loop. -/
def Shell.init (verbose : Bool) : Shell :=
  { jobs := emptyJobs, nextjid := 1, verbose := verbose, trace := [], waiting := none }

/-- Append one action to the trace. -/
def Shell.emit (s : Shell) (a : Action) : Shell :=
  { s with trace := s.trace ++ [a] }

/-- Append the output of a job-list helper to the trace. -/
def Shell.prints (s : Shell) (out : List String) : Shell :=
  { s with trace := s.trace ++ out.map Action.print }

/-- The text written to standard output by `printf`, in order. -/
def printed (trace : List Action) : List String :=
  trace.filterMap (fun a => match a with | Action.print t => some t | _ => none)

/-- How a piece of shell code ends: it returns a value, the process calls
`exit`, the process image is replaced by `execve`, or a `NULL` pointer is
dereferenced (undefined behaviour; a segmentation fault in practice). -/
inductive Outcome (α : Type) where
  | returned (val : α) (s : Shell)
  | exited (code : Int) (s : Shell)
  | execed (s : Shell)
  | nullDeref (s : Shell)
deriving DecidableEq, Repr

/-- Function `unix_error`: print the message with the errno text, `exit(1)`. -/
def unix_error {α : Type} (s : Shell) (msg : String) : Outcome α :=
  Outcome.exited 1 (s.emit (Action.perror msg))

/-- The call `addjob(jobs, ...)` on the globals of the shell. -/
def Shell.addjob (s : Shell) (pid state : Int) (cmdline : String) : Int × Shell :=
  let r := Tsh.addjob s.verbose s.jobs s.nextjid pid state cmdline
  (r.ret, ({ s with jobs := r.jobs, nextjid := r.nextjid }.prints r.out).emit
    (Action.addjob pid state r.ret))

/-- The call `deletejob(jobs, pid)` on the globals of the shell. -/
def Shell.deletejob (s : Shell) (pid : Int) : Int × Shell :=
  let r := Tsh.deletejob s.jobs s.nextjid pid
  (r.ret, { s with jobs := r.jobs, nextjid := r.nextjid })

/-- Loop condition of `waitfg`: `job && job->state == FG` for
`job = getjobpid(jobs, pid)`.  While it holds `waitfg` sleeps. -/
def waitfg_busy (jobs : List job_t) (pid : Int) : Bool :=
  match deref jobs (getjobpid jobs pid) with
  | some job => decide (job.state = FG)
  | none => false

/-- Function `waitfg`: the main flow enters the polling loop for `pid`; it
leaves it at the first poll at which `waitfg_busy` is false. -/
def waitfg (s : Shell) (pid : Int) : Shell :=
  { s with waiting := some pid }

/-- Whether the main flow is held inside `waitfg`. -/
def Shell.blocked (s : Shell) : Bool :=
  match s.waiting with
  | some pid => waitfg_busy s.jobs pid
  | none => false

/-! ## The reaper -/

/-- The status word of `waitpid` as the macros of `<sys/wait.h>` decode it:
`WIFEXITED`, `WIFSIGNALED` with `WTERMSIG`, `WIFSTOPPED` with `WSTOPSIG`, or
none of the three. -/
inductive ChildStatus where
  | exited (code : Int)
  | signaled (sig : Int)
  | stopped (sig : Int)
  | other
deriving DecidableEq, Repr

/-- One return of `waitpid(-1, &status, WNOHANG | WUNTRACED)`: the returned
pid, `errno`, and the status stored. -/
structure WaitRet where
  pid : Int
  errno : Int
  status : ChildStatus
deriving DecidableEq, Repr

/-- Line printed for a child killed by a signal. -/
def fmt_terminated (jid pid sig : Int) : String :=
  "Job [" ++ toString jid ++ "] (" ++ toString pid ++ ") terminated by signal " ++
    toString sig ++ "\n"

/-- Line printed for a stopped child. -/
def fmt_stopped (jid pid sig : Int) : String :=
  "Job [" ++ toString jid ++ "] (" ++ toString pid ++ ") stopped by signal " ++
    toString sig ++ "\n"

/-- The `if (WIFEXITED) ... else if (WIFSIGNALED) ... else if (WIFSTOPPED)`
chain of `sigchld_handler` for one reported child. -/
def sigchld_report (s : Shell) (pid : Int) (status : ChildStatus) : Outcome Unit :=
  match status with
  | ChildStatus.exited _ => Outcome.returned () (s.deletejob pid).2
  | ChildStatus.signaled sig =>
    match deref s.jobs (getjobpid s.jobs pid) with
    | none => Outcome.nullDeref s
    | some job =>
      Outcome.returned ()
        ((s.emit (Action.print (fmt_terminated job.jid pid sig))).deletejob pid).2
  | ChildStatus.stopped sig =>
    match deref s.jobs (getjobpid s.jobs pid) with
    | none => Outcome.nullDeref s
    | some job =>
      let s1 := s.emit (Action.print (fmt_stopped job.jid pid sig))
      match getjobpid s1.jobs pid with
      | some i => Outcome.returned () { s1 with jobs := set_state s1.jobs i ST }
      | none => Outcome.returned () s1
  | ChildStatus.other => Outcome.returned () s

/-- Function `sigchld_handler`: the `while (1)` loop, driven by the successive
returns of `waitpid`.  When the list is used up the next `waitpid` is taken
to return 0 (no further child has changed state). -/
def sigchld_handler (s : Shell) : List WaitRet → Outcome Unit
  | [] => Outcome.returned () s
  | w :: ws =>
    if w.pid < 0 then
      if w.errno = ECHILD then Outcome.returned () s
      else if w.errno = EINTR then sigchld_handler s ws
      else unix_error s "waitpid returned unspecified error."
    else if w.pid = 0 then Outcome.returned () s
    else
      match sigchld_report s w.pid w.status with
      | Outcome.returned _ s1 => sigchld_handler s1 ws
      | o => o

/-! ## Builtin commands -/

/-- Sequencing of outcomes: continue with `f` when the code returned. -/
def Outcome.bind {α β : Type} (o : Outcome α) (f : α → Shell → Outcome β) : Outcome β :=
  match o with
  | Outcome.returned v s => f v s
  | Outcome.exited c s => Outcome.exited c s
  | Outcome.execed s => Outcome.execed s
  | Outcome.nullDeref s => Outcome.nullDeref s

/-- The `switch` of `listjobs` on the state of slot `i`. -/
def fmt_state (i : Nat) (state : Int) : String :=
  if state = BG then "Running "
  else if state = FG then "Foreground "
  else if state = ST then "Stopped "
  else "listjobs: Internal error: job[" ++ toString i ++ "].state=" ++ toString state ++ " "

/-- The `for` loop of `listjobs` from slot `i` on: the strings it prints. -/
def listjobs_loop (i : Nat) : List job_t → List String
  | [] => []
  | j :: rest =>
    (if j.pid ≠ 0 then
      ["[" ++ toString j.jid ++ "] (" ++ toString j.pid ++ ") ", fmt_state i j.state, j.cmdline]
    else []) ++ listjobs_loop (i + 1) rest

/-- Function `listjobs`: print the job list. -/
def listjobs (jobs : List job_t) : List String :=
  listjobs_loop 0 jobs

/-- Limits of `<limits.h>` on an LP64 platform. -/
def INT_MAX : Int := 2147483647
/-- Limit `INT_MIN`. -/
def INT_MIN : Int := -2147483648
/-- Limit `LONG_MAX`. -/
def LONG_MAX : Int := 9223372036854775807
/-- Limit `LONG_MIN`. -/
def LONG_MIN : Int := -9223372036854775808

/-- Character class `isspace` in the C locale. -/
def isspace (c : Char) : Bool :=
  c.toNat = 32 || (9 ≤ c.toNat && c.toNat ≤ 13)

/-- Character class `isdigit`. -/
def isdigit (c : Char) : Bool :=
  48 ≤ c.toNat && c.toNat ≤ 57

/-- What `strtol(nptr, &endptr, 10)` yields: the value, the string `endptr`
points at, whether `endptr` differs from `nptr`, and whether `errno` was set
to `ERANGE`. -/
structure StrtolRet where
  value : Int
  rest : List Char
  moved : Bool
  erange : Bool
deriving DecidableEq, Repr

/-- Library function `strtol` in base 10 (C standard): leading white space,
an optional sign, then decimal digits; no digits means no conversion
(`endptr == nptr`, value 0); a value outside `long` is clamped. -/
def strtol (nptr : List Char) : StrtolRet :=
  let s1 := nptr.dropWhile isspace
  let neg := s1.head? = some (Char.ofNat 45)
  let s2 := if s1.head? = some (Char.ofNat 45) ∨ s1.head? = some (Char.ofNat 43) then s1.tail else s1
  let digits := s2.takeWhile isdigit
  let rest := s2.dropWhile isdigit
  if digits = [] then { value := 0, rest := nptr, moved := false, erange := false }
  else
    let mag : Int := digits.foldl (fun acc c => acc * 10 + ((c.toNat : Int) - 48)) 0
    let v : Int := if neg then -mag else mag
    if v > LONG_MAX then { value := LONG_MAX, rest := rest, moved := true, erange := true }
    else if v < LONG_MIN then { value := LONG_MIN, rest := rest, moved := true, erange := true }
    else { value := v, rest := rest, moved := true, erange := false }

/-- Conversion of a `long` to `int` in `int id = strtol(...)`: the low 32
bits, as a signed value. -/
def long_to_int (v : Int) : Int :=
  (v + 2147483648) % 4294967296 - 2147483648

/-- The argument of `fg`, `bg` or `kill` as both commands decode it. -/
structure IdArg where
  /-- Condition `*(argv[1]) == '%'`. -/
  pct : Bool
  /-- Variable `id`. -/
  id : Int
  /-- The rejection test after `strtol`. -/
  bad : Bool
deriving DecidableEq, Repr

/-- The block shared by `builtin_cmd` (kill) and `do_bgfg`: skip a leading
`%`, convert with `strtol` into `int id`, and test for a malformed number. -/
def parse_id (arg : String) : IdArg :=
  let pct := arg.data.head? = some (Char.ofNat 37)
  let startptr := if pct then arg.data.tail else arg.data
  let r := strtol startptr
  let id := long_to_int r.value
  { pct := pct
    id := id
    bad := !r.moved || r.rest ≠ [] || ((LONG_MIN = id || LONG_MAX = id) && r.erange)
            || id > INT_MAX || id < INT_MIN }

/-- The part of `do_bgfg` after the test `if (!job)`: what it does through the
pointer `job = &jobs[i]` (an index outside the table, which no lookup returns,
is treated like `NULL`). -/
def do_bgfg_job (s : Shell) (a0 : String) (i : Nat) : Outcome Unit :=
  match deref s.jobs (some i) with
  | none => Outcome.nullDeref s
  | some j =>
    let s1 := if j.state = ST then s.emit (Action.kill (-j.pid) SIGCONT) else s
    if a0 = "fg" then
      Outcome.returned () (waitfg { s1 with jobs := set_state s1.jobs i FG } j.pid)
    else
      Outcome.returned () { s1 with jobs := set_state s1.jobs i BG }

/-- Function `do_bgfg`: execute the builtin bg and fg commands.  `SIGCHLD` is
not blocked while it runs: `ws` are the returns of `waitpid` in a run of
`sigchld_handler` that interrupts it right after the lookup of `job`, before
the pointer is tested and used (`[]`: no child changes state at that
point). -/
def do_bgfg (s : Shell) (argv : List String) (ws : List WaitRet) : Outcome Unit :=
  if fgpid s.jobs ≠ 0 then
    Outcome.returned () (s.emit (Action.print "Foreground process detected.\n"))
  else
    match argv with
    | [] => Outcome.nullDeref s
    | [a0] =>
      Outcome.returned ()
        (s.emit (Action.print (a0 ++ " command requires PID or %jobid argument\n")))
    | a0 :: a1 :: _ =>
      let a := parse_id a1
      if a.bad then
        Outcome.returned ()
          (s.emit (Action.print (a0 ++ ": argument must be a PID or %jobid\n")))
      else
        let job := if a.pct then getjobjid s.jobs a.id else getjobpid s.jobs a.id
        (sigchld_handler s ws).bind (fun _ s1 =>
          match job with
          | none =>
            if a.pct then
              Outcome.returned () (s1.emit (Action.print (a1 ++ ": No such job\n")))
            else
              Outcome.returned ()
                (s1.emit (Action.print ("(" ++ toString a.id ++ "): No such process\n")))
          | some i => do_bgfg_job s1 a0 i)

/-- The `kill` branch of `builtin_cmd`. -/
def builtin_kill (s : Shell) (a0 : String) (args : List String) : Shell :=
  match args with
  | [] => s.emit (Action.print (a0 ++ " command requires PID or %jobid argument.\n"))
  | a1 :: _ =>
    if a1.data.length = 0 then
      s.emit (Action.print (a0 ++ " command requires PID or %jobid argument.\n"))
    else
      let a := parse_id a1
      if a.bad then
        s.emit (Action.print (a0 ++ ": argument must be a PID or %jobid\n"))
      else if a.pct && (getjobjid s.jobs a.id).isNone then
        s.emit (Action.print (a1 ++ ": No such job\n"))
      else
        match deref s.jobs (getjobpid s.jobs a.id) with
        | none => s.emit (Action.print ("(" ++ toString a.id ++ "): No such process\n"))
        | some job => s.emit (Action.kill (-job.pid) SIGKILL)

/-- Function `builtin_cmd`: if the user has typed a built-in command then
execute it immediately; returns 0 when `argv[0]` is not a builtin.  `ws` is
handed to `do_bgfg`. -/
def builtin_cmd (s : Shell) (argv : List String) (ws : List WaitRet) : Outcome Int :=
  match argv with
  | [] => Outcome.nullDeref s
  | a0 :: args =>
    if a0 = "quit" then Outcome.exited 0 s
    else if a0 = "&" then Outcome.returned 1 s
    else if a0 = "jobs" then Outcome.returned 1 (s.prints (listjobs s.jobs))
    else if a0 = "fg" ∨ a0 = "bg" then
      (do_bgfg s argv ws).bind (fun _ s1 => Outcome.returned 1 s1)
    else if a0 = "kill" then Outcome.returned 1 (builtin_kill s a0 args)
    else Outcome.returned 0 s

/-! ## The tokenizer -/

/-- The loop `while (*buf && (*buf == ' ')) buf++`. -/
def skip_spaces : List Char → List Char
  | [] => []
  | c :: cs => if c = Char.ofNat 32 then skip_spaces cs else c :: cs

/-- Library function `strchr(buf, c)`: `none` when `c` does not occur, else
the characters before the first occurrence and those after it. -/
def strchr (c : Char) : List Char → Option (List Char × List Char)
  | [] => none
  | x :: xs =>
    if x = c then some ([], xs)
    else (strchr c xs).map (fun r => (x :: r.1, r.2))

/-- The search for the delimiter of the next argument in `parseline`: after a
single quote the closing quote, otherwise the next space. -/
def find_delim (buf : List Char) : Option (List Char × List Char) :=
  match buf with
  | [] => strchr (Char.ofNat 32) []
  | c :: cs => if c = Char.ofNat 39 then strchr (Char.ofNat 39) cs
               else strchr (Char.ofNat 32) (c :: cs)

/-- The loop `while (delim)` of `parseline`, with `buf` already past leading
spaces; `fuel` bounds the iterations (each consumes its delimiter). -/
def parse_args : Nat → List Char → List String
  | 0, _ => []
  | fuel + 1, buf =>
    match find_delim buf with
    | none => []
    | some (tok, rest) => String.mk tok :: parse_args fuel (skip_spaces rest)

/-- The assignment `buf[strlen(buf)-1] = ' '`. -/
def blank_last (buf : List Char) : List Char :=
  buf.dropLast ++ (if buf = [] then [] else [Char.ofNat 32])

/-- Function `parseline`: parse the command line and build the argv array.
Returns the background flag and the arguments up to the `NULL` terminator. -/
def parseline (cmdline : String) : Int × List String :=
  let buf := skip_spaces (blank_last cmdline.data)
  let argv := parse_args (buf.length + 1) buf
  match argv.getLast? with
  | none => (1, [])
  | some last =>
    if last.data.head? = some (Char.ofNat 38) then (1, argv.dropLast) else (0, argv)

/-! ## The launcher -/

/-- What the outside world does during one call of `eval`: the values the
operating system returns to the calls `eval` makes, in call order per kind of
call (a list that is used up means the call fails), and the children whose
change of state is reported to the shell while `eval` runs. -/
structure Sys where
  /-- Successive return values of `open`. -/
  opens : List Int
  /-- Successive results of `pipe`: return value, read end, write end. -/
  pipes : List (Int × Int × Int)
  /-- Successive return values of `fork` in the calling process. -/
  forks : List Int
  /-- Whether `execve` succeeds in a child. -/
  exec_ok : Bool
  /-- The returns of `waitpid` in the run of `sigchld_handler` that
  `sigprocmask(SIG_UNBLOCK)` in `eval` lets in: children that changed state
  while `SIGCHLD` was blocked (`[]`: none did). -/
  pending : List WaitRet
  /-- The returns of `waitpid` in a run of `sigchld_handler` that interrupts
  `do_bgfg` right after the lookup of the job, before the pointer is tested
  and used (`[]`: no child changes state at that point). -/
  preempt : List WaitRet
deriving DecidableEq, Repr

/-- The locals of `eval` that the scan of `argv` sets. -/
structure Scan where
  infd : Int
  outfd : Int
  pipe_rd : Int
  pipe_wr : Int
  /-- The array `argv` after the writes `*arg = NULL` (`none` is `NULL`). -/
  argv : List (Option String)
  /-- Pointer `argv2`, as an index into `argv`; `none` is `NULL`. -/
  argv2 : Option Nat
deriving DecidableEq, Repr

/-- The locals before the scan: `infd = outfd = 0`, `pipe_fds = {-1, -1}`. -/
def Scan.init : Scan :=
  { infd := 0, outfd := 0, pipe_rd := -1, pipe_wr := -1, argv := [], argv2 := none }

/-- The loop `while (*arg)` of `eval` over the tokens not yet visited. -/
def scan_loop (s : Shell) (env : Sys) (sc : Scan) : List String → Outcome (Scan × Sys)
  | [] => Outcome.returned (sc, env) s
  | tok :: rest =>
    if tok = "<" then
      let fd := env.opens.headD (-1)
      let s1 := s.emit (Action.open_rd rest.head? fd)
      let s2 := if fd < 0 then s1.emit (Action.perror "Could not open file for reading") else s1
      scan_loop s2 { env with opens := env.opens.tail }
        { sc with infd := fd, argv := sc.argv ++ [none] } rest
    else if tok = "|" then
      let r := env.pipes.headD (-1, -1, -1)
      let s1 := s.emit (Action.pipe r.1 r.2.1 r.2.2)
      if r.1 < 0 then unix_error s1 "pipe"
      else
        scan_loop s1 { env with pipes := env.pipes.tail }
          { sc with pipe_rd := r.2.1, pipe_wr := r.2.2, argv := sc.argv ++ [none],
                    argv2 := some (sc.argv.length + 1) } rest
    else if tok = ">" then
      let fd := env.opens.headD (-1)
      let s1 := s.emit (Action.open_wr rest.head? fd)
      let s2 := if fd < 0 then s1.emit (Action.perror "Could not open file for writing") else s1
      scan_loop s2 { env with opens := env.opens.tail }
        { sc with outfd := fd, argv := sc.argv ++ [none] } rest
    else
      scan_loop s env { sc with argv := sc.argv ++ [some tok] } rest

/-- The argument vector starting at index `i` of the scanned array, up to the
first `NULL`. -/
def argv_from (argv : List (Option String)) (i : Nat) : List String :=
  ((argv.drop i).takeWhile Option.isSome).filterMap id

/-- The first child after `fork() == 0`: up to `execve(argv[0], ...)`. -/
def child1 (s : Shell) (env : Sys) (sc : Scan) : Outcome Unit :=
  let s1 := (s.emit Action.sigunblock).emit (Action.setpgid 0 0)
  let s2 := if sc.infd > 0 then (s1.emit (Action.dup2 sc.infd 0)).emit (Action.close sc.infd)
            else s1
  let s3 := if sc.pipe_wr > 0 then
              ((s2.emit (Action.dup2 sc.pipe_wr 1)).emit (Action.close sc.pipe_rd)).emit
                (Action.close sc.pipe_wr)
            else if sc.outfd > 0 then
              (s2.emit (Action.dup2 sc.outfd 1)).emit (Action.close sc.outfd)
            else s2
  let argv1 := argv_from sc.argv 0
  let s4 := s3.emit (Action.execve argv1.head? argv1)
  if env.exec_ok then Outcome.execed s4
  else
    match argv1.head? with
    | none => Outcome.nullDeref s4
    | some a0 => Outcome.exited 0 (s4.emit (Action.print (a0 ++ ": command not found.\n")))

/-- The second child after `fork() == 0`: up to `execve(argv2[0], ...)`. -/
def child2 (s : Shell) (env : Sys) (sc : Scan) (pid : Int) (k : Nat) : Outcome Unit :=
  let s1 := (s.emit Action.sigunblock).emit (Action.setpgid pid pid)
  let s2 := ((s1.emit (Action.dup2 sc.pipe_rd 0)).emit (Action.close sc.pipe_rd)).emit
              (Action.close sc.pipe_wr)
  let s3 := if sc.outfd > 0 then (s2.emit (Action.dup2 sc.outfd 1)).emit (Action.close sc.outfd)
            else s2
  let argv2 := argv_from sc.argv k
  let s4 := s3.emit (Action.execve argv2.head? argv2)
  if env.exec_ok then Outcome.execed s4
  else
    match (argv_from sc.argv 0).head? with
    | none => Outcome.nullDeref s4
    | some a0 => Outcome.exited 0 (s4.emit (Action.print (a0 ++ ": command not found.\n")))

/-- The parent after all forks: close the descriptors, `addjob`, unblock
`SIGCHLD`, then `waitfg` or the background line.  A `SIGCHLD` raised while the
signal was blocked is delivered when the mask is lifted, before
`sigprocmask` returns: `pending` are the returns of `waitpid` in that run of
`sigchld_handler`. -/
def eval_parent (s : Shell) (sc : Scan) (pid : Int) (bg : Int) (cmdline : String)
    (pending : List WaitRet) : Outcome Unit :=
  let s1 := if sc.infd > 0 then s.emit (Action.close sc.infd) else s
  let s2 := if sc.outfd > 0 then s1.emit (Action.close sc.outfd) else s1
  let s3 := if sc.pipe_rd > 0 then (s2.emit (Action.close sc.pipe_rd)).emit (Action.close sc.pipe_wr)
            else s2
  let s4 := (s3.addjob pid (if bg ≠ 0 then BG else FG) cmdline).2
  let s5 := s4.emit Action.sigunblock
  (sigchld_handler s5 pending).bind (fun _ s6 =>
    if bg = 0 then Outcome.returned () (waitfg s6 pid)
    else
      match deref s6.jobs (getjobpid s6.jobs pid) with
      | none => Outcome.nullDeref s6
      | some job =>
        Outcome.returned ()
          (s6.emit (Action.print
            ("[" ++ toString job.jid ++ "] (" ++ toString pid ++ ") " ++ cmdline))))

/-- The body of `if (!builtin_cmd(argv))` in `eval`: launch an external
command. -/
def eval_launch (s : Shell) (env : Sys) (argv : List String) (bg : Int) (cmdline : String) :
    Outcome Unit :=
  (scan_loop (s.emit Action.sigblock) env Scan.init argv).bind (fun r s1 =>
    let sc := r.1
    let env1 := r.2
    let pid := env1.forks.headD (-1)
    let s2 := s1.emit (Action.fork pid)
    if pid < 0 then unix_error s2 "fork"
    else if pid = 0 then child1 s2 env1 sc
    else
      match sc.argv2 with
      | none => eval_parent s2 sc pid bg cmdline env.pending
      | some k =>
        let pid2 := env1.forks.tail.headD (-1)
        let s3 := s2.emit (Action.fork pid2)
        if pid2 < 0 then unix_error s3 "fork"
        else if pid2 = 0 then child2 s3 env1 sc pid k
        else eval_parent s3 sc pid bg cmdline env.pending)

/-- Function `eval`: evaluate the command line that the user has just typed
in. -/
def eval (s : Shell) (env : Sys) (cmdline : String) : Outcome Unit :=
  let p := parseline cmdline
  match p.2 with
  | [] => Outcome.returned () s
  | a0 :: args =>
    (builtin_cmd s (a0 :: args) env.preempt).bind (fun r s1 =>
      if r = 0 then eval_launch s1 env (a0 :: args) p.1 cmdline
      else Outcome.returned () s1)

/-! ## The shell as a transition system -/

/-- The pids `fork` returns are not pids of children the shell still tracks:
every live table entry belongs to a child that has not been reaped, and the
operating system does not hand out the pid of an unreaped child. -/
def Sys.fresh (env : Sys) (jobs : List job_t) : Bool :=
  env.forks.all (fun p => decide (p ≤ 0) || jobs.all (fun j => decide (j.pid ≠ p)))

/-- What can happen to the shell: the main flow reads a line and runs `eval`
on it (with the runs of `sigchld_handler` inside `eval` that the environment
of the line prescribes), or `SIGCHLD` is delivered between two lines or while
the main flow polls in `waitfg`, and `sigchld_handler` runs. -/
inductive Event where
  | line (env : Sys) (cmdline : String)
  | sigchld (ws : List WaitRet)
deriving DecidableEq, Repr

/-- One step of the shell.  A line is taken only when the main flow is not
held inside `waitfg`; the step is `none` when the process does not survive it
as the shell (exit, exec in a child, fault) or the step cannot happen. -/
def step (s : Shell) : Event → Option Shell
  | Event.line env cmdline =>
    if s.blocked || !env.fresh s.jobs then none
    else
      match eval { s with waiting := none } env cmdline with
      | Outcome.returned _ s1 => some s1
      | _ => none
  | Event.sigchld ws =>
    match sigchld_handler s ws with
    | Outcome.returned _ s1 => some s1
    | _ => none

/-- The shell after a sequence of events, first event first. -/
def run (s : Shell) : List Event → Option Shell
  | [] => some s
  | e :: es =>
    match step s e with
    | some s1 => run s1 es
    | none => none

/-- An event during which no run of `sigchld_handler` interrupts `do_bgfg`
between the lookup of the job and the use of the pointer. -/
def Event.unpreempted : Event → Bool
  | Event.line env _ => decide (env.preempt = [])
  | Event.sigchld _ => true

/-- Number of table entries whose state is `FG`. -/
def fgcount (jobs : List job_t) : Nat :=
  jobs.countP (fun j => decide (j.state = FG))

/-- The shell after `/bin/sleep 5` was launched in the foreground from the
empty table as pid 100: one job (pid 100, jid 1, `FG`), fifteen clear slots. -/
def one_job_shell : Shell :=
  { jobs := { pid := 100, jid := 1, state := FG, cmdline := "/bin/sleep 5\n" } ::
      List.replicate 15 { pid := 0, jid := 0, state := UNDEF, cmdline := "" }
    nextjid := 2
    verbose := false
    trace := []
    waiting := some 100 }

/-- An operating system whose next two `fork` calls return `pid` and `pid + 1`,
whose `pipe` call returns the descriptors 3 and 4, where `execve` works, and
no child changes state while `eval` runs. -/
def sys_forks (pid : Int) : Sys :=
  { opens := [], pipes := [(0, 3, 4)], forks := [pid, pid + 1], exec_ok := true,
    pending := [], preempt := [] }

/-- The shell after `/bin/sleep 5 &` was launched from the empty table as
pid 100: one job (pid 100, jid 1, `BG`), fifteen clear slots. -/
def bg_job_shell : Shell :=
  { jobs := { pid := 100, jid := 1, state := BG, cmdline := "/bin/sleep 5 &\n" } ::
      List.replicate 15 { pid := 0, jid := 0, state := UNDEF, cmdline := "" }
    nextjid := 2
    verbose := false
    trace := [Action.sigblock, Action.fork 100, Action.addjob 100 BG 1, Action.sigunblock,
      Action.print "[1] (100) /bin/sleep 5 &\n"]
    waiting := none }

/-- The shell after `/bin/ls | /bin/wc &` was launched from the empty table,
the two stages being the children 100 and 101: the one job recorded is
(pid 100, jid 1, `BG`). -/
def pipe_job_shell : Shell :=
  { jobs := { pid := 100, jid := 1, state := BG, cmdline := "/bin/ls | /bin/wc &\n" } ::
      List.replicate 15 { pid := 0, jid := 0, state := UNDEF, cmdline := "" }
    nextjid := 2
    verbose := false
    trace := [Action.sigblock, Action.pipe 0 3 4, Action.fork 100, Action.fork 101,
      Action.close 3, Action.close 4, Action.addjob 100 BG 1, Action.sigunblock,
      Action.print "[1] (100) /bin/ls | /bin/wc &\n"]
    waiting := none }

/-- A full table: sixteen background jobs with pids and jids 1..16. -/
def full_jobs : List job_t :=
  [1, 2, 3, 4, 5, 6, 7, 8, 9, 10, 11, 12, 13, 14, 15, 16].map
    (fun p => { pid := p, jid := p, state := BG, cmdline := "/bin/sleep 100 &\n" })

/-- The shell holding the full table `full_jobs`; the sixteenth add has
wrapped the counter to 1. -/
def full_shell : Shell :=
  { jobs := full_jobs, nextjid := 1, verbose := false, trace := [], waiting := none }

/-! ## Invariants of the job table -/

/-- A slot is either clear (pid 0, jid 0, `UNDEF`, empty command line) or live
with `pid >= 1`, `jid >= 1` and a state among `FG`, `BG`, `ST`. -/
def slot_ok (j : job_t) : Prop :=
  j = { pid := 0, jid := 0, state := UNDEF, cmdline := "" } ∨
  (1 ≤ j.pid ∧ 1 ≤ j.jid ∧ (j.state = FG ∨ j.state = BG ∨ j.state = ST))

/-- No two live slots hold the same pid. -/
def pids_distinct (jobs : List job_t) : Prop :=
  jobs.Pairwise (fun a b => a.pid ≠ 0 → a.pid ≠ b.pid)

/-- The table is well formed: every slot is clear or live, live pids are
pairwise distinct, and the next-id counter is at least 1. -/
def table_ok (jobs : List job_t) (nextjid : Int) : Prop :=
  (∀ j ∈ jobs, slot_ok j) ∧ pids_distinct jobs ∧ 1 ≤ nextjid

/-- The invariant of the shell: the table is well formed, and a slot is in
state `FG` only if the main flow is inside `waitfg` for its pid. -/
def shell_ok (s : Shell) : Prop :=
  table_ok s.jobs s.nextjid ∧ ∀ j ∈ s.jobs, j.state = FG → s.waiting = some j.pid

/-- A session: `/bin/sleep 5` is launched in the foreground (pid 100), is
stopped by signal 20, a pipeline is launched in the background (pids 101 and
102), and `fg %1` resumes the first job. -/
def fg_events : List Event :=
  [Event.line (sys_forks 100) "/bin/sleep 5\n",
   Event.sigchld [{ pid := 100, errno := 0, status := ChildStatus.stopped 20 }],
   Event.line (sys_forks 101) "/bin/ls | /bin/wc &\n",
   Event.line (sys_forks 103) "fg %1\n"]

/-- The shell after the session `fg_events`. -/
def fg_events_shell : Shell :=
  { jobs := { pid := 100, jid := 1, state := FG, cmdline := "/bin/sleep 5\n" } ::
      { pid := 101, jid := 2, state := BG, cmdline := "/bin/ls | /bin/wc &\n" } ::
      List.replicate 14 { pid := 0, jid := 0, state := UNDEF, cmdline := "" }
    nextjid := 3
    verbose := false
    trace := [Action.sigblock, Action.fork 100, Action.addjob 100 FG 1, Action.sigunblock,
      Action.print "Job [1] (100) stopped by signal 20\n",
      Action.sigblock, Action.pipe 0 3 4, Action.fork 101, Action.fork 102,
      Action.close 3, Action.close 4, Action.addjob 101 BG 1, Action.sigunblock,
      Action.print "[2] (101) /bin/ls | /bin/wc &\n",
      Action.kill (-100) SIGCONT]
    waiting := some 100 }

/-! ## The `jobs` listing as the specification words it -/

/-- The word the specification gives for a job state in the `jobs` listing:
`Running` for `BG`, `Foreground` for `FG`, `Stopped` for `ST`. -/
def spec_state_word (state : Int) : String :=
  if state = BG then "Running " else if state = FG then "Foreground " else "Stopped "

/-- One record of the `jobs` listing as the specification words it:
`[jid] (pid) `, the state word, the stored command line. -/
def spec_record (j : job_t) : String :=
  "[" ++ toString j.jid ++ "] (" ++ toString j.pid ++ ") " ++ spec_state_word j.state ++ j.cmdline

/-- The `jobs` listing as the specification words it: the records of the slots
with `pid != 0`, concatenated in slot order. -/
def spec_jobs_output (jobs : List job_t) : String :=
  String.join ((jobs.filter (fun j => decide (j.pid ≠ 0))).map spec_record)

/-! ## The keyboard-signal handlers -/

/-- The shell at the point where a piece of code ends. -/
def Outcome.sh {α : Type} : Outcome α → Shell
  | Outcome.returned _ s => s
  | Outcome.exited _ s => s
  | Outcome.execed s => s
  | Outcome.nullDeref s => s

/-- Function `sigint_handler`: catch the signal and send it along to the
foreground job.  `sig` is the signal number the handler is called with,
`kill_ret` what the call `kill(-pid, sig)` returns. -/
def sigint_handler (s : Shell) (sig kill_ret : Int) : Outcome Unit :=
  let pid := fgpid s.jobs
  if pid > 0 then
    let s1 := s.emit (Action.kill (-pid) sig)
    if kill_ret < 0 then unix_error s1 "kill" else Outcome.returned () s1
  else Outcome.returned () s

/-- The number a string of decimal digits denotes. -/
def decimal_value (ds : List Char) : Int :=
  ds.foldl (fun acc c => acc * 10 + ((c.toNat : Int) - 48)) 0

/-- A decimal numeral: one or more digits `0`..`9`. -/
def is_decimal (ds : List Char) : Prop :=
  ds ≠ [] ∧ ∀ c ∈ ds, isdigit c = true

/-- The argument of `fg`, `bg` or `kill` written as a decimal numeral, bare
(a pid) or after a `%` (a jid). -/
def id_arg (pct : Bool) (ds : List Char) : String :=
  String.mk ((if pct then [Char.ofNat 37] else []) ++ ds)

/-! ## The trace of a launch -/

/-- The actions the scan of `argv` can make: `open`, `pipe`, and the error
lines of `perror` and `unix_error`. -/
def Action.is_scan : Action → Bool
  | Action.open_rd _ _ => true
  | Action.open_wr _ _ => true
  | Action.pipe _ _ _ => true
  | Action.perror _ => true
  | _ => false

/-- The `close` calls of the parent after the forks: the descriptors it
opened for redirection and for the pipe. -/
def close_actions (sc : Scan) : List Action :=
  (if sc.infd > 0 then [Action.close sc.infd] else []) ++
  (if sc.outfd > 0 then [Action.close sc.outfd] else []) ++
  (if sc.pipe_rd > 0 then [Action.close sc.pipe_rd, Action.close sc.pipe_wr] else [])

/-- The blocking discipline for `SIGCHLD` read off a trace of the shell
process: every `fork` and every call of `addjob` happens while the signal is
blocked, and the signal is unblocked only once `addjob` has returned.
`blocked` and `added` say whether the signal is blocked and whether `addjob`
has returned at the start of the trace. -/
def sigchld_discipline (blocked added : Bool) : List Action → Bool
  | [] => true
  | Action.sigblock :: t => sigchld_discipline true added t
  | Action.sigunblock :: t => added && sigchld_discipline false added t
  | Action.fork _ :: t => blocked && sigchld_discipline blocked added t
  | Action.addjob _ _ _ :: t => blocked && sigchld_discipline blocked true t
  | _ :: t => sigchld_discipline blocked added t

/-- Actions that neither change the signal mask nor fork nor call `addjob`:
output, `open`, `pipe`, `close` and the like. -/
def Action.is_neutral : Action → Bool
  | Action.sigblock => false
  | Action.sigunblock => false
  | Action.fork _ => false
  | Action.addjob _ _ _ => false
  | _ => true

/-! ## Command lines made of words -/

/-- Constant `MAXLINE`: max line size. -/
def MAXLINE : Nat := 1024

/-- Constant `MAXARGS`: max args on a command line (the size of `argv`). -/
def MAXARGS : Nat := 128

/-- A run of `n` spaces. -/
def spaces (n : Nat) : List Char :=
  List.replicate n (Char.ofNat 32)

/-- Words laid out one after the other, each followed by one space and then by
as many further spaces as the second component says. -/
def words_chars (ws : List (List Char × Nat)) : List Char :=
  ws.flatMap (fun w => w.1 ++ Char.ofNat 32 :: spaces w.2)

/-- A command line made of space-separated words: `lead` spaces, the words
with their gaps, and a newline in place of the very last space. -/
def line_chars (lead : Nat) (ws : List (List Char × Nat)) : List Char :=
  spaces lead ++ (words_chars ws).dropLast ++ [Char.ofNat 10]

/-- An unquoted word: not empty, not starting with a single quote, without a
space. -/
def is_word (w : List Char) : Prop :=
  w ≠ [] ∧ w.head? ≠ some (Char.ofNat 39) ∧ ∀ c ∈ w, c ≠ Char.ofNat 32

/-- A shell whose table holds one stopped job (pid 100, jid 1) and fifteen
clear slots. -/
def stopped_job_shell : Shell :=
  { jobs := { pid := 100, jid := 1, state := ST, cmdline := "/bin/cat\n" } ::
      List.replicate 15 { pid := 0, jid := 0, state := UNDEF, cmdline := "" }
    nextjid := 2
    verbose := false
    trace := []
    waiting := none }

/-! ## The split of the argument vector as the specification words it -/

/-- The redirection tokens `<`, `>` and the pipe token. -/
def is_special (tok : String) : Bool :=
  tok = "<" || tok = ">" || tok = "|"

/-- The tokens after the first occurrence of `tok`. -/
def tokens_after (tok : String) (argv : List String) : List String :=
  (argv.dropWhile (fun t => decide (t ≠ tok))).tail

/-- The first program's argument vector as the specification words it: the
tokens before the first special token. -/
def spec_first_argv (argv : List String) : List String :=
  argv.takeWhile (fun t => !is_special t)

/-- The input file as the specification words it: the token after `<`. -/
def spec_input_file (argv : List String) : Option String :=
  (tokens_after "<" argv).head?

/-- The output file as the specification words it: the token after `>`. -/
def spec_output_file (argv : List String) : Option String :=
  (tokens_after ">" argv).head?

/-- The second program's argument vector as the specification words it:
present iff the pipe token occurs, and then the tokens after it up to the next
special token or the end. -/
def spec_second_argv (argv : List String) : Option (List String) :=
  if "|" ∈ argv then some ((tokens_after "|" argv).takeWhile (fun t => !is_special t))
  else none

/-- The calls `open(path, O_RDONLY)` in a trace: path and returned value. -/
def opened_rd (trace : List Action) : List (Option String × Int) :=
  trace.filterMap (fun a => match a with | Action.open_rd p r => some (p, r) | _ => none)

/-- The calls `open(path, O_WRONLY | O_CREAT | O_TRUNC, 0666)` in a trace: path
and returned value. -/
def opened_wr (trace : List Action) : List (Option String × Int) :=
  trace.filterMap (fun a => match a with | Action.open_wr p r => some (p, r) | _ => none)

/-- An operating system whose first `open` fails and whose second returns
descriptor 5, whose `pipe` call returns the descriptors 3 and 4, whose `fork`
calls return 100 and 101, where `execve` works, and no child changes state
while `eval` runs. -/
def sys_open_fails : Sys :=
  { opens := [-1, 5], pipes := [(0, 3, 4)], forks := [100, 101], exec_ok := true,
    pending := [], preempt := [] }

/-! ## Runs of the reaper inside `do_bgfg` and at the unblocking in `eval` -/

/-- The outside world during one `fg` or `bg` line while the child `pid`
exits: `SIGCHLD` is delivered after `do_bgfg` has looked the job up and before
it uses the pointer, and `waitpid` in the handler returns `pid` (exited), then
0. -/
def sys_reaped_in_bgfg (pid : Int) : Sys :=
  { opens := [], pipes := [], forks := [], exec_ok := true, pending := [],
    preempt := [{ pid := pid, errno := 0, status := ChildStatus.exited 0 }] }

/-- A session: `/bin/sleep 1 &` (pid 100, jid 1) and `/bin/sleep 100 &`
(pid 101, jid 2) are launched in the background, then `fg %1` is typed as the
first child exits, the reaper running between the lookup and the write of
`do_bgfg`. -/
def fg_race_prefix : List Event :=
  [Event.line (sys_forks 100) "/bin/sleep 1 &\n",
   Event.line (sys_forks 101) "/bin/sleep 100 &\n",
   Event.line (sys_reaped_in_bgfg 100) "fg %1\n"]

/-- The session `fg_race_prefix` followed by `fg %2`. -/
def fg_race_events : List Event :=
  fg_race_prefix ++ [Event.line (sys_forks 102) "fg %2\n"]

/-- The shell after the session `fg_race_events`: slot 0 is (pid 0, jid 0,
`FG`, empty command line), slot 1 is (pid 101, jid 2, `FG`), and the main flow
is inside `waitfg(101)`. -/
def fg_race_shell : Shell :=
  { jobs := { pid := 0, jid := 0, state := FG, cmdline := "" } ::
      { pid := 101, jid := 2, state := FG, cmdline := "/bin/sleep 100 &\n" } ::
      List.replicate 14 { pid := 0, jid := 0, state := UNDEF, cmdline := "" }
    nextjid := 3
    verbose := false
    trace := [Action.sigblock, Action.fork 100, Action.addjob 100 BG 1, Action.sigunblock,
      Action.print "[1] (100) /bin/sleep 1 &\n",
      Action.sigblock, Action.fork 101, Action.addjob 101 BG 1, Action.sigunblock,
      Action.print "[2] (101) /bin/sleep 100 &\n"]
    waiting := some 101 }

/-- The outside world during the launch of a single command whose child `pid`
has already exited when `eval` unblocks `SIGCHLD`: `fork` returns `pid`, and
`waitpid` in the handler run at the unblocking returns `pid` (exited), then
0. -/
def sys_child_exited (pid : Int) : Sys :=
  { opens := [], pipes := [], forks := [pid], exec_ok := true,
    pending := [{ pid := pid, errno := 0, status := ChildStatus.exited 0 }], preempt := [] }

/-! # Properties -/

/-! ## Job list helpers: basic facts -/

theorem addjob_loop_eq_none_iff (pid state nextjid : Int) (cmdline : String) (jobs : List job_t) :
    addjob_loop pid state nextjid cmdline jobs = none ↔ ∀ j ∈ jobs, j.pid ≠ 0 := by
  induction jobs with
  | nil => simp [addjob_loop]
  | cons j rest ih =>
    by_cases h : j.pid = 0
    · simp [addjob_loop, h]
    · simp [addjob_loop, h, ih]

theorem addjob_loop_eq_some (pid state nextjid : Int) (cmdline : String) (jobs jobs' : List job_t)
    (h : addjob_loop pid state nextjid cmdline jobs = some jobs') :
    ∃ pre j post, jobs = pre ++ j :: post ∧ (∀ x ∈ pre, x.pid ≠ 0) ∧ j.pid = 0 ∧
      jobs' = pre ++ { pid := pid, state := state, jid := nextjid, cmdline := cmdline } :: post := by
  induction jobs generalizing jobs' with
  | nil => simp [addjob_loop] at h
  | cons j rest ih =>
    by_cases hj : j.pid = 0
    · simp [addjob_loop, hj] at h
      exact ⟨[], j, rest, rfl, by simp, hj, by simp [← h]⟩
    · simp [addjob_loop, hj] at h
      obtain ⟨r, hr, rfl⟩ := h
      obtain ⟨pre, k, post, h1, h2, h3, h4⟩ := ih r hr
      refine ⟨j :: pre, k, post, by simp [h1], ?_, h3, by simp [h4]⟩
      intro x hx
      rcases List.mem_cons.mp hx with rfl | hx
      · exact hj
      · exact h2 x hx

theorem deletejob_loop_eq_none_iff (pid : Int) (jobs : List job_t) :
    deletejob_loop pid jobs = none ↔ ∀ j ∈ jobs, j.pid ≠ pid := by
  induction jobs with
  | nil => simp [deletejob_loop]
  | cons j rest ih =>
    by_cases h : j.pid = pid
    · simp [deletejob_loop, h]
    · simp [deletejob_loop, h, ih]

theorem deletejob_loop_eq_some (pid : Int) (jobs jobs' : List job_t)
    (h : deletejob_loop pid jobs = some jobs') :
    ∃ pre j post, jobs = pre ++ j :: post ∧ (∀ x ∈ pre, x.pid ≠ pid) ∧ j.pid = pid ∧
      jobs' = pre ++ { pid := 0, jid := 0, state := UNDEF, cmdline := "" } :: post := by
  induction jobs generalizing jobs' with
  | nil => simp [deletejob_loop] at h
  | cons j rest ih =>
    by_cases hj : j.pid = pid
    · simp [deletejob_loop, hj, clearjob] at h
      exact ⟨[], j, rest, rfl, by simp, hj, by simp [← h]⟩
    · simp [deletejob_loop, hj] at h
      obtain ⟨r, hr, rfl⟩ := h
      obtain ⟨pre, k, post, h1, h2, h3, h4⟩ := ih r hr
      refine ⟨j :: pre, k, post, by simp [h1], ?_, h3, by simp [h4]⟩
      intro x hx
      rcases List.mem_cons.mp hx with rfl | hx
      · exact hj
      · exact h2 x hx

theorem foldl_maxjid_ge (jobs : List job_t) (m : Int) :
    m ≤ jobs.foldl (fun max j => if j.jid > max then j.jid else max) m ∧
    ∀ x ∈ jobs, x.jid ≤ jobs.foldl (fun max j => if j.jid > max then j.jid else max) m := by
  induction jobs generalizing m with
  | nil => simp
  | cons j rest ih =>
    simp only [List.foldl_cons, List.mem_cons, forall_eq_or_imp]
    have h1 := (ih (if j.jid > m then j.jid else m)).1
    have h2 := (ih (if j.jid > m then j.jid else m)).2
    refine ⟨?_, ?_, h2⟩
    · by_cases hj : j.jid > m
      · rw [if_pos hj] at h1 ⊢
        omega
      · rw [if_neg hj] at h1 ⊢
        omega
    · by_cases hj : j.jid > m
      · rw [if_pos hj] at h1 ⊢
        omega
      · rw [if_neg hj] at h1 ⊢
        omega

theorem foldl_maxjid_mem (jobs : List job_t) (m : Int) :
    jobs.foldl (fun max j => if j.jid > max then j.jid else max) m = m ∨
    ∃ x ∈ jobs, x.jid = jobs.foldl (fun max j => if j.jid > max then j.jid else max) m := by
  induction jobs generalizing m with
  | nil => simp
  | cons j rest ih =>
    simp only [List.foldl_cons, List.mem_cons, exists_eq_or_imp]
    rcases ih (if j.jid > m then j.jid else m) with h | ⟨x, hx, h⟩
    · rw [h]
      by_cases hj : j.jid > m
      · simp [hj]
      · simp [hj]
    · exact Or.inr (Or.inr ⟨x, hx, h⟩)

theorem maxjid_ge (jobs : List job_t) : ∀ x ∈ jobs, x.jid ≤ maxjid jobs :=
  (foldl_maxjid_ge jobs 0).2

theorem maxjid_nonneg (jobs : List job_t) : 0 ≤ maxjid jobs :=
  (foldl_maxjid_ge jobs 0).1

theorem maxjid_mem (jobs : List job_t) : maxjid jobs = 0 ∨ ∃ x ∈ jobs, x.jid = maxjid jobs :=
  foldl_maxjid_mem jobs 0

/-! ## addjob and deletejob -/

/-- C7: `addjob` returns 0 exactly when `pid < 1` or no slot of the table has
`pid == 0`; whenever it returns 0 the table and the next-id counter are the
ones it was called with. -/
theorem addjob_fails_iff (verbose : Bool) (jobs : List job_t) (nextjid pid state : Int)
    (cmdline : String) :
    ((addjob verbose jobs nextjid pid state cmdline).ret = 0 ↔
        (pid < 1 ∨ ∀ j ∈ jobs, j.pid ≠ 0)) ∧
    ((addjob verbose jobs nextjid pid state cmdline).ret = 0 →
        (addjob verbose jobs nextjid pid state cmdline).jobs = jobs ∧
        (addjob verbose jobs nextjid pid state cmdline).nextjid = nextjid) := by
  unfold addjob
  by_cases hpid : pid < 1
  · simp [hpid]
  · cases hl : addjob_loop pid state nextjid cmdline jobs with
    | none =>
      have := (addjob_loop_eq_none_iff pid state nextjid cmdline jobs).mp hl
      simp only [hpid, if_false, true_iff, false_or, and_self, implies_true, and_true]
      exact this
    | some jobs' =>
      have hne : ¬ ∀ j ∈ jobs, j.pid ≠ 0 := by
        intro hall
        rw [(addjob_loop_eq_none_iff pid state nextjid cmdline jobs).mpr hall] at hl
        exact Option.noConfusion hl
      simp [hpid, hne]

/-- C8: with `pid >= 1` and at least one empty slot, `addjob` returns 1, writes
`(pid, state, jid = old counter, cmdline)` into the lowest-index slot whose pid
was 0, leaves every other slot as it was, and sets the counter to `old + 1`, or
to 1 when `old + 1` exceeds `MAXJOBS`. -/
theorem addjob_fills_first_empty (verbose : Bool) (jobs : List job_t)
    (nextjid pid state : Int) (cmdline : String)
    (hpid : 1 ≤ pid) (hfree : ∃ j ∈ jobs, j.pid = 0) :
    ∃ pre j post, jobs = pre ++ j :: post ∧ (∀ x ∈ pre, x.pid ≠ 0) ∧ j.pid = 0 ∧
      (addjob verbose jobs nextjid pid state cmdline).ret = 1 ∧
      (addjob verbose jobs nextjid pid state cmdline).jobs =
        pre ++ { pid := pid, state := state, jid := nextjid, cmdline := cmdline } :: post ∧
      (addjob verbose jobs nextjid pid state cmdline).nextjid =
        (if nextjid + 1 > (MAXJOBS : Int) then 1 else nextjid + 1) := by
  have hpid' : ¬ pid < 1 := by omega
  cases hl : addjob_loop pid state nextjid cmdline jobs with
  | none =>
    obtain ⟨j, hj, h0⟩ := hfree
    exact absurd h0 ((addjob_loop_eq_none_iff pid state nextjid cmdline jobs).mp hl j hj)
  | some jobs' =>
    obtain ⟨pre, j, post, h1, h2, h3, h4⟩ := addjob_loop_eq_some pid state nextjid cmdline jobs jobs' hl
    refine ⟨pre, j, post, h1, h2, h3, ?_, ?_, ?_⟩
    · simp [addjob, hpid', hl]
    · simp [addjob, hpid', hl, h4]
    · simp [addjob, hpid', hl]

/-- C8 at a concrete call: `addjob(jobs, 100, BG, "/bin/sleep 5 &\n")` on the
empty table with the counter at 16. -/
theorem addjob_fills_first_empty_witness :
    ∃ pre j post, emptyJobs = pre ++ j :: post ∧ (∀ x ∈ pre, x.pid ≠ 0) ∧ j.pid = 0 ∧
      (addjob false emptyJobs 16 100 BG "/bin/sleep 5 &\n").ret = 1 ∧
      (addjob false emptyJobs 16 100 BG "/bin/sleep 5 &\n").jobs =
        pre ++ { pid := 100, state := BG, jid := 16, cmdline := "/bin/sleep 5 &\n" } :: post ∧
      (addjob false emptyJobs 16 100 BG "/bin/sleep 5 &\n").nextjid =
        (if (16 : Int) + 1 > (MAXJOBS : Int) then 1 else 16 + 1) :=
  addjob_fills_first_empty false emptyJobs 16 100 BG "/bin/sleep 5 &\n" (by decide)
    ⟨{ pid := 0, jid := 0, state := UNDEF, cmdline := "" }, by decide, rfl⟩

/-- C9: `deletejob(pid)` returns 0 and leaves table and counter alone when
`pid < 1` or no slot has that pid; otherwise it returns 1, clears the
lowest-index slot with that pid (pid 0, jid 0, state `UNDEF`, empty command
line), leaves every other slot as it was, and sets the counter to
(maximum jid of the slots of the resulting table) + 1, which is 1 when every
slot of the resulting table is clear. -/
theorem deletejob_effect (jobs : List job_t) (nextjid pid : Int) :
    ((pid < 1 ∨ ∀ j ∈ jobs, j.pid ≠ pid) →
      (deletejob jobs nextjid pid).ret = 0 ∧ (deletejob jobs nextjid pid).jobs = jobs ∧
      (deletejob jobs nextjid pid).nextjid = nextjid) ∧
    ((1 ≤ pid ∧ ∃ j ∈ jobs, j.pid = pid) →
      ∃ pre j post, jobs = pre ++ j :: post ∧ (∀ x ∈ pre, x.pid ≠ pid) ∧ j.pid = pid ∧
        (deletejob jobs nextjid pid).ret = 1 ∧
        (deletejob jobs nextjid pid).jobs =
          pre ++ { pid := 0, jid := 0, state := UNDEF, cmdline := "" } :: post ∧
        (deletejob jobs nextjid pid).nextjid = maxjid (deletejob jobs nextjid pid).jobs + 1 ∧
        (∀ x ∈ (deletejob jobs nextjid pid).jobs, x.jid + 1 ≤ (deletejob jobs nextjid pid).nextjid) ∧
        (∃ x ∈ (deletejob jobs nextjid pid).jobs, x.jid + 1 = (deletejob jobs nextjid pid).nextjid) ∧
        ((∀ x ∈ (deletejob jobs nextjid pid).jobs,
            x = { pid := 0, jid := 0, state := UNDEF, cmdline := "" }) →
          (deletejob jobs nextjid pid).nextjid = 1)) := by
  constructor
  · rintro (hpid | hnone)
    · simp [deletejob, hpid]
    · have hl := (deletejob_loop_eq_none_iff pid jobs).mpr hnone
      by_cases hpid : pid < 1
      · simp [deletejob, hpid]
      · simp [deletejob, hpid, hl]
  · rintro ⟨hpid, j0, hj0, hj0pid⟩
    have hpid' : ¬ pid < 1 := by omega
    cases hl : deletejob_loop pid jobs with
    | none => exact absurd hj0pid ((deletejob_loop_eq_none_iff pid jobs).mp hl j0 hj0)
    | some jobs' =>
      obtain ⟨pre, j, post, h1, h2, h3, h4⟩ := deletejob_loop_eq_some pid jobs jobs' hl
      have hr : deletejob jobs nextjid pid =
          { ret := 1, jobs := jobs', nextjid := maxjid jobs' + 1, out := [] } := by
        simp [deletejob, hpid', hl]
      rw [hr]
      refine ⟨pre, j, post, h1, h2, h3, rfl, h4, rfl, ?_, ?_, ?_⟩
      · intro x hx
        have := maxjid_ge jobs' x hx
        show x.jid + 1 ≤ maxjid jobs' + 1
        omega
      · show ∃ x ∈ jobs', x.jid + 1 = maxjid jobs' + 1
        rcases maxjid_mem jobs' with h0 | ⟨x, hx, hxm⟩
        · refine ⟨{ pid := 0, jid := 0, state := UNDEF, cmdline := "" }, ?_, ?_⟩
          · rw [h4]; simp
          · simp [h0]
        · exact ⟨x, hx, by omega⟩
      · intro hall
        show maxjid jobs' + 1 = 1
        rcases maxjid_mem jobs' with h0 | ⟨x, hx, hxm⟩
        · omega
        · have := hall x hx
          rw [this] at hxm
          simp at hxm
          omega

/-- C9 at a concrete call: deleting pid 100 from a table holding the jobs
(100, jid 1) and (101, jid 2). -/
theorem deletejob_effect_witness :
    ∃ pre j post,
      ({ pid := 100, jid := 1, state := BG, cmdline := "a\n" } ::
        { pid := 101, jid := 2, state := ST, cmdline := "b\n" } :: emptyJobs) = pre ++ j :: post ∧
      (∀ x ∈ pre, x.pid ≠ 100) ∧ j.pid = 100 ∧
      (deletejob ({ pid := 100, jid := 1, state := BG, cmdline := "a\n" } ::
        { pid := 101, jid := 2, state := ST, cmdline := "b\n" } :: emptyJobs) 3 100).ret = 1 ∧
      (deletejob ({ pid := 100, jid := 1, state := BG, cmdline := "a\n" } ::
        { pid := 101, jid := 2, state := ST, cmdline := "b\n" } :: emptyJobs) 3 100).jobs =
          pre ++ { pid := 0, jid := 0, state := UNDEF, cmdline := "" } :: post ∧
      (deletejob ({ pid := 100, jid := 1, state := BG, cmdline := "a\n" } ::
        { pid := 101, jid := 2, state := ST, cmdline := "b\n" } :: emptyJobs) 3 100).nextjid = 3 := by
  obtain ⟨pre, j, post, h1, h2, h3, h4, h5, _, _, _, _⟩ :=
    (deletejob_effect ({ pid := 100, jid := 1, state := BG, cmdline := "a\n" } ::
        { pid := 101, jid := 2, state := ST, cmdline := "b\n" } :: emptyJobs) 3 100).2
      ⟨by decide, { pid := 100, jid := 1, state := BG, cmdline := "a\n" }, by simp, rfl⟩
  exact ⟨pre, j, post, h1, h2, h3, h4, h5, by decide⟩

/-! ## Sequences of addjob and deletejob calls -/

/-- C1 (code evaluated at the failing input): after `wrap_ops`, a call sequence
with pids `>= 1` and no pid added while live, four jobs are live and the jobs
with pids 1 and 17 both carry jid 1: the add that stored jid 16 wrapped the
counter to 1 while jid 1 was still in use. -/
theorem addjob_wrap_reuses_live_jid :
    opsFresh initState wrap_ops = true ∧
    ((runOps initState wrap_ops).jobs.filter (fun j => decide (j.pid ≠ 0))).map
        (fun j => (j.pid, j.jid)) = [(1, 1), (16, 16), (17, 1), (15, 15)] ∧
    liveJids (runOps initState wrap_ops).jobs = [1, 16, 1, 15] := by
  decide

/-- C5 (the claim fails as stated): after sixteen adds and the deletion of the
job with jid 1, `deletejob` has set the counter to `maxjid + 1 = 17`, which is
above `MAXJOBS`. -/
theorem nextjid_exceeds_maxjobs_after_delete :
    (runOps initState full_then_delete_ops).nextjid = 17 ∧
    ¬ ((1 : Int) ≤ (runOps initState full_then_delete_ops).nextjid ∧
        (runOps initState full_then_delete_ops).nextjid ≤ (MAXJOBS : Int)) := by
  decide

theorem addjob_nextjid_bounds (verbose : Bool) (jobs : List job_t) (nextjid pid state : Int)
    (cmdline : String)
    (h : 1 ≤ nextjid ∧ (nextjid ≤ (MAXJOBS : Int) ∨ nextjid = maxjid jobs + 1)) :
    ((addjob verbose jobs nextjid pid state cmdline).ret = 0 ∧
      (addjob verbose jobs nextjid pid state cmdline).jobs = jobs ∧
      (addjob verbose jobs nextjid pid state cmdline).nextjid = nextjid) ∨
      (1 ≤ (addjob verbose jobs nextjid pid state cmdline).nextjid ∧
       (addjob verbose jobs nextjid pid state cmdline).nextjid ≤ (MAXJOBS : Int)) := by
  unfold addjob
  by_cases hpid : pid < 1
  · simp [hpid]
  · cases hl : addjob_loop pid state nextjid cmdline jobs with
    | none => simp [hpid]
    | some jobs' =>
      right
      have hM : (MAXJOBS : Int) = 16 := rfl
      simp only [hpid, if_false]
      rw [hM] at h ⊢
      by_cases hw : nextjid + 1 > 16
      · rw [if_pos hw]
        omega
      · rw [if_neg hw]
        omega

/-- C5 as amended: in every state reachable from the empty table by `addjob`
and `deletejob` calls the next-job-id counter is at least 1, and it is at most
`MAXJOBS` unless it is `maxjid(jobs) + 1`, the value a deletion gives it
without wrapping.  After every successful add it is within `1..MAXJOBS`:
`addjob` alone wraps the counter to 1. -/
theorem nextjid_bounds (ops : List JobOp) :
    1 ≤ (runOps initState ops).nextjid ∧
    ((runOps initState ops).nextjid ≤ (MAXJOBS : Int) ∨
      (runOps initState ops).nextjid = maxjid (runOps initState ops).jobs + 1) ∧
    ∀ pid state cmdline,
      (addjob false (runOps initState ops).jobs (runOps initState ops).nextjid
          pid state cmdline).ret = 1 →
      1 ≤ (addjob false (runOps initState ops).jobs (runOps initState ops).nextjid
          pid state cmdline).nextjid ∧
      (addjob false (runOps initState ops).jobs (runOps initState ops).nextjid
          pid state cmdline).nextjid ≤ (MAXJOBS : Int) := by
  have key : ∀ (ops : List JobOp) (s : JobState),
      (1 ≤ s.nextjid ∧ (s.nextjid ≤ (MAXJOBS : Int) ∨ s.nextjid = maxjid s.jobs + 1)) →
      (1 ≤ (runOps s ops).nextjid ∧
        ((runOps s ops).nextjid ≤ (MAXJOBS : Int) ∨
          (runOps s ops).nextjid = maxjid (runOps s ops).jobs + 1)) := by
    intro ops
    induction ops with
    | nil => intro s hs; exact hs
    | cons op ops ih =>
      intro s hs
      show 1 ≤ (runOps (JobOp.apply s op) ops).nextjid ∧ _
      apply ih
      cases op with
      | add pid state cmdline =>
        show 1 ≤ (addjob false s.jobs s.nextjid pid state cmdline).nextjid ∧
          ((addjob false s.jobs s.nextjid pid state cmdline).nextjid ≤ (MAXJOBS : Int) ∨
           (addjob false s.jobs s.nextjid pid state cmdline).nextjid =
             maxjid (addjob false s.jobs s.nextjid pid state cmdline).jobs + 1)
        rcases addjob_nextjid_bounds false s.jobs s.nextjid pid state cmdline hs with h0 | h1
        · rw [h0.2.1, h0.2.2]
          exact hs
        · exact ⟨h1.1, Or.inl h1.2⟩
      | del pid =>
        show 1 ≤ (deletejob s.jobs s.nextjid pid).nextjid ∧
          ((deletejob s.jobs s.nextjid pid).nextjid ≤ (MAXJOBS : Int) ∨
           (deletejob s.jobs s.nextjid pid).nextjid =
             maxjid (deletejob s.jobs s.nextjid pid).jobs + 1)
        unfold deletejob
        by_cases hpid : pid < 1
        · simpa [hpid] using hs
        · cases hl : deletejob_loop pid s.jobs with
          | none => simpa [hpid] using hs
          | some jobs' =>
            have := maxjid_nonneg jobs'
            simp only [hpid, if_false]
            constructor
            · omega
            · simp
  have h0 : 1 ≤ initState.nextjid ∧
      (initState.nextjid ≤ (MAXJOBS : Int) ∨ initState.nextjid = maxjid initState.jobs + 1) := by
    decide
  have h := key ops initState h0
  refine ⟨h.1, h.2, ?_⟩
  intro pid state cmdline hret
  rcases addjob_nextjid_bounds false (runOps initState ops).jobs (runOps initState ops).nextjid
      pid state cmdline h with h0 | h1
  · rw [h0.1] at hret
    exact absurd hret (by decide)
  · exact h1

/-! ## Lookups and writes at the first slot with a given pid -/

theorem getjobpid_loop_split (pid : Int) (pre post : List job_t) (J : job_t)
    (hpre : ∀ x ∈ pre, x.pid ≠ pid) (hJ : J.pid = pid) :
    getjobpid_loop pid (pre ++ J :: post) = some pre.length := by
  induction pre with
  | nil => simp [getjobpid_loop, hJ]
  | cons a as ih =>
    have ha : a.pid ≠ pid := hpre a (by simp)
    have := ih (fun x hx => hpre x (by simp [hx]))
    simp [getjobpid_loop, ha, this]

theorem getjobpid_split (pid : Int) (pre post : List job_t) (J : job_t)
    (hpid : 1 ≤ pid) (hpre : ∀ x ∈ pre, x.pid ≠ pid) (hJ : J.pid = pid) :
    getjobpid (pre ++ J :: post) pid = some pre.length := by
  have : ¬ pid < 1 := by omega
  simp [getjobpid, this, getjobpid_loop_split pid pre post J hpre hJ]

theorem getjobpid_loop_eq_none_iff (pid : Int) (jobs : List job_t) :
    getjobpid_loop pid jobs = none ↔ ∀ j ∈ jobs, j.pid ≠ pid := by
  induction jobs with
  | nil => simp [getjobpid_loop]
  | cons j rest ih =>
    by_cases h : j.pid = pid
    · simp [getjobpid_loop, h]
    · simp [getjobpid_loop, h, ih]

theorem getjobpid_loop_eq_some (pid : Int) (jobs : List job_t) (i : Nat)
    (h : getjobpid_loop pid jobs = some i) :
    ∃ pre J post, jobs = pre ++ J :: post ∧ pre.length = i ∧ (∀ x ∈ pre, x.pid ≠ pid) ∧
      J.pid = pid := by
  induction jobs generalizing i with
  | nil => simp [getjobpid_loop] at h
  | cons j rest ih =>
    by_cases hj : j.pid = pid
    · simp [getjobpid_loop, hj] at h
      exact ⟨[], j, rest, rfl, by simp [← h], by simp, hj⟩
    · simp [getjobpid_loop, hj] at h
      obtain ⟨k, hk, rfl⟩ := h
      obtain ⟨pre, J, post, h1, h2, h3, h4⟩ := ih k hk
      refine ⟨j :: pre, J, post, by simp [h1], by simp [h2], ?_, h4⟩
      intro x hx
      rcases List.mem_cons.mp hx with rfl | hx
      · exact hj
      · exact h3 x hx

theorem deref_split (pre post : List job_t) (J : job_t) :
    deref (pre ++ J :: post) (some pre.length) = some J := by
  show (pre ++ J :: post)[pre.length]? = some J
  rw [List.getElem?_append_right (le_refl _)]
  simp

theorem deletejob_loop_split (pid : Int) (pre post : List job_t) (J : job_t)
    (hpre : ∀ x ∈ pre, x.pid ≠ pid) (hJ : J.pid = pid) :
    deletejob_loop pid (pre ++ J :: post) =
      some (pre ++ { pid := 0, jid := 0, state := UNDEF, cmdline := "" } :: post) := by
  induction pre with
  | nil => simp [deletejob_loop, hJ, clearjob]
  | cons a as ih =>
    have ha : a.pid ≠ pid := hpre a (by simp)
    have := ih (fun x hx => hpre x (by simp [hx]))
    simp [deletejob_loop, ha, this]

theorem set_state_split (pre post : List job_t) (J : job_t) (st : Int) :
    set_state (pre ++ J :: post) pre.length st = pre ++ { J with state := st } :: post := by
  induction pre with
  | nil => simp [set_state]
  | cons a as ih => simp [set_state, ih]

/-! ## The reaper -/

/-- C10: for a report whose pid has a table entry `J` (the first slot with that
pid, `jobs = pre ++ J :: post`): an exit report clears `J` and prints nothing;
a terminated-by-signal-`n` report prints `Job [J.jid] (pid) terminated by
signal n` and clears `J`; a stopped-by-signal-`n` report prints `Job [J.jid]
(pid) stopped by signal n` and sets `J.state` to `ST`, keeping pid, jid and
command line.  All other slots (`pre`, `post`) are unchanged, so no slot's
state becomes `FG`; a deletion also sets the counter to `maxjid + 1`. -/
theorem sigchld_report_effect (s : Shell) (pid : Int) (pre post : List job_t) (J : job_t)
    (hjobs : s.jobs = pre ++ J :: post) (hpid : 1 ≤ pid)
    (hpre : ∀ x ∈ pre, x.pid ≠ pid) (hJ : J.pid = pid) :
    (∀ code, sigchld_report s pid (ChildStatus.exited code) =
      Outcome.returned ()
        { s with jobs := pre ++ { pid := 0, jid := 0, state := UNDEF, cmdline := "" } :: post
                 nextjid := maxjid (pre ++ { pid := 0, jid := 0, state := UNDEF,
                                             cmdline := "" } :: post) + 1 }) ∧
    (∀ n, sigchld_report s pid (ChildStatus.signaled n) =
      Outcome.returned ()
        { s with jobs := pre ++ { pid := 0, jid := 0, state := UNDEF, cmdline := "" } :: post
                 nextjid := maxjid (pre ++ { pid := 0, jid := 0, state := UNDEF,
                                             cmdline := "" } :: post) + 1
                 trace := s.trace ++
                   [Action.print ("Job [" ++ toString J.jid ++ "] (" ++ toString pid ++
                      ") terminated by signal " ++ toString n ++ "\n")] }) ∧
    (∀ n, sigchld_report s pid (ChildStatus.stopped n) =
      Outcome.returned ()
        { s with jobs := pre ++ { pid := J.pid, jid := J.jid, state := ST,
                                  cmdline := J.cmdline } :: post
                 trace := s.trace ++
                   [Action.print ("Job [" ++ toString J.jid ++ "] (" ++ toString pid ++
                      ") stopped by signal " ++ toString n ++ "\n")] }) ∧
    (∀ st s1, sigchld_report s pid st = Outcome.returned () s1 →
      ∀ (k : Nat) (j1 : job_t), s1.jobs[k]? = some j1 → j1.state = FG →
        ∃ j : job_t, s.jobs[k]? = some j ∧ j.state = FG) := by
  have hnot : ¬ pid < 1 := by omega
  have hget : getjobpid s.jobs pid = some pre.length := by
    rw [hjobs]; exact getjobpid_split pid pre post J hpid hpre hJ
  have hderef : deref s.jobs (some pre.length) = some J := by
    rw [hjobs]; exact deref_split pre post J
  have hdel : deletejob s.jobs s.nextjid pid =
      { ret := 1
        jobs := pre ++ { pid := 0, jid := 0, state := UNDEF, cmdline := "" } :: post
        nextjid := maxjid (pre ++ { pid := 0, jid := 0, state := UNDEF, cmdline := "" } :: post) + 1
        out := [] } := by
    simp [deletejob, hnot, hjobs, deletejob_loop_split pid pre post J hpre hJ]
  have hset : set_state s.jobs pre.length ST =
      pre ++ { pid := J.pid, jid := J.jid, state := ST, cmdline := J.cmdline } :: post := by
    rw [hjobs]; exact set_state_split pre post J ST
  have h1 : ∀ code, sigchld_report s pid (ChildStatus.exited code) =
      Outcome.returned ()
        { s with jobs := pre ++ { pid := 0, jid := 0, state := UNDEF, cmdline := "" } :: post
                 nextjid := maxjid (pre ++ { pid := 0, jid := 0, state := UNDEF,
                                             cmdline := "" } :: post) + 1 } := by
    intro code
    simp [sigchld_report, Shell.deletejob, hdel]
  have h2 : ∀ n, sigchld_report s pid (ChildStatus.signaled n) =
      Outcome.returned ()
        { s with jobs := pre ++ { pid := 0, jid := 0, state := UNDEF, cmdline := "" } :: post
                 nextjid := maxjid (pre ++ { pid := 0, jid := 0, state := UNDEF,
                                             cmdline := "" } :: post) + 1
                 trace := s.trace ++
                   [Action.print ("Job [" ++ toString J.jid ++ "] (" ++ toString pid ++
                      ") terminated by signal " ++ toString n ++ "\n")] } := by
    intro n
    simp [sigchld_report, hget, hderef, Shell.deletejob, Shell.emit, hdel, fmt_terminated]
  have h3 : ∀ n, sigchld_report s pid (ChildStatus.stopped n) =
      Outcome.returned ()
        { s with jobs := pre ++ { pid := J.pid, jid := J.jid, state := ST,
                                  cmdline := J.cmdline } :: post
                 trace := s.trace ++
                   [Action.print ("Job [" ++ toString J.jid ++ "] (" ++ toString pid ++
                      ") stopped by signal " ++ toString n ++ "\n")] } := by
    intro n
    simp [sigchld_report, hget, hderef, Shell.emit, hset, fmt_stopped]
  refine ⟨h1, h2, h3, ?_⟩
  intro st s1 hs1 k j1 hk hfg
  have hcases : ∀ (X : job_t), X.state ≠ FG →
      (pre ++ X :: post)[k]? = some j1 → ∃ j : job_t, s.jobs[k]? = some j ∧ j.state = FG := by
    intro X hX hk'
    rw [hjobs]
    rcases Nat.lt_trichotomy k pre.length with hlt | heq | hgt
    · rw [List.getElem?_append_left hlt] at hk' ⊢
      exact ⟨j1, hk', hfg⟩
    · subst heq
      rw [List.getElem?_append_right (le_refl _)] at hk'
      simp only [Nat.sub_self, List.getElem?_cons_zero, Option.some.injEq] at hk'
      rw [← hk'] at hfg
      exact absurd hfg hX
    · rw [List.getElem?_append_right (by omega)] at hk' ⊢
      obtain ⟨m, hm⟩ : ∃ m, k - pre.length = m + 1 := ⟨k - pre.length - 1, by omega⟩
      rw [hm] at hk' ⊢
      simp at hk' ⊢
      exact ⟨j1, hk', hfg⟩
  cases st with
  | exited code =>
    rw [h1 code] at hs1
    injection hs1 with _ hs
    rw [← hs] at hk
    exact hcases _ (by decide) hk
  | signaled n =>
    rw [h2 n] at hs1
    injection hs1 with _ hs
    rw [← hs] at hk
    exact hcases _ (by decide) hk
  | stopped n =>
    rw [h3 n] at hs1
    injection hs1 with _ hs
    rw [← hs] at hk
    exact hcases _ (show (3 : Int) ≠ 1 by decide) hk
  | other =>
    simp [sigchld_report] at hs1
    rw [← hs1] at hk
    exact ⟨j1, hk, hfg⟩

/-- C10 at concrete reports for the job (pid 100, jid 1) of `one_job_shell`:
the lines printed and the tables left by a kill by signal 2 and a stop by
signal 20. -/
theorem sigchld_report_effect_witness :
    sigchld_report one_job_shell 100 (ChildStatus.signaled 2) =
      Outcome.returned ()
        { one_job_shell with
            jobs := emptyJobs
            nextjid := 1
            trace := [Action.print "Job [1] (100) terminated by signal 2\n"] } ∧
    sigchld_report one_job_shell 100 (ChildStatus.stopped 20) =
      Outcome.returned ()
        { one_job_shell with
            jobs := { pid := 100, jid := 1, state := ST, cmdline := "/bin/sleep 5\n" } ::
              List.replicate 15 { pid := 0, jid := 0, state := UNDEF, cmdline := "" }
            trace := [Action.print "Job [1] (100) stopped by signal 20\n"] } := by
  obtain ⟨_, h2, h3, _⟩ := sigchld_report_effect one_job_shell 100 []
    (List.replicate 15 { pid := 0, jid := 0, state := UNDEF, cmdline := "" })
    { pid := 100, jid := 1, state := FG, cmdline := "/bin/sleep 5\n" }
    rfl (by decide) (by simp) rfl
  exact ⟨(h2 2).trans (by decide), (h3 20).trans (by decide)⟩

/-! ## The kill builtin -/

/-- C4 (code evaluated at the failing input): with the job (pid 100, jid 1)
live, `kill %1` finds the job by jid, then looks the number 1 up again as a
pid, prints `(1): No such process` and sends no signal; the table is
unchanged.  `kill 100` sends `SIGKILL` to the process group `-100`. -/
theorem kill_percent_jid_looked_up_as_pid :
    eval (Shell.init false) (sys_forks 100) "/bin/sleep 5 &\n" =
      Outcome.returned () bg_job_shell ∧
    getjobjid bg_job_shell.jobs 1 = some 0 ∧
    getjobpid bg_job_shell.jobs 1 = none ∧
    eval bg_job_shell (sys_forks 101) "kill %1\n" =
      Outcome.returned ()
        { bg_job_shell with
            trace := bg_job_shell.trace ++ [Action.print "(1): No such process\n"] } ∧
    eval bg_job_shell (sys_forks 101) "kill 100\n" =
      Outcome.returned ()
        { bg_job_shell with trace := bg_job_shell.trace ++ [Action.kill (-100) SIGKILL] } := by
  decide

/-! ## Children without a table entry -/

/-- C3 (code evaluated at the failing input): `/bin/ls | /bin/wc &` forks the
children 100 and 101 and registers only 100.  When the reaper is told that
child 101 was terminated by signal 2, or stopped by signal 20,
`getjobpid(jobs, 101)` is `NULL` and the handler dereferences it. -/
theorem reaper_second_stage_null_deref :
    eval (Shell.init false) (sys_forks 100) "/bin/ls | /bin/wc &\n" =
      Outcome.returned () pipe_job_shell ∧
    Action.fork 101 ∈ pipe_job_shell.trace ∧
    getjobpid pipe_job_shell.jobs 101 = none ∧
    sigchld_handler pipe_job_shell [{ pid := 101, errno := 0, status := ChildStatus.signaled 2 }] =
      Outcome.nullDeref pipe_job_shell ∧
    sigchld_handler pipe_job_shell [{ pid := 101, errno := 0, status := ChildStatus.stopped 20 }] =
      Outcome.nullDeref pipe_job_shell := by
  decide

/-- C6 (code evaluated at the failing input): with all sixteen slots live,
`/bin/sleep 5 &` (child pid 17) makes `addjob` print the diagnostic and return
0 with table and counter unchanged; `eval` ignores the return value and
dereferences `getjobpid(jobs, 17)`, which is `NULL`.  The foreground launch
`/bin/sleep 5` completes (`waitfg` tests the pointer). -/
theorem eval_bg_full_table_null_deref :
    runOps initState
        ([1, 2, 3, 4, 5, 6, 7, 8, 9, 10, 11, 12, 13, 14, 15, 16].map
          (fun p => JobOp.add p BG "/bin/sleep 100 &\n")) =
      { jobs := full_jobs, nextjid := 1 } ∧
    getjobpid full_jobs 17 = none ∧
    eval full_shell (sys_forks 17) "/bin/sleep 5 &\n" =
      Outcome.nullDeref
        { full_shell with
            trace := [Action.sigblock, Action.fork 17,
              Action.print "Tried to create too many jobs\n",
              Action.addjob 17 BG 0, Action.sigunblock] } ∧
    eval full_shell (sys_forks 17) "/bin/sleep 5\n" =
      Outcome.returned ()
        { full_shell with
            trace := [Action.sigblock, Action.fork 17,
              Action.print "Tried to create too many jobs\n",
              Action.addjob 17 FG 0, Action.sigunblock]
            waiting := some 17 } := by
  decide

/-! ## Preservation of the table invariant -/

theorem slot_ok_clear : slot_ok { pid := 0, jid := 0, state := UNDEF, cmdline := "" } :=
  Or.inl rfl

theorem slot_ok_pid_nonneg (j : job_t) (h : slot_ok j) : 0 ≤ j.pid := by
  rcases h with h | h
  · rw [h]
  · omega

theorem slot_ok_live_of_jid (j : job_t) (h : slot_ok j) (hj : 1 ≤ j.jid) : 1 ≤ j.pid := by
  rcases h with h | h
  · rw [h] at hj; simp at hj
  · exact h.1

theorem slot_ok_live_of_fg (j : job_t) (h : slot_ok j) (hj : j.state = FG) : 1 ≤ j.pid := by
  rcases h with h | h
  · rw [h] at hj; exact absurd hj (by decide)
  · exact h.1

theorem pids_distinct_replace (pre post : List job_t) (J K : job_t)
    (h : pids_distinct (pre ++ J :: post))
    (hK : K.pid = 0 ∨ K.pid = J.pid ∨ ∀ x ∈ pre ++ J :: post, x.pid ≠ K.pid) :
    pids_distinct (pre ++ K :: post) := by
  unfold pids_distinct at h ⊢
  rw [List.pairwise_append, List.pairwise_cons] at h ⊢
  obtain ⟨h1, ⟨h2, h3⟩, h4⟩ := h
  refine ⟨h1, ⟨?_, h3⟩, ?_⟩
  · intro b hb hK0
    rcases hK with hK | hK | hK
    · exact absurd hK hK0
    · rw [hK]; exact h2 b hb (by rw [← hK]; exact hK0)
    · exact fun e => hK b (by simp [hb]) e.symm
  · intro a ha b hb
    rcases List.mem_cons.mp hb with rfl | hb
    · intro ha0
      rcases hK with hK | hK | hK
      · rw [hK]; exact ha0
      · rw [hK]; exact h4 a ha J (by simp) ha0
      · exact hK a (by simp [ha])
    · exact h4 a ha b (by simp [hb])

theorem table_ok_replace (pre post : List job_t) (J K : job_t) (n m : Int)
    (h : table_ok (pre ++ J :: post) n) (hm : 1 ≤ m) (hKok : slot_ok K)
    (hK : K.pid = 0 ∨ K.pid = J.pid ∨ ∀ x ∈ pre ++ J :: post, x.pid ≠ K.pid) :
    table_ok (pre ++ K :: post) m := by
  obtain ⟨h1, h2, _⟩ := h
  refine ⟨?_, pids_distinct_replace pre post J K h2 hK, hm⟩
  intro j hj
  rcases List.mem_append.mp hj with hj | hj
  · exact h1 j (by simp [hj])
  · rcases List.mem_cons.mp hj with rfl | hj
    · exact hKok
    · exact h1 j (by simp [hj])

theorem addjob_table_ok (verbose : Bool) (jobs : List job_t) (nextjid pid state : Int)
    (cmdline : String) (h : table_ok jobs nextjid)
    (hst : state = FG ∨ state = BG ∨ state = ST)
    (hfresh : ∀ x ∈ jobs, x.pid ≠ pid) :
    table_ok (addjob verbose jobs nextjid pid state cmdline).jobs
      (addjob verbose jobs nextjid pid state cmdline).nextjid := by
  unfold addjob
  by_cases hpid : pid < 1
  · simpa [hpid] using h
  · cases hl : addjob_loop pid state nextjid cmdline jobs with
    | none => simpa [hpid] using h
    | some jobs' =>
      obtain ⟨pre, j, post, h1, _, _, h4⟩ := addjob_loop_eq_some pid state nextjid cmdline jobs jobs' hl
      simp only [hpid, if_false]
      rw [h4]
      rw [h1] at h hfresh
      have hn := h.2.2
      refine table_ok_replace pre post j _ nextjid _ h ?_ (Or.inr ⟨show 1 ≤ pid by omega, hn, hst⟩)
        (Or.inr (Or.inr hfresh))
      by_cases hw : nextjid + 1 > (MAXJOBS : Int)
      · rw [if_pos hw]
      · rw [if_neg hw]; omega

theorem deletejob_table_ok (jobs : List job_t) (nextjid pid : Int) (h : table_ok jobs nextjid) :
    table_ok (deletejob jobs nextjid pid).jobs (deletejob jobs nextjid pid).nextjid := by
  unfold deletejob
  by_cases hpid : pid < 1
  · simpa [hpid] using h
  · cases hl : deletejob_loop pid jobs with
    | none => simpa [hpid] using h
    | some jobs' =>
      obtain ⟨pre, j, post, h1, _, _, h4⟩ := deletejob_loop_eq_some pid jobs jobs' hl
      simp only [hpid, if_false]
      rw [h1] at h
      have := maxjid_nonneg jobs'
      rw [h4] at this ⊢
      exact table_ok_replace pre post j _ nextjid _ h (by omega) slot_ok_clear (Or.inl rfl)

theorem deletejob_keeps_non_fg (jobs : List job_t) (nextjid pid : Int) (P : job_t → Prop)
    (h : ∀ j ∈ jobs, j.state = FG → P j) :
    ∀ j ∈ (deletejob jobs nextjid pid).jobs, j.state = FG → P j := by
  unfold deletejob
  by_cases hpid : pid < 1
  · simpa [hpid] using h
  · cases hl : deletejob_loop pid jobs with
    | none => simpa [hpid] using h
    | some jobs' =>
      obtain ⟨pre, j, post, h1, _, _, h4⟩ := deletejob_loop_eq_some pid jobs jobs' hl
      simp only [hpid, if_false]
      rw [h4]
      rw [h1] at h
      intro x hx hfg
      rcases List.mem_append.mp hx with hx | hx
      · exact h x (by simp [hx]) hfg
      · rcases List.mem_cons.mp hx with rfl | hx
        · exact absurd hfg (by decide)
        · exact h x (by simp [hx]) hfg

/-- At most one slot is `FG` when all `FG` slots hold one pid `p >= 1` and
live pids are distinct. -/
theorem fgcount_le_one_of_same_pid (jobs : List job_t) (p : Int) (hp : p ≠ 0)
    (hd : pids_distinct jobs) (hfg : ∀ j ∈ jobs, j.state = FG → j.pid = p) :
    fgcount jobs ≤ 1 := by
  induction jobs with
  | nil => simp [fgcount]
  | cons a rest ih =>
    unfold pids_distinct at hd
    rw [List.pairwise_cons] at hd
    have ih' := ih hd.2 (fun j hj => hfg j (by simp [hj]))
    by_cases ha : a.state = FG
    · have hap : a.pid = p := hfg a (by simp) ha
      have hrest : fgcount rest = 0 := by
        unfold fgcount
        rw [List.countP_eq_zero]
        intro b hb
        simp only [decide_eq_true_eq]
        intro hbfg
        have hbp : b.pid = p := hfg b (by simp [hb]) hbfg
        exact hd.1 b hb (by rw [hap]; exact hp) (by rw [hap, hbp])
      unfold fgcount at hrest ⊢
      rw [List.countP_cons]
      simp [ha, hrest]
    · unfold fgcount at ih' ⊢
      rw [List.countP_cons]
      simpa [ha] using ih'

theorem fgcount_zero_of_no_fg (jobs : List job_t) (h : ∀ j ∈ jobs, j.state ≠ FG) :
    fgcount jobs = 0 := by
  unfold fgcount
  rw [List.countP_eq_zero]
  intro b hb
  simpa using h b hb

theorem shell_ok_fgcount (s : Shell) (h : shell_ok s) : fgcount s.jobs ≤ 1 := by
  obtain ⟨⟨hslots, hd, _⟩, hfg⟩ := h
  cases hw : s.waiting with
  | none =>
    rw [fgcount_zero_of_no_fg]
    · omega
    · intro j hj hjfg
      have := hfg j hj hjfg
      rw [hw] at this
      exact Option.noConfusion this
  | some p =>
    by_cases hp : p = 0
    · rw [fgcount_zero_of_no_fg]
      · omega
      · intro j hj hjfg
        have h1 := hfg j hj hjfg
        rw [hw] at h1
        have h2 := slot_ok_live_of_fg j (hslots j hj) hjfg
        injection h1 with h1
        omega
    · apply fgcount_le_one_of_same_pid s.jobs p hp hd
      intro j hj hjfg
      have h1 := hfg j hj hjfg
      rw [hw] at h1
      injection h1 with h1
      exact h1.symm

theorem getjobjid_loop_eq_some (jid : Int) (jobs : List job_t) (i : Nat)
    (h : getjobjid_loop jid jobs = some i) :
    ∃ pre J post, jobs = pre ++ J :: post ∧ pre.length = i ∧ (∀ x ∈ pre, x.jid ≠ jid) ∧
      J.jid = jid := by
  induction jobs generalizing i with
  | nil => simp [getjobjid_loop] at h
  | cons j rest ih =>
    by_cases hj : j.jid = jid
    · simp [getjobjid_loop, hj] at h
      exact ⟨[], j, rest, rfl, by simp [← h], by simp, hj⟩
    · simp [getjobjid_loop, hj] at h
      obtain ⟨k, hk, rfl⟩ := h
      obtain ⟨pre, J, post, h1, h2, h3, h4⟩ := ih k hk
      refine ⟨j :: pre, J, post, by simp [h1], by simp [h2], ?_, h4⟩
      intro x hx
      rcases List.mem_cons.mp hx with rfl | hx
      · exact hj
      · exact h3 x hx

theorem getjobpid_eq_some (jobs : List job_t) (pid : Int) (i : Nat)
    (h : getjobpid jobs pid = some i) :
    1 ≤ pid ∧ ∃ pre J post, jobs = pre ++ J :: post ∧ pre.length = i ∧
      (∀ x ∈ pre, x.pid ≠ pid) ∧ J.pid = pid := by
  unfold getjobpid at h
  by_cases hp : pid < 1
  · simp [hp] at h
  · simp only [hp, if_false] at h
    exact ⟨by omega, getjobpid_loop_eq_some pid jobs i h⟩

theorem getjobjid_eq_some (jobs : List job_t) (jid : Int) (i : Nat)
    (h : getjobjid jobs jid = some i) :
    1 ≤ jid ∧ ∃ pre J post, jobs = pre ++ J :: post ∧ pre.length = i ∧
      (∀ x ∈ pre, x.jid ≠ jid) ∧ J.jid = jid := by
  unfold getjobjid at h
  by_cases hp : jid < 1
  · simp [hp] at h
  · simp only [hp, if_false] at h
    exact ⟨by omega, getjobjid_loop_eq_some jid jobs i h⟩

/-- Writing a state through a pointer to a live slot keeps the invariant, as
long as a write of `FG` goes with a wait for that slot's pid. -/
theorem set_state_shell_ok (jobs pre post : List job_t) (J : job_t) (n st : Int)
    (w : Option Int) (hjobs : jobs = pre ++ J :: post) (h : table_ok jobs n)
    (hfg : ∀ j ∈ jobs, j.state = FG → w = some j.pid) (hJ : 1 ≤ J.pid)
    (hst : st = FG ∨ st = BG ∨ st = ST) (hw : st = FG → w = some J.pid) :
    table_ok (set_state jobs pre.length st) n ∧
      ∀ j ∈ set_state jobs pre.length st, j.state = FG → w = some j.pid := by
  subst hjobs
  rw [set_state_split]
  have hJok : slot_ok J := h.1 J (by simp)
  have hjid : 1 ≤ J.jid := by
    rcases hJok with hc | hl
    · rw [hc] at hJ; simp at hJ
    · exact hl.2.1
  refine ⟨table_ok_replace pre post J _ n n h h.2.2 (Or.inr ⟨hJ, hjid, hst⟩) (Or.inr (Or.inl rfl)), ?_⟩
  intro j hj hjfg
  rcases List.mem_append.mp hj with hj | hj
  · exact hfg j (by simp [hj]) hjfg
  · rcases List.mem_cons.mp hj with rfl | hj
    · exact hw hjfg
    · exact hfg j (by simp [hj]) hjfg

theorem shell_ok_of_no_fg (s : Shell) (h : table_ok s.jobs s.nextjid)
    (hno : ∀ j ∈ s.jobs, j.state ≠ FG) : shell_ok s :=
  ⟨h, fun j hj hfg => absurd hfg (hno j hj)⟩

/-! ## The reaper keeps the invariant -/

theorem sigchld_report_shell_ok (s s1 : Shell) (pid : Int) (st : ChildStatus)
    (h : shell_ok s) (hr : sigchld_report s pid st = Outcome.returned () s1) :
    shell_ok s1 ∧ s1.waiting = s.waiting := by
  obtain ⟨hok, hfg⟩ := h
  cases st with
  | exited code =>
    simp only [sigchld_report, Shell.deletejob, Outcome.returned.injEq, true_and] at hr
    subst hr
    exact ⟨⟨deletejob_table_ok s.jobs s.nextjid pid hok,
      deletejob_keeps_non_fg s.jobs s.nextjid pid (fun j => s.waiting = some j.pid) hfg⟩, rfl⟩
  | signaled n =>
    simp only [sigchld_report] at hr
    cases hd : deref s.jobs (getjobpid s.jobs pid) with
    | none => rw [hd] at hr; exact Outcome.noConfusion hr
    | some job =>
      rw [hd] at hr
      simp only [Shell.deletejob, Shell.emit, Outcome.returned.injEq, true_and] at hr
      subst hr
      exact ⟨⟨deletejob_table_ok s.jobs s.nextjid pid hok,
        deletejob_keeps_non_fg s.jobs s.nextjid pid (fun j => s.waiting = some j.pid) hfg⟩, rfl⟩
  | stopped n =>
    simp only [sigchld_report] at hr
    cases hd : deref s.jobs (getjobpid s.jobs pid) with
    | none => rw [hd] at hr; exact Outcome.noConfusion hr
    | some job =>
      rw [hd] at hr
      simp only [Shell.emit] at hr
      cases hg : getjobpid s.jobs pid with
      | none =>
        rw [hg] at hr
        simp only [Outcome.returned.injEq, true_and] at hr
        subst hr
        exact ⟨⟨hok, hfg⟩, rfl⟩
      | some i =>
        rw [hg] at hr
        simp only [Outcome.returned.injEq, true_and] at hr
        subst hr
        obtain ⟨hpid, pre, J, post, hjobs, hlen, _, hJ⟩ := getjobpid_eq_some s.jobs pid i hg
        subst hlen
        have := set_state_shell_ok s.jobs pre post J s.nextjid ST s.waiting hjobs hok hfg
          (by omega) (Or.inr (Or.inr rfl)) (fun e => absurd e (by decide))
        exact ⟨this, rfl⟩
  | other =>
    simp only [sigchld_report, Outcome.returned.injEq, true_and] at hr
    subst hr
    exact ⟨⟨hok, hfg⟩, rfl⟩

theorem sigchld_handler_shell_ok (ws : List WaitRet) (s s1 : Shell)
    (h : shell_ok s) (hr : sigchld_handler s ws = Outcome.returned () s1) :
    shell_ok s1 ∧ s1.waiting = s.waiting := by
  induction ws generalizing s with
  | nil =>
    simp only [sigchld_handler, Outcome.returned.injEq, true_and] at hr
    subst hr
    exact ⟨h, rfl⟩
  | cons w ws ih =>
    unfold sigchld_handler at hr
    by_cases h1 : w.pid < 0
    · simp only [h1, if_true] at hr
      by_cases h2 : w.errno = ECHILD
      · simp only [h2, if_true, Outcome.returned.injEq, true_and] at hr
        subst hr
        exact ⟨h, rfl⟩
      · simp only [h2, if_false] at hr
        by_cases h3 : w.errno = EINTR
        · simp only [h3, if_true] at hr
          exact ih s h hr
        · simp only [h3, if_false, unix_error] at hr
          exact Outcome.noConfusion hr
    · simp only [h1, if_false] at hr
      by_cases h2 : w.pid = 0
      · simp only [h2, if_true, Outcome.returned.injEq, true_and] at hr
        subst hr
        exact ⟨h, rfl⟩
      · simp only [h2, if_false] at hr
        cases hrep : sigchld_report s w.pid w.status with
        | returned v s2 =>
          rw [hrep] at hr
          simp only at hr
          have h2 := sigchld_report_shell_ok s s2 w.pid w.status h hrep
          have h3 := ih s2 h2.1 hr
          exact ⟨h3.1, h3.2.trans h2.2⟩
        | exited c s2 => rw [hrep] at hr; exact Outcome.noConfusion hr
        | execed s2 => rw [hrep] at hr; exact Outcome.noConfusion hr
        | nullDeref s2 => rw [hrep] at hr; exact Outcome.noConfusion hr

/-! ## The builtins and the launcher keep the invariant -/

theorem builtin_kill_frame (s : Shell) (a0 : String) (args : List String) :
    (builtin_kill s a0 args).jobs = s.jobs ∧ (builtin_kill s a0 args).nextjid = s.nextjid ∧
    (builtin_kill s a0 args).waiting = s.waiting ∧
    (builtin_kill s a0 args).verbose = s.verbose := by
  unfold builtin_kill
  cases args with
  | nil => simp [Shell.emit]
  | cons a1 rest =>
    simp only
    split_ifs
    · simp [Shell.emit]
    · simp [Shell.emit]
    · simp [Shell.emit]
    · cases deref s.jobs (getjobpid s.jobs (parse_id a1).id) <;> simp [Shell.emit]

theorem do_bgfg_shell_ok (s s1 : Shell) (argv : List String)
    (hok : table_ok s.jobs s.nextjid) (hno : ∀ j ∈ s.jobs, j.state ≠ FG)
    (hr : do_bgfg s argv [] = Outcome.returned () s1) : shell_ok s1 := by
  have hemit : ∀ a, shell_ok (s.emit a) := fun a => shell_ok_of_no_fg _ hok hno
  have hret : ∀ a, Outcome.returned () (s.emit a) = Outcome.returned () s1 → shell_ok s1 := by
    intro a h
    injection h with _ h
    rw [← h]; exact hemit a
  unfold do_bgfg at hr
  by_cases h0 : fgpid s.jobs ≠ 0
  · rw [if_pos h0] at hr
    exact hret _ hr
  · rw [if_neg h0] at hr
    match argv, hr with
    | [], hr => exact Outcome.noConfusion hr
    | [a0], hr => exact hret _ hr
    | a0 :: a1 :: rest, hr =>
      simp only at hr
      by_cases hbad : (parse_id a1).bad = true
      · rw [if_pos hbad] at hr
        exact hret _ hr
      · rw [if_neg hbad] at hr
        simp only [sigchld_handler, Outcome.bind] at hr
        generalize hjob : (if (parse_id a1).pct = true then getjobjid s.jobs (parse_id a1).id
            else getjobpid s.jobs (parse_id a1).id) = job at hr
        cases job with
        | none =>
          simp only at hr
          by_cases hp : (parse_id a1).pct = true
          · rw [if_pos hp] at hr
            exact hret _ hr
          · rw [if_neg hp] at hr
            exact hret _ hr
        | some i =>
          simp only [do_bgfg_job] at hr
          cases hd : deref s.jobs (some i) with
          | none =>
            rw [hd] at hr
            exact Outcome.noConfusion hr
          | some j =>
            rw [hd] at hr
            simp only at hr
            have hsplit : ∃ pre J post, s.jobs = pre ++ J :: post ∧ pre.length = i ∧ 1 ≤ J.pid := by
              by_cases hp : (parse_id a1).pct = true
              · rw [if_pos hp] at hjob
                obtain ⟨hjid, pre, J, post, h1, h2, _, h4⟩ := getjobjid_eq_some _ _ _ hjob
                refine ⟨pre, J, post, h1, h2, ?_⟩
                exact slot_ok_live_of_jid J (hok.1 J (by rw [h1]; simp)) (by omega)
              · rw [if_neg hp] at hjob
                obtain ⟨hpid, pre, J, post, h1, h2, _, h4⟩ := getjobpid_eq_some _ _ _ hjob
                exact ⟨pre, J, post, h1, h2, by omega⟩
            obtain ⟨pre, J, post, h1, h2, hJ⟩ := hsplit
            subst h2
            have hjJ : j = J := by
              have := deref_split pre post J
              rw [← h1, hd] at this
              exact Option.some.inj this
            subst hjJ
            have hjobs' : (if j.state = ST then s.emit (Action.kill (-j.pid) SIGCONT) else s).jobs
                = s.jobs := by split_ifs <;> rfl
            have hn' : (if j.state = ST then s.emit (Action.kill (-j.pid) SIGCONT) else s).nextjid
                = s.nextjid := by split_ifs <;> rfl
            have hw' : (if j.state = ST then s.emit (Action.kill (-j.pid) SIGCONT) else s).waiting
                = s.waiting := by split_ifs <;> rfl
            by_cases hfg : a0 = "fg"
            · rw [if_pos hfg] at hr
              injection hr with _ hr
              rw [← hr]
              show table_ok _ _ ∧ _
              simp only [waitfg, hjobs', hn']
              exact set_state_shell_ok s.jobs pre post j s.nextjid FG (some j.pid) h1 hok
                (fun x hx hxfg => absurd hxfg (hno x hx)) hJ (Or.inl rfl) (fun _ => rfl)
            · rw [if_neg hfg] at hr
              injection hr with _ hr
              rw [← hr]
              show table_ok _ _ ∧ _
              simp only [hjobs', hn', hw']
              exact set_state_shell_ok s.jobs pre post j s.nextjid BG s.waiting h1 hok
                (fun x hx hxfg => absurd hxfg (hno x hx)) hJ (Or.inr (Or.inl rfl))
                (fun e => absurd e (by decide))

theorem builtin_cmd_shell_ok (s s1 : Shell) (argv : List String) (r : Int)
    (hok : table_ok s.jobs s.nextjid) (hno : ∀ j ∈ s.jobs, j.state ≠ FG)
    (hr : builtin_cmd s argv [] = Outcome.returned r s1) :
    shell_ok s1 ∧ (r = 0 → s1.jobs = s.jobs ∧ s1.nextjid = s.nextjid) := by
  unfold builtin_cmd at hr
  match argv, hr with
  | [], hr => exact Outcome.noConfusion hr
  | a0 :: args, hr =>
    simp only at hr
    by_cases h1 : a0 = "quit"
    · rw [if_pos h1] at hr; exact Outcome.noConfusion hr
    · rw [if_neg h1] at hr
      by_cases h2 : a0 = "&"
      · rw [if_pos h2] at hr
        injection hr with hv hs
        rw [← hs]
        exact ⟨shell_ok_of_no_fg _ hok hno, fun _ => ⟨rfl, rfl⟩⟩
      · rw [if_neg h2] at hr
        by_cases h3 : a0 = "jobs"
        · rw [if_pos h3] at hr
          injection hr with hv hs
          rw [← hs]
          exact ⟨shell_ok_of_no_fg _ hok hno, fun _ => ⟨rfl, rfl⟩⟩
        · rw [if_neg h3] at hr
          by_cases h4 : a0 = "fg" ∨ a0 = "bg"
          · rw [if_pos h4] at hr
            cases hb : do_bgfg s (a0 :: args) [] with
            | returned v s2 =>
              rw [hb] at hr
              simp only [Outcome.bind] at hr
              injection hr with hv hs
              rw [← hs]
              refine ⟨do_bgfg_shell_ok s s2 _ hok hno hb, fun h0 => ?_⟩
              rw [← hv] at h0
              exact absurd h0 (by decide)
            | exited c s2 => rw [hb] at hr; exact Outcome.noConfusion hr
            | execed s2 => rw [hb] at hr; exact Outcome.noConfusion hr
            | nullDeref s2 => rw [hb] at hr; exact Outcome.noConfusion hr
          · rw [if_neg h4] at hr
            by_cases h5 : a0 = "kill"
            · rw [if_pos h5] at hr
              injection hr with hv hs
              rw [← hs]
              obtain ⟨e1, e2, _, _⟩ := builtin_kill_frame s a0 args
              refine ⟨shell_ok_of_no_fg _ (by rw [e1, e2]; exact hok) (by rw [e1]; exact hno),
                fun _ => ⟨e1, e2⟩⟩
            · rw [if_neg h5] at hr
              injection hr with hv hs
              rw [← hs]
              exact ⟨shell_ok_of_no_fg _ hok hno, fun _ => ⟨rfl, rfl⟩⟩

theorem scan_loop_frame (toks : List String) (s s1 : Shell) (env env1 : Sys) (sc sc1 : Scan)
    (hr : scan_loop s env sc toks = Outcome.returned (sc1, env1) s1) :
    s1.jobs = s.jobs ∧ s1.nextjid = s.nextjid ∧ s1.waiting = s.waiting ∧
    s1.verbose = s.verbose ∧ env1.forks = env.forks := by
  induction toks generalizing s env sc with
  | nil =>
    simp only [scan_loop] at hr
    injection hr with hv hs
    injection hv with _ he
    rw [← hs, ← he]
    exact ⟨rfl, rfl, rfl, rfl, rfl⟩
  | cons tok rest ih =>
    unfold scan_loop at hr
    by_cases h1 : tok = "<"
    · rw [if_pos h1] at hr
      have := ih _ _ _ hr
      obtain ⟨a, b, c, d, e⟩ := this
      refine ⟨a.trans ?_, b.trans ?_, c.trans ?_, d.trans ?_, e⟩ <;>
        (simp only [Shell.emit]; split_ifs <;> rfl)
    · rw [if_neg h1] at hr
      by_cases h2 : tok = "|"
      · rw [if_pos h2] at hr
        simp only at hr
        by_cases h3 : (env.pipes.headD (-1, -1, -1)).1 < 0
        · rw [if_pos h3] at hr
          exact Outcome.noConfusion hr
        · rw [if_neg h3] at hr
          obtain ⟨a, b, c, d, e⟩ := ih _ _ _ hr
          exact ⟨a, b, c, d, e⟩
      · rw [if_neg h2] at hr
        by_cases h3 : tok = ">"
        · rw [if_pos h3] at hr
          obtain ⟨a, b, c, d, e⟩ := ih _ _ _ hr
          refine ⟨a.trans ?_, b.trans ?_, c.trans ?_, d.trans ?_, e⟩ <;>
            (simp only [Shell.emit]; split_ifs <;> rfl)
        · rw [if_neg h3] at hr
          exact ih _ _ _ hr

theorem addjob_mem (verbose : Bool) (jobs : List job_t) (nextjid pid state : Int)
    (cmdline : String) :
    ∀ j ∈ (addjob verbose jobs nextjid pid state cmdline).jobs,
      j ∈ jobs ∨ j = { pid := pid, state := state, jid := nextjid, cmdline := cmdline } := by
  unfold addjob
  by_cases hpid : pid < 1
  · rw [if_pos hpid]; exact fun j hj => Or.inl hj
  · rw [if_neg hpid]
    cases hl : addjob_loop pid state nextjid cmdline jobs with
    | none => exact fun j hj => Or.inl hj
    | some jobs' =>
      obtain ⟨pre, k, post, h1, _, _, h4⟩ := addjob_loop_eq_some pid state nextjid cmdline jobs jobs' hl
      simp only
      rw [h4, h1]
      intro j hj
      rcases List.mem_append.mp hj with hj | hj
      · exact Or.inl (by simp [hj])
      · rcases List.mem_cons.mp hj with rfl | hj
        · exact Or.inr rfl
        · exact Or.inl (by simp [hj])

theorem sigchld_report_waiting (s s1 : Shell) (pid : Int) (st : ChildStatus) (w : Option Int)
    (hr : sigchld_report s pid st = Outcome.returned () s1) :
    sigchld_report { s with waiting := w } pid st =
      Outcome.returned () { s1 with waiting := w } := by
  cases st with
  | exited c =>
    simp only [sigchld_report, Shell.deletejob, Outcome.returned.injEq, true_and] at hr ⊢
    rw [← hr]
  | signaled sig =>
    simp only [sigchld_report] at hr ⊢
    cases hd : deref s.jobs (getjobpid s.jobs pid) with
    | none => rw [hd] at hr; exact Outcome.noConfusion hr
    | some job =>
      rw [hd] at hr
      simp only [Shell.deletejob, Shell.emit, Outcome.returned.injEq, true_and] at hr ⊢
      rw [← hr]
  | stopped sig =>
    simp only [sigchld_report] at hr ⊢
    cases hd : deref s.jobs (getjobpid s.jobs pid) with
    | none => rw [hd] at hr; exact Outcome.noConfusion hr
    | some job =>
      rw [hd] at hr
      simp only [Shell.emit] at hr ⊢
      cases hg : getjobpid s.jobs pid with
      | none =>
        rw [hg] at hr
        simp only [Outcome.returned.injEq, true_and] at hr ⊢
        rw [← hr]
      | some i =>
        rw [hg] at hr
        simp only [Outcome.returned.injEq, true_and] at hr ⊢
        rw [← hr]
  | other =>
    simp only [sigchld_report, Outcome.returned.injEq, true_and] at hr ⊢
    rw [← hr]

/-- The reaper neither reads nor writes the pid the main flow waits for. -/
theorem sigchld_handler_waiting (ws : List WaitRet) (s s1 : Shell) (w : Option Int)
    (hr : sigchld_handler s ws = Outcome.returned () s1) :
    sigchld_handler { s with waiting := w } ws =
      Outcome.returned () { s1 with waiting := w } := by
  induction ws generalizing s with
  | nil =>
    simp only [sigchld_handler, Outcome.returned.injEq, true_and] at hr ⊢
    rw [← hr]
  | cons x ws ih =>
    unfold sigchld_handler at hr ⊢
    by_cases h1 : x.pid < 0
    · rw [if_pos h1] at hr ⊢
      by_cases h2 : x.errno = ECHILD
      · rw [if_pos h2] at hr ⊢
        simp only [Outcome.returned.injEq, true_and] at hr ⊢
        rw [← hr]
      · rw [if_neg h2] at hr ⊢
        by_cases h3 : x.errno = EINTR
        · rw [if_pos h3] at hr ⊢
          exact ih s hr
        · rw [if_neg h3] at hr
          exact Outcome.noConfusion hr
    · rw [if_neg h1] at hr ⊢
      by_cases h2 : x.pid = 0
      · rw [if_pos h2] at hr ⊢
        simp only [Outcome.returned.injEq, true_and] at hr ⊢
        rw [← hr]
      · rw [if_neg h2] at hr ⊢
        cases hrep : sigchld_report s x.pid x.status with
        | returned v s2 =>
          rw [hrep] at hr
          simp only at hr
          rw [sigchld_report_waiting s s2 x.pid x.status w hrep]
          simp only
          exact ih s2 hr
        | exited c s2 => rw [hrep] at hr; exact Outcome.noConfusion hr
        | execed s2 => rw [hrep] at hr; exact Outcome.noConfusion hr
        | nullDeref s2 => rw [hrep] at hr; exact Outcome.noConfusion hr

theorem eval_parent_shell_ok (s s1 : Shell) (sc : Scan) (pid bg : Int) (cmdline : String)
    (pending : List WaitRet)
    (hok : table_ok s.jobs s.nextjid) (hno : ∀ j ∈ s.jobs, j.state ≠ FG)
    (hfresh : ∀ x ∈ s.jobs, x.pid ≠ pid)
    (hr : eval_parent s sc pid bg cmdline pending = Outcome.returned () s1) : shell_ok s1 := by
  unfold eval_parent at hr
  simp only at hr
  generalize hs3 : (if sc.pipe_rd > 0 then
      ((if sc.outfd > 0 then (if sc.infd > 0 then s.emit (Action.close sc.infd) else s).emit
          (Action.close sc.outfd) else (if sc.infd > 0 then s.emit (Action.close sc.infd) else s)).emit
        (Action.close sc.pipe_rd)).emit (Action.close sc.pipe_wr)
      else (if sc.outfd > 0 then (if sc.infd > 0 then s.emit (Action.close sc.infd) else s).emit
          (Action.close sc.outfd) else (if sc.infd > 0 then s.emit (Action.close sc.infd) else s))) = s3 at hr
  have hj3 : s3.jobs = s.jobs ∧ s3.nextjid = s.nextjid := by
    rw [← hs3]
    split_ifs <;> exact ⟨rfl, rfl⟩
  have hst : (if bg ≠ 0 then BG else FG) = FG ∨ (if bg ≠ 0 then BG else FG) = BG ∨
      (if bg ≠ 0 then BG else FG) = ST := by
    split_ifs
    · exact Or.inr (Or.inl rfl)
    · exact Or.inl rfl
  have hok4 : table_ok (s3.addjob pid (if bg ≠ 0 then BG else FG) cmdline).2.jobs
      (s3.addjob pid (if bg ≠ 0 then BG else FG) cmdline).2.nextjid := by
    simp only [Shell.addjob, Shell.emit, Shell.prints]
    rw [hj3.1, hj3.2]
    exact addjob_table_ok _ _ _ _ _ _ hok hst hfresh
  have hmem4 : ∀ j ∈ (s3.addjob pid (if bg ≠ 0 then BG else FG) cmdline).2.jobs,
      j ∈ s.jobs ∨ j = { pid := pid, state := (if bg ≠ 0 then BG else FG), jid := s.nextjid,
                         cmdline := cmdline } := by
    simp only [Shell.addjob, Shell.emit, Shell.prints]
    rw [hj3.1, hj3.2]
    exact addjob_mem _ _ _ _ _ _
  cases hh : sigchld_handler ((s3.addjob pid (if bg ≠ 0 then BG else FG) cmdline).2.emit
      Action.sigunblock) pending with
  | exited c s6 => rw [hh] at hr; exact Outcome.noConfusion hr
  | execed s6 => rw [hh] at hr; exact Outcome.noConfusion hr
  | nullDeref s6 => rw [hh] at hr; exact Outcome.noConfusion hr
  | returned v s6 =>
    rw [hh] at hr
    simp only [Outcome.bind] at hr
    by_cases hbg : bg = 0
    · rw [if_pos hbg] at hr
      injection hr with _ hr
      rw [← hr]
      have h5 : shell_ok { ((s3.addjob pid (if bg ≠ 0 then BG else FG) cmdline).2.emit
          Action.sigunblock) with waiting := some pid } := by
        refine ⟨hok4, ?_⟩
        intro j hj hjfg
        rcases hmem4 j hj with h | h
        · exact absurd hjfg (hno j h)
        · rw [h]
      exact (sigchld_handler_shell_ok pending _ _ h5
        (sigchld_handler_waiting pending _ s6 (some pid) hh)).1
    · rw [if_neg hbg] at hr
      have hno4 : ∀ j ∈ (s3.addjob pid (if bg ≠ 0 then BG else FG) cmdline).2.jobs, j.state ≠ FG := by
        intro j hj
        rcases hmem4 j hj with h | h
        · exact hno j h
        · rw [h, if_pos hbg]; exact (show (2 : Int) ≠ 1 by decide)
      have h6 : shell_ok s6 :=
        (sigchld_handler_shell_ok pending _ s6
          (shell_ok_of_no_fg ((s3.addjob pid (if bg ≠ 0 then BG else FG) cmdline).2.emit
            Action.sigunblock) hok4 hno4) hh).1
      cases hd : deref s6.jobs (getjobpid s6.jobs pid) with
      | none => rw [hd] at hr; exact Outcome.noConfusion hr
      | some job =>
        rw [hd] at hr
        injection hr with _ hr
        rw [← hr]
        exact ⟨h6.1, h6.2⟩

theorem child1_not_returned (s s1 : Shell) (env : Sys) (sc : Scan) :
    child1 s env sc ≠ Outcome.returned () s1 := by
  unfold child1
  simp only
  split_ifs <;> (try exact Outcome.noConfusion) <;>
    (split <;> exact Outcome.noConfusion)

theorem child2_not_returned (s s1 : Shell) (env : Sys) (sc : Scan) (pid : Int) (k : Nat) :
    child2 s env sc pid k ≠ Outcome.returned () s1 := by
  unfold child2
  simp only
  split_ifs <;> (try exact Outcome.noConfusion) <;>
    (split <;> exact Outcome.noConfusion)

theorem fresh_head (env : Sys) (jobs : List job_t) (h : env.fresh jobs = true)
    (hpos : ¬ env.forks.headD (-1) < 0) (hne : ¬ env.forks.headD (-1) = 0) :
    ∀ x ∈ jobs, x.pid ≠ env.forks.headD (-1) := by
  unfold Sys.fresh at h
  rw [List.all_eq_true] at h
  cases hf : env.forks with
  | nil => rw [hf] at hpos; exact absurd (by decide) hpos
  | cons p ps =>
    rw [hf] at hpos hne
    simp only [List.headD_cons] at hpos hne ⊢
    have := h p (by rw [hf]; simp)
    simp only [Bool.or_eq_true, decide_eq_true_eq, List.all_eq_true] at this
    rcases this with h1 | h1
    · omega
    · intro x hx
      have := h1 x hx
      simpa using this

theorem eval_launch_shell_ok (s s1 : Shell) (env : Sys) (argv : List String) (bg : Int)
    (cmdline : String) (hok : table_ok s.jobs s.nextjid) (hno : ∀ j ∈ s.jobs, j.state ≠ FG)
    (hfresh : env.fresh s.jobs = true)
    (hr : eval_launch s env argv bg cmdline = Outcome.returned () s1) : shell_ok s1 := by
  unfold eval_launch at hr
  cases hsc : scan_loop (s.emit Action.sigblock) env Scan.init argv with
  | exited c s2 => rw [hsc] at hr; exact Outcome.noConfusion hr
  | execed s2 => rw [hsc] at hr; exact Outcome.noConfusion hr
  | nullDeref s2 => rw [hsc] at hr; exact Outcome.noConfusion hr
  | returned v s2 =>
    obtain ⟨sc, env1⟩ := v
    rw [hsc] at hr
    simp only [Outcome.bind] at hr
    obtain ⟨e1, e2, _, _, e5⟩ := scan_loop_frame argv _ _ _ _ _ _ hsc
    have hj2 : s2.jobs = s.jobs := e1
    have hn2 : s2.nextjid = s.nextjid := e2
    by_cases hneg : env1.forks.headD (-1) < 0
    · rw [if_pos hneg] at hr; exact Outcome.noConfusion hr
    · rw [if_neg hneg] at hr
      by_cases hz : env1.forks.headD (-1) = 0
      · rw [if_pos hz] at hr
        exact absurd hr (child1_not_returned _ _ _ _)
      · rw [if_neg hz] at hr
        have hfr : ∀ x ∈ s.jobs, x.pid ≠ env1.forks.headD (-1) := by
          rw [e5] at hneg hz ⊢
          exact fresh_head env s.jobs hfresh hneg hz
        have hpar : ∀ (s3 : Shell), s3.jobs = s.jobs → s3.nextjid = s.nextjid →
            eval_parent s3 sc (env1.forks.headD (-1)) bg cmdline env.pending =
              Outcome.returned () s1 →
            shell_ok s1 := by
          intro s3 h3j h3n h3
          exact eval_parent_shell_ok s3 s1 sc _ bg cmdline env.pending (by rw [h3j, h3n]; exact hok)
            (by rw [h3j]; exact hno) (by rw [h3j]; exact hfr) h3
        cases ha : sc.argv2 with
        | none =>
          rw [ha] at hr
          exact hpar _ (by simp only [Shell.emit]; exact hj2) (by simp only [Shell.emit]; exact hn2) hr
        | some k =>
          rw [ha] at hr
          simp only at hr
          by_cases hneg2 : env1.forks.tail.headD (-1) < 0
          · rw [if_pos hneg2] at hr; exact Outcome.noConfusion hr
          · rw [if_neg hneg2] at hr
            by_cases hz2 : env1.forks.tail.headD (-1) = 0
            · rw [if_pos hz2] at hr
              exact absurd hr (child2_not_returned _ _ _ _ _ _)
            · rw [if_neg hz2] at hr
              exact hpar _ (by simp only [Shell.emit]; exact hj2)
                (by simp only [Shell.emit]; exact hn2) hr

theorem eval_shell_ok (s s1 : Shell) (env : Sys) (cmdline : String)
    (hok : table_ok s.jobs s.nextjid) (hno : ∀ j ∈ s.jobs, j.state ≠ FG)
    (hfresh : env.fresh s.jobs = true) (hpre : env.preempt = [])
    (hr : eval s env cmdline = Outcome.returned () s1) : shell_ok s1 := by
  unfold eval at hr
  simp only at hr
  rw [hpre] at hr
  cases hp : (parseline cmdline).2 with
  | nil =>
    rw [hp] at hr
    injection hr with _ hr
    rw [← hr]
    exact shell_ok_of_no_fg _ hok hno
  | cons a0 args =>
    rw [hp] at hr
    simp only at hr
    cases hb : builtin_cmd s (a0 :: args) [] with
    | exited c s2 => rw [hb] at hr; exact Outcome.noConfusion hr
    | execed s2 => rw [hb] at hr; exact Outcome.noConfusion hr
    | nullDeref s2 => rw [hb] at hr; exact Outcome.noConfusion hr
    | returned r s2 =>
      rw [hb] at hr
      simp only [Outcome.bind] at hr
      obtain ⟨h2, hfr⟩ := builtin_cmd_shell_ok s s2 _ r hok hno hb
      by_cases hr0 : r = 0
      · rw [if_pos hr0] at hr
        obtain ⟨ej, en⟩ := hfr hr0
        exact eval_launch_shell_ok s2 s1 env _ _ cmdline (by rw [ej, en]; exact hok)
          (by rw [ej]; exact hno) (by rw [ej]; exact hfresh) hr
      · rw [if_neg hr0] at hr
        injection hr with _ hr
        rw [← hr]
        exact h2

/-- When the main flow is not held in `waitfg`, no slot is in state `FG`. -/
theorem no_fg_of_not_blocked (s : Shell) (h : shell_ok s) (hb : s.blocked = false) :
    ∀ j ∈ s.jobs, j.state ≠ FG := by
  intro j hj hjfg
  obtain ⟨⟨hslots, hd, _⟩, hfg⟩ := h
  have hw := hfg j hj hjfg
  have hlive := slot_ok_live_of_fg j (hslots j hj) hjfg
  -- the first slot holding that pid is a slot in state FG with the same pid
  obtain ⟨pre, J, post, h1, h2, h3⟩ : ∃ pre J post, s.jobs = pre ++ J :: post ∧
      (∀ x ∈ pre, x.pid ≠ j.pid) ∧ J.pid = j.pid := by
    have hne : ¬ ∀ x ∈ s.jobs, x.pid ≠ j.pid := fun hall => hall j hj rfl
    cases hl : getjobpid_loop j.pid s.jobs with
    | none => exact absurd ((getjobpid_loop_eq_none_iff _ _).mp hl) hne
    | some i =>
      obtain ⟨pre, J, post, a, _, c, d⟩ := getjobpid_loop_eq_some _ _ _ hl
      exact ⟨pre, J, post, a, c, d⟩
  have hJj : J = j := by
    rw [h1] at hj hd
    unfold pids_distinct at hd
    rw [List.pairwise_append, List.pairwise_cons] at hd
    obtain ⟨_, ⟨hJpost, _⟩, _⟩ := hd
    rcases List.mem_append.mp hj with hjp | hjp
    · exact absurd rfl (h2 j hjp)
    · rcases List.mem_cons.mp hjp with e | hjp
      · exact e.symm
      · exact absurd h3 (hJpost j hjp (by omega))
  subst hJj
  unfold Shell.blocked at hb
  rw [hw] at hb
  simp only [waitfg_busy] at hb
  rw [h1, getjobpid_split J.pid pre post J hlive h2 rfl, deref_split] at hb
  simp only [decide_eq_false_iff_not] at hb
  exact hb hjfg

theorem step_shell_ok (s s1 : Shell) (e : Event) (h : shell_ok s)
    (hpre : e.unpreempted = true) (hs : step s e = some s1) : shell_ok s1 := by
  cases e with
  | sigchld ws =>
    simp only [step] at hs
    cases hh : sigchld_handler s ws with
    | returned v s2 =>
      rw [hh] at hs
      injection hs with hs
      rw [← hs]
      exact (sigchld_handler_shell_ok ws s s2 h hh).1
    | exited c s2 => rw [hh] at hs; exact Option.noConfusion hs
    | execed s2 => rw [hh] at hs; exact Option.noConfusion hs
    | nullDeref s2 => rw [hh] at hs; exact Option.noConfusion hs
  | line env cmdline =>
    simp only [step] at hs
    by_cases hc : (s.blocked || !env.fresh s.jobs) = true
    · rw [if_pos hc] at hs; exact Option.noConfusion hs
    · rw [if_neg hc] at hs
      simp only [Bool.or_eq_true, Bool.not_eq_true', not_or, Bool.not_eq_true,
        Bool.not_eq_false] at hc
      have hno := no_fg_of_not_blocked s h hc.1
      cases he : eval { s with waiting := none } env cmdline with
      | returned v s2 =>
        rw [he] at hs
        injection hs with hs
        rw [← hs]
        exact eval_shell_ok { s with waiting := none } s2 env cmdline h.1 hno hc.2
          (by simpa [Event.unpreempted] using hpre) he
      | exited c s2 => rw [he] at hs; exact Option.noConfusion hs
      | execed s2 => rw [he] at hs; exact Option.noConfusion hs
      | nullDeref s2 => rw [he] at hs; exact Option.noConfusion hs

theorem run_shell_ok (es : List Event) (s s1 : Shell) (h : shell_ok s)
    (hpre : ∀ e ∈ es, e.unpreempted = true)
    (hr : run s es = some s1) : shell_ok s1 := by
  induction es generalizing s with
  | nil =>
    simp only [run] at hr
    injection hr with hr
    rw [← hr]; exact h
  | cons e es ih =>
    simp only [run] at hr
    cases hs : step s e with
    | none => rw [hs] at hr; exact Option.noConfusion hr
    | some s2 =>
      rw [hs] at hr
      exact ih s2 (step_shell_ok s s2 e h (hpre e (by simp)) hs)
        (fun x hx => hpre x (by simp [hx])) hr

theorem init_shell_ok (verbose : Bool) : shell_ok (Shell.init verbose) := by
  refine ⟨⟨?_, ?_, show (1 : Int) ≤ 1 by decide⟩, ?_⟩
  · intro j hj
    left
    simp [Shell.init, emptyJobs, initjobs, clearjob] at hj
    exact hj.2
  · simp [Shell.init, emptyJobs, initjobs, clearjob, pids_distinct, MAXJOBS, List.pairwise_replicate]
  · intro j hj hfg
    simp [Shell.init, emptyJobs, initjobs, clearjob] at hj
    rw [hj.2] at hfg
    exact absurd hfg (by decide)

/-- As long as no run of `sigchld_handler` falls between the lookup and the
use of the pointer in `do_bgfg`: in every state reachable from the empty table
through the shell's steps (a line is taken only when the main flow is not held
in `waitfg`; `fork` returns pids of no tracked child; the reaper runs between
lines, during `waitfg` and at the unblocking in `eval`), at most one table
entry has state `FG`. -/
theorem one_foreground_unpreempted (verbose : Bool) (es : List Event) (s : Shell)
    (hpre : ∀ e ∈ es, e.unpreempted = true)
    (h : run (Shell.init verbose) es = some s) : fgcount s.jobs ≤ 1 :=
  shell_ok_fgcount s (run_shell_ok es _ s (init_shell_ok verbose) hpre h)

/-- The session `fg_events`, in which no handler run interrupts `do_bgfg`: the
shell ends as `fg_events_shell`, with exactly one entry in state `FG`; a
further line is not taken while that job is in the foreground. -/
theorem one_foreground_unpreempted_witness :
    run (Shell.init false) fg_events = some fg_events_shell ∧
    fgcount fg_events_shell.jobs = 1 ∧
    step fg_events_shell (Event.line (sys_forks 103) "fg %2\n") = none ∧
    fgcount fg_events_shell.jobs ≤ 1 :=
  ⟨by decide, by decide, by decide,
    one_foreground_unpreempted false fg_events fg_events_shell (by decide) (by decide)⟩

/-! ## Supporting facts on job ids and on the kill builtin -/

theorem deletejob_mem (jobs : List job_t) (nextjid pid : Int) :
    ∀ j ∈ (deletejob jobs nextjid pid).jobs,
      j ∈ jobs ∨ j = { pid := 0, jid := 0, state := UNDEF, cmdline := "" } := by
  unfold deletejob
  by_cases hpid : pid < 1
  · rw [if_pos hpid]; exact fun j hj => Or.inl hj
  · rw [if_neg hpid]
    cases hl : deletejob_loop pid jobs with
    | none => exact fun j hj => Or.inl hj
    | some jobs' =>
      obtain ⟨pre, k, post, h1, _, _, h4⟩ := deletejob_loop_eq_some pid jobs jobs' hl
      simp only
      rw [h4, h1]
      intro j hj
      rcases List.mem_append.mp hj with hj | hj
      · exact Or.inl (by simp [hj])
      · rcases List.mem_cons.mp hj with rfl | hj
        · exact Or.inr rfl
        · exact Or.inl (by simp [hj])

/-- The part of C1 that the code keeps: after every sequence of `addjob` and
`deletejob` calls from the empty table, every live entry has `jid >= 1` (and
`pid >= 1`), and the counter is at least 1. -/
theorem live_jids_ge_one (ops : List JobOp) :
    (∀ j ∈ (runOps initState ops).jobs, j.pid ≠ 0 → 1 ≤ j.jid ∧ 1 ≤ j.pid) ∧
    1 ≤ (runOps initState ops).nextjid := by
  have key : ∀ (ops : List JobOp) (s : JobState),
      ((∀ j ∈ s.jobs, j.pid ≠ 0 → 1 ≤ j.jid ∧ 1 ≤ j.pid) ∧ 1 ≤ s.nextjid) →
      ((∀ j ∈ (runOps s ops).jobs, j.pid ≠ 0 → 1 ≤ j.jid ∧ 1 ≤ j.pid) ∧
        1 ≤ (runOps s ops).nextjid) := by
    intro ops
    induction ops with
    | nil => intro s hs; exact hs
    | cons op ops ih =>
      intro s hs
      show (∀ j ∈ (runOps (JobOp.apply s op) ops).jobs, _) ∧ _
      apply ih
      cases op with
      | add pid state cmdline =>
        show (∀ j ∈ (addjob false s.jobs s.nextjid pid state cmdline).jobs, _) ∧
          1 ≤ (addjob false s.jobs s.nextjid pid state cmdline).nextjid
        constructor
        · intro j hj hj0
          by_cases hpid : pid < 1
          · have : (addjob false s.jobs s.nextjid pid state cmdline).jobs = s.jobs := by
              simp [addjob, hpid]
            rw [this] at hj
            exact hs.1 j hj hj0
          · rcases addjob_mem false s.jobs s.nextjid pid state cmdline j hj with h | h
            · exact hs.1 j h hj0
            · rw [h]
              exact ⟨hs.2, show 1 ≤ pid by omega⟩
        · unfold addjob
          by_cases hpid : pid < 1
          · rw [if_pos hpid]; exact hs.2
          · rw [if_neg hpid]
            cases hl : addjob_loop pid state s.nextjid cmdline s.jobs with
            | none => exact hs.2
            | some jobs' =>
              show 1 ≤ (if s.nextjid + 1 > (MAXJOBS : Int) then 1 else s.nextjid + 1)
              have := hs.2
              split_ifs <;> omega
      | del pid =>
        show (∀ j ∈ (deletejob s.jobs s.nextjid pid).jobs, _) ∧
          1 ≤ (deletejob s.jobs s.nextjid pid).nextjid
        constructor
        · intro j hj hj0
          rcases deletejob_mem s.jobs s.nextjid pid j hj with h | h
          · exact hs.1 j h hj0
          · rw [h] at hj0; exact absurd rfl hj0
        · unfold deletejob
          by_cases hpid : pid < 1
          · rw [if_pos hpid]; exact hs.2
          · rw [if_neg hpid]
            cases hl : deletejob_loop pid s.jobs with
            | none => exact hs.2
            | some jobs' =>
              have := maxjid_nonneg jobs'
              show 1 ≤ maxjid jobs' + 1
              omega
  apply key ops initState
  constructor
  · intro j hj hj0
    simp [initState, emptyJobs, initjobs, clearjob] at hj
    rw [hj.2] at hj0
    exact absurd rfl hj0
  · decide

/-- The part of C4 that the code keeps: a non-empty `kill` argument without a
leading `%` that `strtol` accepts and whose number is the pid of a table entry
`J` sends `SIGKILL` to the process group `-J.pid`; nothing is printed and the
table is unchanged. -/
theorem builtin_kill_by_pid (s : Shell) (a1 : String) (rest : List String) (i : Nat) (J : job_t)
    (ws : List WaitRet) (hne : a1.data.length ≠ 0) (hbad : (parse_id a1).bad = false)
    (hpct : (parse_id a1).pct = false)
    (hget : getjobpid s.jobs (parse_id a1).id = some i) (hJ : s.jobs[i]? = some J) :
    builtin_cmd s ("kill" :: a1 :: rest) ws =
      Outcome.returned 1 { s with trace := s.trace ++ [Action.kill (-J.pid) SIGKILL] } := by
  have hd : deref s.jobs (getjobpid s.jobs (parse_id a1).id) = some J := by
    rw [hget]; exact hJ
  have e1 : ("kill" = "quit") = False := by decide
  have e2 : ("kill" = "&") = False := by decide
  have e3 : ("kill" = "jobs") = False := by decide
  have e4 : ("kill" = "fg") = False := by decide
  have e5 : ("kill" = "bg") = False := by decide
  simp only [builtin_cmd, builtin_kill, e1, e2, e3, e4, e5, or_self, if_false, if_true, hne,
    hbad, hpct, Bool.false_and, Bool.false_eq_true, hd, Shell.emit]

/-- How the `kill` builtin treats `%N`: once `strtol` accepts the number and
`getjobjid(jobs, N)` finds a job, the job signalled is the one
`getjobpid(jobs, N)` finds, and `(N): No such process` is printed when there
is none. -/
theorem builtin_kill_pct_uses_pid_lookup (s : Shell) (a1 : String) (rest : List String)
    (ws : List WaitRet) (hne : a1.data.length ≠ 0) (hbad : (parse_id a1).bad = false)
    (hpct : (parse_id a1).pct = true)
    (hjid : (getjobjid s.jobs (parse_id a1).id).isNone = false) :
    builtin_cmd s ("kill" :: a1 :: rest) ws =
      Outcome.returned (1 : Int)
        (match deref s.jobs (getjobpid s.jobs (parse_id a1).id) with
         | none => { s with trace := s.trace ++
             [Action.print ("(" ++ toString (parse_id a1).id ++ "): No such process\n")] }
         | some job => { s with trace := s.trace ++ [Action.kill (-job.pid) SIGKILL] }) := by
  have e1 : ("kill" = "quit") = False := by decide
  have e2 : ("kill" = "&") = False := by decide
  have e3 : ("kill" = "jobs") = False := by decide
  have e4 : ("kill" = "fg") = False := by decide
  have e5 : ("kill" = "bg") = False := by decide
  cases hd : deref s.jobs (getjobpid s.jobs (parse_id a1).id) <;>
    simp only [builtin_cmd, builtin_kill, e1, e2, e3, e4, e5, or_self, if_false, if_true, hne,
      hbad, hpct, hjid, Bool.true_and, Bool.false_eq_true, hd, Shell.emit]

/-! ## The lookups -/

theorem getjobjid_loop_split (jid : Int) (pre post : List job_t) (J : job_t)
    (hpre : ∀ x ∈ pre, x.jid ≠ jid) (hJ : J.jid = jid) :
    getjobjid_loop jid (pre ++ J :: post) = some pre.length := by
  induction pre with
  | nil => simp [getjobjid_loop, hJ]
  | cons a as ih =>
    have ha : a.jid ≠ jid := hpre a (by simp)
    have := ih (fun x hx => hpre x (by simp [hx]))
    simp [getjobjid_loop, ha, this]

theorem getjobjid_loop_eq_none_iff (jid : Int) (jobs : List job_t) :
    getjobjid_loop jid jobs = none ↔ ∀ j ∈ jobs, j.jid ≠ jid := by
  induction jobs with
  | nil => simp [getjobjid_loop]
  | cons j rest ih =>
    by_cases h : j.jid = jid
    · simp [getjobjid_loop, h]
    · simp [getjobjid_loop, h, ih]

theorem getjobjid_split (jid : Int) (pre post : List job_t) (J : job_t)
    (hjid : 1 ≤ jid) (hpre : ∀ x ∈ pre, x.jid ≠ jid) (hJ : J.jid = jid) :
    getjobjid (pre ++ J :: post) jid = some pre.length := by
  have : ¬ jid < 1 := by omega
  simp [getjobjid, this, getjobjid_loop_split jid pre post J hpre hJ]

/-- C18: `getjobpid(p)` is `NULL` exactly when `p < 1` or no slot has pid `p`,
and otherwise points at the lowest-index slot with pid `p`; `getjobjid(j)` is
`NULL` exactly when `j < 1` or no slot has jid `j`, and otherwise points at the
lowest-index slot with jid `j`; the slot either lookup points at is never a
clear slot (pid 0, jid 0, `UNDEF`, empty command line). -/
theorem lookups_first_match (jobs : List job_t) (p j : Int) :
    (getjobpid jobs p = none ↔ (p < 1 ∨ ∀ x ∈ jobs, x.pid ≠ p)) ∧
    (∀ i, getjobpid jobs p = some i ↔
      (1 ≤ p ∧ ∃ pre J post, jobs = pre ++ J :: post ∧ pre.length = i ∧
        (∀ x ∈ pre, x.pid ≠ p) ∧ J.pid = p)) ∧
    (getjobjid jobs j = none ↔ (j < 1 ∨ ∀ x ∈ jobs, x.jid ≠ j)) ∧
    (∀ i, getjobjid jobs j = some i ↔
      (1 ≤ j ∧ ∃ pre J post, jobs = pre ++ J :: post ∧ pre.length = i ∧
        (∀ x ∈ pre, x.jid ≠ j) ∧ J.jid = j)) ∧
    (∀ J, deref jobs (getjobpid jobs p) = some J →
      J.pid = p ∧ J ≠ { pid := 0, jid := 0, state := UNDEF, cmdline := "" }) ∧
    (∀ J, deref jobs (getjobjid jobs j) = some J →
      J.jid = j ∧ J ≠ { pid := 0, jid := 0, state := UNDEF, cmdline := "" }) := by
  refine ⟨?_, ?_, ?_, ?_, ?_, ?_⟩
  · unfold getjobpid
    by_cases hp : p < 1
    · simp [hp]
    · simp only [hp, if_false, false_or]
      exact getjobpid_loop_eq_none_iff p jobs
  · intro i
    constructor
    · exact getjobpid_eq_some jobs p i
    · rintro ⟨hp, pre, J, post, h1, h2, h3, h4⟩
      rw [h1, ← h2]
      exact getjobpid_split p pre post J hp h3 h4
  · unfold getjobjid
    by_cases hj : j < 1
    · simp [hj]
    · simp only [hj, if_false, false_or]
      exact getjobjid_loop_eq_none_iff j jobs
  · intro i
    constructor
    · exact getjobjid_eq_some jobs j i
    · rintro ⟨hj, pre, J, post, h1, h2, h3, h4⟩
      rw [h1, ← h2]
      exact getjobjid_split j pre post J hj h3 h4
  · intro J hJ
    cases hg : getjobpid jobs p with
    | none => rw [hg] at hJ; exact Option.noConfusion hJ
    | some i =>
      rw [hg] at hJ
      obtain ⟨hp, pre, K, post, h1, h2, _, h4⟩ := getjobpid_eq_some jobs p i hg
      rw [h1, ← h2, deref_split] at hJ
      injection hJ with hJ
      subst hJ
      refine ⟨h4, ?_⟩
      intro hc
      rw [hc] at h4
      simp at h4
      omega
  · intro J hJ
    cases hg : getjobjid jobs j with
    | none => rw [hg] at hJ; exact Option.noConfusion hJ
    | some i =>
      rw [hg] at hJ
      obtain ⟨hj, pre, K, post, h1, h2, _, h4⟩ := getjobjid_eq_some jobs j i hg
      rw [h1, ← h2, deref_split] at hJ
      injection hJ with hJ
      subst hJ
      refine ⟨h4, ?_⟩
      intro hc
      rw [hc] at h4
      simp at h4
      omega

/-! ## fgpid -/

theorem fgpid_split (pre post : List job_t) (J : job_t)
    (hpre : ∀ x ∈ pre, x.state ≠ FG) (hJ : J.state = FG) :
    fgpid (pre ++ J :: post) = J.pid := by
  induction pre with
  | nil => simp [fgpid, hJ]
  | cons a as ih =>
    have ha : a.state ≠ FG := hpre a (by simp)
    have := ih (fun x hx => hpre x (by simp [hx]))
    simp [fgpid, ha, this]

theorem fgpid_of_no_fg (jobs : List job_t) (h : ∀ j ∈ jobs, j.state ≠ FG) : fgpid jobs = 0 := by
  induction jobs with
  | nil => rfl
  | cons a as ih =>
    have ha : a.state ≠ FG := h a (by simp)
    simp [fgpid, ha, ih (fun x hx => h x (by simp [hx]))]

/-- Every list has a first slot in state `FG`, or none at all. -/
theorem first_fg_split (jobs : List job_t) :
    (∀ j ∈ jobs, j.state ≠ FG) ∨
    ∃ pre J post, jobs = pre ++ J :: post ∧ (∀ x ∈ pre, x.state ≠ FG) ∧ J.state = FG := by
  induction jobs with
  | nil => left; simp
  | cons a as ih =>
    by_cases ha : a.state = FG
    · exact Or.inr ⟨[], a, as, rfl, by simp, ha⟩
    · rcases ih with h | ⟨pre, J, post, h1, h2, h3⟩
      · left
        intro j hj
        rcases List.mem_cons.mp hj with rfl | hj
        · exact ha
        · exact h j hj
      · refine Or.inr ⟨a :: pre, J, post, by simp [h1], ?_, h3⟩
        intro x hx
        rcases List.mem_cons.mp hx with rfl | hx
        · exact ha
        · exact h2 x hx

/-- C17: in a table whose live entries (pid other than 0, or a job state `FG`,
`BG`, `ST`) have `pid >= 1`, `fgpid` returns 0 if and only if no entry has
state `FG`; otherwise it returns the pid of the lowest-index entry whose state
is `FG`. -/
theorem fgpid_spec (jobs : List job_t)
    (hlive : ∀ j ∈ jobs, (j.pid ≠ 0 ∨ j.state = FG ∨ j.state = BG ∨ j.state = ST) → 1 ≤ j.pid) :
    (fgpid jobs = 0 ↔ ∀ j ∈ jobs, j.state ≠ FG) ∧
    (∀ pre J post, jobs = pre ++ J :: post → (∀ x ∈ pre, x.state ≠ FG) → J.state = FG →
      fgpid jobs = J.pid) := by
  constructor
  · constructor
    · intro h0
      rcases first_fg_split jobs with h | ⟨pre, J, post, h1, h2, h3⟩
      · exact h
      · have hJ : 1 ≤ J.pid := hlive J (by rw [h1]; simp) (Or.inr (Or.inl h3))
        rw [h1, fgpid_split pre post J h2 h3] at h0
        omega
    · exact fgpid_of_no_fg jobs
  · intro pre J post h1 h2 h3
    rw [h1]
    exact fgpid_split pre post J h2 h3

/-- C17 at a concrete table: in `fg_events_shell` the job with pid 100 is the
one entry in state `FG`, and `fgpid` returns 100. -/
theorem fgpid_spec_witness :
    fgpid fg_events_shell.jobs = 100 ∧
    (fgpid fg_events_shell.jobs = 0 ↔ ∀ j ∈ fg_events_shell.jobs, j.state ≠ FG) :=
  ⟨by decide, (fgpid_spec fg_events_shell.jobs (by decide)).1⟩

/-- The sentinel of `fgpid` is ambiguous only for a slot that no table
operation produces: state `FG` with pid 0. -/
theorem fgpid_zero_with_fg_slot :
    fgpid [{ pid := 0, jid := 0, state := FG, cmdline := "" }] = 0 := by
  decide

/-! ## The jobs builtin -/

theorem fmt_state_eq_spec (i : Nat) (st : Int) (h : st = BG ∨ st = FG ∨ st = ST) :
    fmt_state i st = spec_state_word st := by
  rcases h with h | h | h <;> subst h <;> simp [fmt_state, spec_state_word, BG, FG, ST]

theorem listjobs_loop_flatten (jobs : List job_t) (i : Nat)
    (h : ∀ j ∈ jobs, j.pid ≠ 0 → (j.state = BG ∨ j.state = FG ∨ j.state = ST)) :
    ((listjobs_loop i jobs).map String.data).flatten =
      (((jobs.filter (fun j => decide (j.pid ≠ 0))).map spec_record).map String.data).flatten := by
  induction jobs generalizing i with
  | nil => simp [listjobs_loop]
  | cons a rest ih =>
    have ih' := ih (i + 1) (fun j hj => h j (by simp [hj]))
    by_cases ha : a.pid = 0
    · simp only [listjobs_loop, ha, ne_eq, not_true_eq_false, if_false, List.nil_append,
        decide_False, Bool.false_eq_true, not_false_eq_true, List.filter_cons_of_neg]
      exact ih'
    · have hst := h a (by simp) ha
      simp only [listjobs_loop, ne_eq, ha, not_false_eq_true, if_true, decide_True,
        List.filter_cons_of_pos, List.map_cons, List.map_append, List.flatten_append,
        List.flatten_cons, List.map_nil, List.flatten_nil, List.append_nil, List.cons_append,
        List.nil_append]
      rw [ih', fmt_state_eq_spec i a.state hst]
      simp [spec_record, String.data_append, List.append_assoc]

/-- C16: the `jobs` builtin leaves the shell's table and counter as they are
and prints, slot by slot in increasing index, for each slot with `pid != 0`
the pieces `[jid] (pid) `, the state word and the stored command line; for a
table whose live slots are in state `BG`, `FG` or `ST` the text printed is the
listing the specification describes.  Slots with pid 0 print nothing. -/
theorem jobs_builtin_output (s : Shell) (args : List String) (ws : List WaitRet)
    (h : ∀ j ∈ s.jobs, j.pid ≠ 0 → (j.state = BG ∨ j.state = FG ∨ j.state = ST)) :
    builtin_cmd s ("jobs" :: args) ws =
      Outcome.returned 1 { s with trace := s.trace ++ (listjobs s.jobs).map Action.print } ∧
    String.join (listjobs s.jobs) = spec_jobs_output s.jobs := by
  constructor
  · have e1 : ("jobs" = "quit") = False := by decide
    have e2 : ("jobs" = "&") = False := by decide
    simp only [builtin_cmd, e1, e2, if_false, if_true, Shell.prints]
  · rw [spec_jobs_output, String.join_eq, String.join_eq]
    congr 1
    exact listjobs_loop_flatten s.jobs 0 h

/-- C16 at a concrete table: the listing printed for `fg_events_shell`, whose
slots 0 and 1 hold the jobs (100, jid 1, `FG`) and (101, jid 2, `BG`). -/
theorem jobs_builtin_output_witness :
    builtin_cmd fg_events_shell ["jobs"] [] =
      Outcome.returned 1 { fg_events_shell with
        trace := fg_events_shell.trace ++
          [Action.print "[1] (100) ", Action.print "Foreground ", Action.print "/bin/sleep 5\n",
           Action.print "[2] (101) ", Action.print "Running ",
           Action.print "/bin/ls | /bin/wc &\n"] } ∧
    String.join (listjobs fg_events_shell.jobs) =
      "[1] (100) Foreground /bin/sleep 5\n[2] (101) Running /bin/ls | /bin/wc &\n" :=
  ⟨(jobs_builtin_output fg_events_shell [] [] (by decide)).1.trans (by decide),
    (jobs_builtin_output fg_events_shell [] [] (by decide)).2.trans (by decide)⟩

/-! ## The keyboard-signal handlers -/

theorem isdigit_not_isspace (c : Char) (h : isdigit c = true) : isspace c = false := by
  simp only [isdigit, Bool.and_eq_true, decide_eq_true_eq] at h
  simp only [isspace, Bool.or_eq_false_iff, decide_eq_false_iff_not, Bool.and_eq_false_iff]
  omega

theorem isdigit_ne_of_toNat (c : Char) (n : Nat) (h : isdigit c = true)
    (hn : n < 48 ∨ 57 < n) (hv : (Char.ofNat n).toNat = n) : c ≠ Char.ofNat n := by
  simp only [isdigit, Bool.and_eq_true, decide_eq_true_eq] at h
  intro hc
  rw [hc, hv] at h
  omega

theorem takeWhile_isdigit (ds : List Char) (h : ∀ c ∈ ds, isdigit c = true) :
    ds.takeWhile isdigit = ds ∧ ds.dropWhile isdigit = [] := by
  induction ds with
  | nil => simp
  | cons a rest ih =>
    have ha := h a (by simp)
    have := ih (fun c hc => h c (by simp [hc]))
    simp [List.takeWhile, List.dropWhile, ha, this.1, this.2]

theorem decimal_foldl_nonneg (ds : List Char) (h : ∀ c ∈ ds, isdigit c = true) (a : Int)
    (ha : 0 ≤ a) :
    0 ≤ ds.foldl (fun acc c => acc * 10 + ((c.toNat : Int) - 48)) a := by
  induction ds generalizing a with
  | nil => simpa using ha
  | cons c rest ih =>
    simp only [List.foldl_cons]
    apply ih (fun x hx => h x (by simp [hx]))
    have hc := h c (by simp)
    simp only [isdigit, Bool.and_eq_true, decide_eq_true_eq] at hc
    omega

theorem decimal_value_nonneg (ds : List Char) (h : ∀ c ∈ ds, isdigit c = true) :
    0 ≤ decimal_value ds :=
  decimal_foldl_nonneg ds h 0 (le_refl 0)

/-- What `strtol` makes of a decimal numeral: its value, clamped at
`LONG_MAX`, with the whole string consumed. -/
theorem strtol_decimal (ds : List Char) (h : is_decimal ds) :
    strtol ds =
      if decimal_value ds > LONG_MAX then
        { value := LONG_MAX, rest := [], moved := true, erange := true }
      else { value := decimal_value ds, rest := [], moved := true, erange := false } := by
  obtain ⟨hne, hd⟩ := h
  obtain ⟨c, rest, rfl⟩ : ∃ c rest, ds = c :: rest := by
    cases ds with
    | nil => exact absurd rfl hne
    | cons c rest => exact ⟨c, rest, rfl⟩
  have hc := hd c (by simp)
  have hsp : isspace c = false := isdigit_not_isspace c hc
  have h45 : c ≠ Char.ofNat 45 := isdigit_ne_of_toNat c 45 hc (by omega) (by decide)
  have h43 : c ≠ Char.ofNat 43 := isdigit_ne_of_toNat c 43 hc (by omega) (by decide)
  have htd := takeWhile_isdigit (c :: rest) hd
  have hnn := decimal_value_nonneg (c :: rest) hd
  have hmin : ¬ decimal_value (c :: rest) < LONG_MIN := by
    have : LONG_MIN < 0 := by decide
    omega
  unfold strtol
  have hdw : (c :: rest).dropWhile isspace = c :: rest := by
    simp [List.dropWhile, hsp]
  simp only [hdw, List.head?_cons, Option.some.injEq, h45, h43, or_self, if_false, htd.1, htd.2]
  have hcons : (c :: rest = []) = False := by simp
  simp only [hcons, if_false]
  have hdv : List.foldl (fun acc c => acc * 10 + ((c.toNat : Int) - 48)) 0 (c :: rest) =
      decimal_value (c :: rest) := rfl
  rw [hdv]
  by_cases hbig : decimal_value (c :: rest) > LONG_MAX
  · rw [if_pos hbig, if_pos hbig]
  · rw [if_neg hbig, if_neg hbig, if_neg hmin]

theorem do_bgfg_rejects (s : Shell) (cmd : String) (args : List String)
    (herr : args = [] ∨ ∃ a1 rest, args = a1 :: rest ∧
      ((parse_id a1).bad = true ∨
        (if (parse_id a1).pct = true then getjobjid s.jobs (parse_id a1).id
          else getjobpid s.jobs (parse_id a1).id) = none)) :
    ∃ line, do_bgfg s (cmd :: args) [] =
      Outcome.returned () { s with trace := s.trace ++ [Action.print line] } := by
  unfold do_bgfg
  by_cases h0 : fgpid s.jobs ≠ 0
  · rw [if_pos h0]
    exact ⟨_, rfl⟩
  · rw [if_neg h0]
    rcases herr with h | ⟨a1, rest, h, hbad | hnone⟩
    · subst h
      exact ⟨_, rfl⟩
    · subst h
      simp only [hbad, if_true]
      exact ⟨_, rfl⟩
    · subst h
      simp only
      by_cases hbad : (parse_id a1).bad = true
      · rw [if_pos hbad]
        exact ⟨_, rfl⟩
      · rw [if_neg hbad]
        simp only [hnone, sigchld_handler, Outcome.bind]
        by_cases hp : (parse_id a1).pct = true
        · rw [if_pos hp]; exact ⟨_, rfl⟩
        · rw [if_neg hp]; exact ⟨_, rfl⟩

theorem builtin_kill_rejects (s : Shell) (a0 : String) (args : List String)
    (herr : args = [] ∨ ∃ a1 rest, args = a1 :: rest ∧
      ((parse_id a1).bad = true ∨
        (if (parse_id a1).pct = true then getjobjid s.jobs (parse_id a1).id
          else getjobpid s.jobs (parse_id a1).id) = none)) :
    ∃ line, builtin_kill s a0 args = { s with trace := s.trace ++ [Action.print line] } := by
  unfold builtin_kill
  rcases herr with h | ⟨a1, rest, h, hbad | hnone⟩
  · subst h
    exact ⟨_, rfl⟩
  · subst h
    simp only
    by_cases hlen : a1.data.length = 0
    · rw [if_pos hlen]; exact ⟨_, rfl⟩
    · rw [if_neg hlen, if_pos hbad]; exact ⟨_, rfl⟩
  · subst h
    simp only
    by_cases hlen : a1.data.length = 0
    · rw [if_pos hlen]; exact ⟨_, rfl⟩
    · rw [if_neg hlen]
      by_cases hbad : (parse_id a1).bad = true
      · rw [if_pos hbad]; exact ⟨_, rfl⟩
      · rw [if_neg hbad]
        by_cases hp : (parse_id a1).pct = true
        · rw [if_pos hp] at hnone
          simp only [hp, hnone, Option.isNone_none, Bool.and_self, if_true]
          exact ⟨_, rfl⟩
        · rw [if_neg hp] at hnone
          have hp' : (parse_id a1).pct = false := by
            cases hq : (parse_id a1).pct
            · rfl
            · exact absurd hq hp
          simp only [hp', Bool.false_and, Bool.false_eq_true, if_false, hnone, deref]
          exact ⟨_, rfl⟩

/-- Rejection as the code decides it, no child changing state while the
builtin runs: for `fg`, `bg` and `kill`, when the argument is missing, or the test after `strtol` rejects it, or the lookup of
`id` (the value `strtol` returned, narrowed to `int`; as a jid after `%`, as a
pid otherwise) finds no job, the command returns with every slot of the table
and the next-id counter unchanged, sends no signal, and prints exactly one
line. -/
theorem bgfg_kill_rejects (s : Shell) (cmd : String) (args : List String)
    (hcmd : cmd = "fg" ∨ cmd = "bg" ∨ cmd = "kill")
    (herr : args = [] ∨ ∃ a1 rest, args = a1 :: rest ∧
      ((parse_id a1).bad = true ∨
        (if (parse_id a1).pct = true then getjobjid s.jobs (parse_id a1).id
          else getjobpid s.jobs (parse_id a1).id) = none)) :
    ∃ line, builtin_cmd s (cmd :: args) [] =
      Outcome.returned 1 { s with trace := s.trace ++ [Action.print line] } := by
  rcases hcmd with h | h | h
  · subst h
    obtain ⟨line, hl⟩ := do_bgfg_rejects s "fg" args herr
    refine ⟨line, ?_⟩
    have e1 : ("fg" = "quit") = False := by decide
    have e2 : ("fg" = "&") = False := by decide
    have e3 : ("fg" = "jobs") = False := by decide
    simp only [builtin_cmd, e1, e2, e3, if_false, true_or, if_true, hl, Outcome.bind]
  · subst h
    obtain ⟨line, hl⟩ := do_bgfg_rejects s "bg" args herr
    refine ⟨line, ?_⟩
    have e1 : ("bg" = "quit") = False := by decide
    have e2 : ("bg" = "&") = False := by decide
    have e3 : ("bg" = "jobs") = False := by decide
    simp only [builtin_cmd, e1, e2, e3, if_false, or_true, if_true, hl, Outcome.bind]
  · subst h
    obtain ⟨line, hl⟩ := builtin_kill_rejects s "kill" args herr
    refine ⟨line, ?_⟩
    have e1 : ("kill" = "quit") = False := by decide
    have e2 : ("kill" = "&") = False := by decide
    have e3 : ("kill" = "jobs") = False := by decide
    have e4 : ("kill" = "fg") = False := by decide
    have e5 : ("kill" = "bg") = False := by decide
    simp only [builtin_cmd, e1, e2, e3, e4, e5, or_self, if_false, if_true, hl]

/-- The two commands the specification names, in `bg_job_shell`: `fg` with no
argument and `kill abc` each print one line and change nothing else. -/
theorem bgfg_kill_rejects_witness :
    (∃ line, builtin_cmd bg_job_shell ["fg"] [] =
      Outcome.returned 1 { bg_job_shell with trace := bg_job_shell.trace ++ [Action.print line] }) ∧
    (∃ line, builtin_cmd bg_job_shell ["kill", "abc"] [] =
      Outcome.returned 1 { bg_job_shell with trace := bg_job_shell.trace ++ [Action.print line] }) ∧
    eval bg_job_shell (sys_forks 101) "fg\n" =
      Outcome.returned ()
        { bg_job_shell with trace := bg_job_shell.trace ++
            [Action.print "fg command requires PID or %jobid argument\n"] } ∧
    eval bg_job_shell (sys_forks 101) "kill abc\n" =
      Outcome.returned ()
        { bg_job_shell with trace := bg_job_shell.trace ++
            [Action.print "kill: argument must be a PID or %jobid\n"] } :=
  ⟨bgfg_kill_rejects bg_job_shell "fg" [] (Or.inl rfl) (Or.inl rfl),
   bgfg_kill_rejects bg_job_shell "kill" ["abc"] (Or.inr (Or.inr rfl))
     (Or.inr ⟨"abc", [], rfl, Or.inl (by decide)⟩),
   by decide, by decide⟩

/-! ## Which arguments `strtol` accepts -/

theorem long_to_int_range (v : Int) :
    -2147483648 ≤ long_to_int v ∧ long_to_int v ≤ 2147483647 := by
  unfold long_to_int
  omega

/-- The range tests after `strtol` never fire, because `id` is already an
`int`: an argument is rejected exactly when `strtol` converted nothing or
left characters over. -/
theorem parse_id_bad_iff (arg : String) :
    (parse_id arg).bad = true ↔
      ((strtol (if arg.data.head? = some (Char.ofNat 37) then arg.data.tail else arg.data)).moved
          = false ∨
       (strtol (if arg.data.head? = some (Char.ofNat 37) then arg.data.tail else arg.data)).rest
          ≠ []) := by
  have hr := long_to_int_range
    (strtol (if arg.data.head? = some (Char.ofNat 37) then arg.data.tail else arg.data)).value
  have h1 : LONG_MIN = -9223372036854775808 := rfl
  have h2 : LONG_MAX = 9223372036854775807 := rfl
  have h3 : INT_MAX = 2147483647 := rfl
  have h4 : INT_MIN = -2147483648 := rfl
  unfold parse_id
  simp only [decide_eq_true_eq, Bool.or_eq_true, Bool.not_eq_true', Bool.and_eq_true, ne_eq,
    decide_not, Bool.not_eq_true, decide_eq_false_iff_not]
  constructor
  · rintro ((((h | h) | h) | h) | h)
    · exact Or.inl h
    · exact Or.inr h
    · omega
    · omega
    · omega
  · rintro (h | h)
    · exact Or.inl (Or.inl (Or.inl (Or.inl h)))
    · exact Or.inl (Or.inl (Or.inl (Or.inr h)))

theorem dropWhile_append_of_all {p : Char → Bool} (sp r : List Char)
    (h : ∀ c ∈ sp, p c = true) : (sp ++ r).dropWhile p = r.dropWhile p := by
  induction sp with
  | nil => rfl
  | cons a as ih =>
    have ha := h a (by simp)
    simp [List.dropWhile, ha, ih (fun c hc => h c (by simp [hc]))]

/-- The fields `moved` and `rest` of `strtol` in terms of the digits found. -/
theorem strtol_fields (nptr s2 : List Char)
    (hs2 : s2 = (if (nptr.dropWhile isspace).head? = some (Char.ofNat 45) ∨
        (nptr.dropWhile isspace).head? = some (Char.ofNat 43)
      then (nptr.dropWhile isspace).tail else nptr.dropWhile isspace)) :
    (s2.takeWhile isdigit = [] → (strtol nptr).moved = false) ∧
    (s2.takeWhile isdigit ≠ [] →
      (strtol nptr).moved = true ∧ (strtol nptr).rest = s2.dropWhile isdigit) := by
  unfold strtol
  simp only []
  rw [← hs2]
  constructor
  · intro h
    rw [if_pos h]
  · intro h
    rw [if_neg h]
    by_cases h1 : (if (nptr.dropWhile isspace).head? = some (Char.ofNat 45) then
        -List.foldl (fun acc c => acc * 10 + ((c.toNat : Int) - 48)) 0 (s2.takeWhile isdigit)
        else List.foldl (fun acc c => acc * 10 + ((c.toNat : Int) - 48)) 0 (s2.takeWhile isdigit))
        > LONG_MAX
    · rw [if_pos h1]; exact ⟨rfl, rfl⟩
    · rw [if_neg h1]
      by_cases h2 : (if (nptr.dropWhile isspace).head? = some (Char.ofNat 45) then
          -List.foldl (fun acc c => acc * 10 + ((c.toNat : Int) - 48)) 0 (s2.takeWhile isdigit)
          else List.foldl (fun acc c => acc * 10 + ((c.toNat : Int) - 48)) 0 (s2.takeWhile isdigit))
          < LONG_MIN
      · rw [if_pos h2]; exact ⟨rfl, rfl⟩
      · rw [if_neg h2]; exact ⟨rfl, rfl⟩

/-- The strings `strtol` converts completely are exactly: white space, then an
optional sign, then a decimal numeral. -/
theorem strtol_accepts_iff (nptr : List Char) :
    ((strtol nptr).moved = true ∧ (strtol nptr).rest = []) ↔
      ∃ sp sg ds, nptr = sp ++ sg ++ ds ∧ (∀ c ∈ sp, isspace c = true) ∧
        (sg = [] ∨ sg = [Char.ofNat 45] ∨ sg = [Char.ofNat 43]) ∧ is_decimal ds := by
  have h45 : isspace (Char.ofNat 45) = false := by decide
  have h43 : isspace (Char.ofNat 43) = false := by decide
  have hd45 : isdigit (Char.ofNat 45) = false := by decide
  have hd43 : isdigit (Char.ofNat 43) = false := by decide
  constructor
  · intro ⟨hm, hrest⟩
    -- the pieces `strtol` itself cuts the string into
    obtain ⟨s1, hs1def⟩ : ∃ s1, s1 = nptr.dropWhile isspace := ⟨_, rfl⟩
    obtain ⟨s2, hs2def⟩ : ∃ s2, s2 = (if s1.head? = some (Char.ofNat 45) ∨
        s1.head? = some (Char.ofNat 43) then s1.tail else s1) := ⟨_, rfl⟩
    have hf := strtol_fields nptr s2 (by rw [hs2def, hs1def])
    have hdig : s2.takeWhile isdigit ≠ [] := by
      intro hnil
      rw [hf.1 hnil] at hm
      exact Bool.noConfusion hm
    have hrest' : s2.dropWhile isdigit = [] := by
      rw [← (hf.2 hdig).2]; exact hrest
    have hs2 : s2.takeWhile isdigit = s2 := by
      have := List.takeWhile_append_dropWhile isdigit s2
      rw [hrest', List.append_nil] at this
      exact this
    have hdec : is_decimal s2 := by
      refine ⟨by rw [← hs2]; exact hdig, ?_⟩
      intro c hc
      rw [← hs2] at hc
      exact (List.mem_takeWhile_imp hc)
    have hsp : nptr = nptr.takeWhile isspace ++ s1 := by
      rw [hs1def]; exact (List.takeWhile_append_dropWhile isspace nptr).symm
    have hspall : ∀ c ∈ nptr.takeWhile isspace, isspace c = true :=
      fun c hc => List.mem_takeWhile_imp hc
    have hsg : ∃ sg, s1 = sg ++ s2 ∧
        (sg = [] ∨ sg = [Char.ofNat 45] ∨ sg = [Char.ofNat 43]) := by
      rw [hs2def]
      cases hs1 : s1 with
      | nil => exact ⟨[], by simp, Or.inl rfl⟩
      | cons c rest =>
        simp only [List.head?_cons, Option.some.injEq, List.tail_cons]
        by_cases hc : c = Char.ofNat 45 ∨ c = Char.ofNat 43
        · rw [if_pos hc]
          rcases hc with hc | hc
          · exact ⟨[Char.ofNat 45], by simp [hc], Or.inr (Or.inl rfl)⟩
          · exact ⟨[Char.ofNat 43], by simp [hc], Or.inr (Or.inr rfl)⟩
        · rw [if_neg hc]
          exact ⟨[], by simp, Or.inl rfl⟩
    obtain ⟨sg, hsg1, hsg2⟩ := hsg
    refine ⟨nptr.takeWhile isspace, sg, s2, ?_, hspall, hsg2, hdec⟩
    rw [List.append_assoc, ← hsg1]
    exact hsp
  · rintro ⟨sp, sg, ds, rfl, hsp, hsg, hdec⟩
    obtain ⟨c, rest, hds⟩ : ∃ c rest, ds = c :: rest := by
      cases ds with
      | nil => exact absurd rfl hdec.1
      | cons c rest => exact ⟨c, rest, rfl⟩
    have hc : isdigit c = true := hdec.2 c (by rw [hds]; simp)
    have hcsp : isspace c = false := isdigit_not_isspace c hc
    have hc45 : c ≠ Char.ofNat 45 := isdigit_ne_of_toNat c 45 hc (by omega) (by decide)
    have hc43 : c ≠ Char.ofNat 43 := isdigit_ne_of_toNat c 43 hc (by omega) (by decide)
    have htd := takeWhile_isdigit ds hdec.2
    have hs1 : (sp ++ sg ++ ds).dropWhile isspace = sg ++ ds := by
      rw [List.append_assoc, dropWhile_append_of_all sp (sg ++ ds) hsp]
      rcases hsg with h | h | h
      · subst h; rw [hds]; simp [List.dropWhile, hcsp]
      · subst h; simp [List.dropWhile, h45]
      · subst h; simp [List.dropWhile, h43]
    have hs2 : (if (sg ++ ds).head? = some (Char.ofNat 45) ∨
        (sg ++ ds).head? = some (Char.ofNat 43) then (sg ++ ds).tail else sg ++ ds) = ds := by
      rcases hsg with h | h | h
      · subst h
        rw [hds]
        simp [hc45, hc43]
      · subst h; simp
      · subst h; simp
    have hne : ds.takeWhile isdigit ≠ [] := by rw [htd.1]; exact hdec.1
    have hf := strtol_fields (sp ++ sg ++ ds) ds (by rw [hs1, hs2])
    have := hf.2 hne
    rw [htd.2] at this
    exact this

/-! ## Every slot is clear or live -/

theorem slot_ok_state (j : job_t) (h : slot_ok j) (hp : j.pid ≠ 0) :
    j.state = BG ∨ j.state = FG ∨ j.state = ST := by
  rcases h with h | h
  · rw [h] at hp; exact absurd rfl hp
  · rcases h.2.2 with h | h | h
    · exact Or.inr (Or.inl h)
    · exact Or.inl h
    · exact Or.inr (Or.inr h)

theorem set_state_slots_ok (jobs pre post : List job_t) (J : job_t) (st : Int)
    (hjobs : jobs = pre ++ J :: post) (h : ∀ j ∈ jobs, slot_ok j) (hJ : 1 ≤ J.pid)
    (hst : st = FG ∨ st = BG ∨ st = ST) :
    ∀ j ∈ set_state jobs pre.length st, slot_ok j := by
  subst hjobs
  rw [set_state_split]
  have hJok : slot_ok J := h J (by simp)
  have hjid : 1 ≤ J.jid := by
    rcases hJok with hc | hl
    · rw [hc] at hJ; simp at hJ
    · exact hl.2.1
  intro j hj
  rcases List.mem_append.mp hj with hj | hj
  · exact h j (by simp [hj])
  · rcases List.mem_cons.mp hj with rfl | hj
    · exact Or.inr ⟨hJ, hjid, hst⟩
    · exact h j (by simp [hj])

theorem init_slots_ok : (∀ j ∈ initState.jobs, slot_ok j) ∧ 1 ≤ initState.nextjid := by
  constructor
  · intro j hj
    simp [initState, emptyJobs, initjobs, clearjob] at hj
    exact Or.inl hj.2
  · decide

/-- As long as no run of `sigchld_handler` falls between the lookup and the
use of the pointer in `do_bgfg`: in every state the transition system `run`
reaches from the empty table, every slot is clear or live. -/
theorem run_slots_ok (verbose : Bool) (es : List Event) (s : Shell)
    (hpre : ∀ e ∈ es, e.unpreempted = true)
    (h : run (Shell.init verbose) es = some s) : ∀ j ∈ s.jobs, slot_ok j :=
  (run_shell_ok es _ s (init_shell_ok verbose) hpre h).1.1

/-! ## The launcher -/

theorem builtin_cmd_external (s : Shell) (a0 : String) (args : List String) (ws : List WaitRet)
    (hext : a0 ≠ "quit" ∧ a0 ≠ "&" ∧ a0 ≠ "jobs" ∧ a0 ≠ "fg" ∧ a0 ≠ "bg" ∧ a0 ≠ "kill") :
    builtin_cmd s (a0 :: args) ws = Outcome.returned 0 s := by
  obtain ⟨h1, h2, h3, h4, h5, h6⟩ := hext
  simp only [builtin_cmd, h1, h2, h3, h4, h5, h6, or_self, if_false]

/-- The scan of `argv` only appends `open`, `pipe` and error-line actions to
the trace, however it ends. -/
theorem scan_loop_trace (toks : List String) (s : Shell) (env : Sys) (sc : Scan) :
    ∃ t, (scan_loop s env sc toks).sh.trace = s.trace ++ t ∧
      ∀ a ∈ t, a.is_scan = true := by
  induction toks generalizing s env sc with
  | nil => exact ⟨[], by simp [scan_loop, Outcome.sh], by simp⟩
  | cons tok rest ih =>
    unfold scan_loop
    by_cases h1 : tok = "<"
    · rw [if_pos h1]
      simp only
      by_cases hfd : env.opens.headD (-1) < 0
      · rw [if_pos hfd]
        obtain ⟨t, ht, hall⟩ := ih
          ((s.emit (Action.open_rd rest.head? (env.opens.headD (-1)))).emit
            (Action.perror "Could not open file for reading"))
          { env with opens := env.opens.tail }
          { sc with infd := env.opens.headD (-1), argv := sc.argv ++ [none] }
        refine ⟨Action.open_rd rest.head? (env.opens.headD (-1)) ::
          Action.perror "Could not open file for reading" :: t, ?_, ?_⟩
        · rw [ht]; simp [Shell.emit]
        · intro a ha
          rcases List.mem_cons.mp ha with rfl | ha
          · rfl
          · rcases List.mem_cons.mp ha with rfl | ha
            · rfl
            · exact hall a ha
      · rw [if_neg hfd]
        obtain ⟨t, ht, hall⟩ := ih
          (s.emit (Action.open_rd rest.head? (env.opens.headD (-1))))
          { env with opens := env.opens.tail }
          { sc with infd := env.opens.headD (-1), argv := sc.argv ++ [none] }
        refine ⟨Action.open_rd rest.head? (env.opens.headD (-1)) :: t, ?_, ?_⟩
        · rw [ht]; simp [Shell.emit]
        · intro a ha
          rcases List.mem_cons.mp ha with rfl | ha
          · rfl
          · exact hall a ha
    · rw [if_neg h1]
      by_cases h2 : tok = "|"
      · rw [if_pos h2]
        simp only
        by_cases hp : (env.pipes.headD (-1, -1, -1)).1 < 0
        · rw [if_pos hp]
          refine ⟨[Action.pipe (env.pipes.headD (-1, -1, -1)).1 (env.pipes.headD (-1, -1, -1)).2.1
            (env.pipes.headD (-1, -1, -1)).2.2, Action.perror "pipe"], ?_, ?_⟩
          · simp [unix_error, Outcome.sh, Shell.emit]
          · intro a ha
            simp only [List.mem_cons, List.mem_singleton, List.not_mem_nil, or_false] at ha
            rcases ha with rfl | rfl <;> rfl
        · rw [if_neg hp]
          obtain ⟨t, ht, hall⟩ := ih
            (s.emit (Action.pipe (env.pipes.headD (-1, -1, -1)).1
              (env.pipes.headD (-1, -1, -1)).2.1 (env.pipes.headD (-1, -1, -1)).2.2))
            { env with pipes := env.pipes.tail }
            { sc with pipe_rd := (env.pipes.headD (-1, -1, -1)).2.1,
                      pipe_wr := (env.pipes.headD (-1, -1, -1)).2.2,
                      argv := sc.argv ++ [none], argv2 := some (sc.argv.length + 1) }
          refine ⟨Action.pipe (env.pipes.headD (-1, -1, -1)).1
            (env.pipes.headD (-1, -1, -1)).2.1 (env.pipes.headD (-1, -1, -1)).2.2 :: t, ?_, ?_⟩
          · rw [ht]; simp [Shell.emit]
          · intro a ha
            rcases List.mem_cons.mp ha with rfl | ha
            · rfl
            · exact hall a ha
      · rw [if_neg h2]
        by_cases h3 : tok = ">"
        · rw [if_pos h3]
          simp only
          by_cases hfd : env.opens.headD (-1) < 0
          · rw [if_pos hfd]
            obtain ⟨t, ht, hall⟩ := ih
              ((s.emit (Action.open_wr rest.head? (env.opens.headD (-1)))).emit
                (Action.perror "Could not open file for writing"))
              { env with opens := env.opens.tail }
              { sc with outfd := env.opens.headD (-1), argv := sc.argv ++ [none] }
            refine ⟨Action.open_wr rest.head? (env.opens.headD (-1)) ::
              Action.perror "Could not open file for writing" :: t, ?_, ?_⟩
            · rw [ht]; simp [Shell.emit]
            · intro a ha
              rcases List.mem_cons.mp ha with rfl | ha
              · rfl
              · rcases List.mem_cons.mp ha with rfl | ha
                · rfl
                · exact hall a ha
          · rw [if_neg hfd]
            obtain ⟨t, ht, hall⟩ := ih
              (s.emit (Action.open_wr rest.head? (env.opens.headD (-1))))
              { env with opens := env.opens.tail }
              { sc with outfd := env.opens.headD (-1), argv := sc.argv ++ [none] }
            refine ⟨Action.open_wr rest.head? (env.opens.headD (-1)) :: t, ?_, ?_⟩
            · rw [ht]; simp [Shell.emit]
            · intro a ha
              rcases List.mem_cons.mp ha with rfl | ha
              · rfl
              · exact hall a ha
        · rw [if_neg h3]
          exact ih s env { sc with argv := sc.argv ++ [some tok] }

theorem close_actions_trace (s : Shell) (sc : Scan) :
    (if sc.pipe_rd > 0 then
      ((if sc.outfd > 0 then (if sc.infd > 0 then s.emit (Action.close sc.infd) else s).emit
          (Action.close sc.outfd) else (if sc.infd > 0 then s.emit (Action.close sc.infd) else s)).emit
        (Action.close sc.pipe_rd)).emit (Action.close sc.pipe_wr)
      else (if sc.outfd > 0 then (if sc.infd > 0 then s.emit (Action.close sc.infd) else s).emit
          (Action.close sc.outfd) else (if sc.infd > 0 then s.emit (Action.close sc.infd) else s))) =
    { s with trace := s.trace ++ close_actions sc } := by
  unfold close_actions
  split_ifs <;> simp [Shell.emit]

/-- What `eval_parent` does in terms of the pieces of its trace. -/
theorem eval_parent_eq (s : Shell) (sc : Scan) (pid bg : Int) (cmdline : String)
    (pending : List WaitRet) :
    eval_parent s sc pid bg cmdline pending =
      (let s4 := ({ s with trace := s.trace ++ close_actions sc }.addjob pid
          (if bg ≠ 0 then BG else FG) cmdline).2
       let s5 := s4.emit Action.sigunblock
       (sigchld_handler s5 pending).bind (fun _ s6 =>
         if bg = 0 then Outcome.returned () (waitfg s6 pid)
         else
           match deref s6.jobs (getjobpid s6.jobs pid) with
           | none => Outcome.nullDeref s6
           | some job =>
             Outcome.returned ()
               (s6.emit (Action.print
                 ("[" ++ toString job.jid ++ "] (" ++ toString pid ++ ") " ++ cmdline))))) := by
  unfold eval_parent
  simp only
  rw [close_actions_trace]

theorem addjob_loop_split (pid state nextjid : Int) (cmdline : String)
    (pre post : List job_t) (J : job_t) (hpre : ∀ x ∈ pre, x.pid ≠ 0) (hJ : J.pid = 0) :
    addjob_loop pid state nextjid cmdline (pre ++ J :: post) =
      some (pre ++ { pid := pid, state := state, jid := nextjid, cmdline := cmdline } :: post) := by
  induction pre with
  | nil => simp [addjob_loop, hJ]
  | cons a as ih =>
    have ha : a.pid ≠ 0 := hpre a (by simp)
    have := ih (fun x hx => hpre x (by simp [hx]))
    simp [addjob_loop, ha, this]

/-- The background launch when the child is still running at the unblocking:
for a command line `L` that `parseline` reads as a background command
(flag set, words `a0 :: args` left) whose first word is no builtin, in a table
with an empty slot (`J`, the lowest-index one), when the scan for redirections
completes, `fork` returns the pid `p >= 1` that no slot holds (and a pid
for the second stage, if there is one), and no `SIGCHLD` is pending when
`eval` unblocks the signal: `eval` returns; the entry
(pid `p`, state `BG`, jid = old counter, command line `L` verbatim) is written
into slot `J`; every other slot is unchanged; and the last thing printed is
`[jid] (p) L`.  The scan prints nothing with `printf`, and `addjob` prints only
when `verbose` is set. -/
theorem eval_background_launch (s : Shell) (env : Sys) (L a0 : String) (args : List String)
    (sc : Scan) (env1 : Sys) (s1 : Shell) (p : Int) (pre post : List job_t) (J : job_t)
    (hparse : parseline L = (1, a0 :: args))
    (hext : a0 ≠ "quit" ∧ a0 ≠ "&" ∧ a0 ≠ "jobs" ∧ a0 ≠ "fg" ∧ a0 ≠ "bg" ∧ a0 ≠ "kill")
    (hscan : scan_loop (s.emit Action.sigblock) env Scan.init (a0 :: args) =
      Outcome.returned (sc, env1) s1)
    (hp : 1 ≤ p) (hfork : env1.forks.headD (-1) = p)
    (hfork2 : sc.argv2 = none ∨ 0 < env1.forks.tail.headD (-1))
    (hfresh : ∀ x ∈ s.jobs, x.pid ≠ p) (hpend : env.pending = [])
    (hjobs : s.jobs = pre ++ J :: post) (hpre : ∀ x ∈ pre, x.pid ≠ 0) (hJ : J.pid = 0) :
    eval s env L =
      Outcome.returned ()
        { jobs := pre ++ { pid := p, jid := s.nextjid, state := BG, cmdline := L } :: post
          nextjid := if s.nextjid + 1 > (MAXJOBS : Int) then 1 else s.nextjid + 1
          verbose := s.verbose
          trace := s1.trace ++ Action.fork p ::
            ((match sc.argv2 with
              | none => []
              | some _ => [Action.fork (env1.forks.tail.headD (-1))]) ++
             close_actions sc ++
             (if s.verbose = true then [Action.print (fmt_added s.nextjid p L)] else []) ++
             [Action.addjob p BG 1, Action.sigunblock,
              Action.print ("[" ++ toString s.nextjid ++ "] (" ++ toString p ++ ") " ++ L)])
          waiting := s.waiting } ∧
    (∃ t, s1.trace = s.trace ++ Action.sigblock :: t ∧ printed t = []) := by
  obtain ⟨e1, e2, e3, e4, _⟩ := scan_loop_frame _ _ _ _ _ _ _ hscan
  have hj1 : s1.jobs = pre ++ J :: post := by rw [e1]; exact hjobs
  have hn1 : s1.nextjid = s.nextjid := e2
  have hw1 : s1.waiting = s.waiting := e3
  have hv1 : s1.verbose = s.verbose := e4
  have hnotlt : ¬ p < 1 := by omega
  -- the parent's part, for any shell with the table and counter of `s`
  have hparent : ∀ (s3 : Shell), s3.jobs = pre ++ J :: post → s3.nextjid = s.nextjid →
      s3.verbose = s.verbose → s3.waiting = s.waiting →
      eval_parent s3 sc p 1 L [] =
        Outcome.returned ()
          { jobs := pre ++ { pid := p, jid := s.nextjid, state := BG, cmdline := L } :: post
            nextjid := if s.nextjid + 1 > (MAXJOBS : Int) then 1 else s.nextjid + 1
            verbose := s.verbose
            trace := s3.trace ++ (close_actions sc ++
              (if s.verbose = true then [Action.print (fmt_added s.nextjid p L)] else []) ++
              [Action.addjob p BG 1, Action.sigunblock,
               Action.print ("[" ++ toString s.nextjid ++ "] (" ++ toString p ++ ") " ++ L)])
            waiting := s.waiting } := by
    intro s3 h3j h3n h3v h3w
    have hadd : addjob s3.verbose (pre ++ J :: post) s.nextjid p BG L =
        { ret := 1
          jobs := pre ++ { pid := p, jid := s.nextjid, state := BG, cmdline := L } :: post
          nextjid := if s.nextjid + 1 > (MAXJOBS : Int) then 1 else s.nextjid + 1
          out := if s3.verbose = true then [fmt_added s.nextjid p L] else [] } := by
      simp only [addjob, hnotlt, if_false, addjob_loop_split p BG s.nextjid L pre post J hpre hJ]
    have hget : getjobpid
        (pre ++ { pid := p, jid := s.nextjid, state := BG, cmdline := L } :: post) p =
        some pre.length :=
      getjobpid_split p pre post _ hp
        (fun x hx => hfresh x (by rw [hjobs]; simp [hx])) rfl
    have h10 : ((1 : Int) ≠ 0) = True := by simp
    have h10' : ((1 : Int) = 0) = False := by simp
    rw [eval_parent_eq]
    simp only [Shell.addjob, Shell.emit, Shell.prints, h10, h10', if_true, if_false, h3j, h3n,
      hadd, sigchld_handler, Outcome.bind, hget, deref_split]
    rw [h3v, h3w]
    cases hv : s.verbose <;> simp
  constructor
  · unfold eval
    simp only [hparse]
    rw [builtin_cmd_external s a0 args env.preempt hext]
    simp only [Outcome.bind, if_true]
    unfold eval_launch
    rw [hscan, hpend]
    simp only [Outcome.bind, hfork]
    have hnlt : ¬ p < 0 := by omega
    have hne : ¬ p = 0 := by omega
    rw [if_neg hnlt, if_neg hne]
    cases ha : sc.argv2 with
    | none =>
      simp only
      rw [hparent (s1.emit (Action.fork p)) hj1 hn1 hv1 hw1]
      simp [Shell.emit]
    | some k =>
      rcases hfork2 with h | h
      · rw [ha] at h; exact Option.noConfusion h
      · have hnlt2 : ¬ env1.forks.tail.headD (-1) < 0 := by omega
        have hne2 : ¬ env1.forks.tail.headD (-1) = 0 := by omega
        simp only
        rw [if_neg hnlt2, if_neg hne2,
          hparent ((s1.emit (Action.fork p)).emit (Action.fork (env1.forks.tail.headD (-1))))
            hj1 hn1 hv1 hw1]
        simp [Shell.emit]
  · obtain ⟨t, ht, hall⟩ := scan_loop_trace (a0 :: args) (s.emit Action.sigblock) env Scan.init
    rw [hscan] at ht
    refine ⟨t, by simpa [Outcome.sh, Shell.emit] using ht, ?_⟩
    unfold printed
    rw [List.filterMap_eq_nil_iff]
    intro a ha
    have := hall a ha
    cases a <;> simp_all [Action.is_scan]

/-- The command the specification names: `sleep 5 &` from the empty table,
the child being pid 100 and still running, leaves one entry (pid 100, jid 1,
`BG`, command line `sleep 5 &` with its newline) and prints
`[1] (100) sleep 5 &`. -/
theorem eval_background_launch_witness :
    eval (Shell.init false) (sys_forks 100) "sleep 5 &\n" =
      Outcome.returned ()
        { jobs := { pid := 100, jid := 1, state := BG, cmdline := "sleep 5 &\n" } ::
            List.replicate 15 { pid := 0, jid := 0, state := UNDEF, cmdline := "" }
          nextjid := 2
          verbose := false
          trace := [Action.sigblock, Action.fork 100, Action.addjob 100 BG 1, Action.sigunblock,
            Action.print "[1] (100) sleep 5 &\n"]
          waiting := none } :=
  (eval_background_launch (Shell.init false) (sys_forks 100) "sleep 5 &\n" "sleep" ["5"]
    { infd := 0, outfd := 0, pipe_rd := -1, pipe_wr := -1,
      argv := [some "sleep", some "5"], argv2 := none }
    (sys_forks 100) ((Shell.init false).emit Action.sigblock) 100 []
    (List.replicate 15 { pid := 0, jid := 0, state := UNDEF, cmdline := "" })
    { pid := 0, jid := 0, state := UNDEF, cmdline := "" }
    (by decide) (by decide) (by decide) (by decide) (by decide) (Or.inl rfl) (by decide) rfl
    (by decide) (by simp) rfl).1.trans (by decide)

/-! ## SIGCHLD is blocked from before the first fork until addjob has returned -/

theorem discipline_neutral (t u : List Action) (b a : Bool)
    (h : ∀ x ∈ t, x.is_neutral = true) :
    sigchld_discipline b a (t ++ u) = sigchld_discipline b a u := by
  induction t with
  | nil => rfl
  | cons x xs ih =>
    have hx := h x (by simp)
    have ih' := ih (fun y hy => h y (by simp [hy]))
    cases x <;> simp_all [sigchld_discipline, Action.is_neutral]

theorem discipline_neutral_only (t : List Action) (b a : Bool)
    (h : ∀ x ∈ t, x.is_neutral = true) : sigchld_discipline b a t = true := by
  have := discipline_neutral t [] b a h
  rw [List.append_nil] at this
  rw [this]; rfl

theorem is_scan_neutral (x : Action) (h : x.is_scan = true) : x.is_neutral = true := by
  cases x <;> simp_all [Action.is_scan, Action.is_neutral]

theorem close_actions_neutral (sc : Scan) : ∀ x ∈ close_actions sc, x.is_neutral = true := by
  intro x hx
  unfold close_actions at hx
  simp only [List.mem_append] at hx
  rcases hx with (hx | hx) | hx
  · split_ifs at hx
    · simp only [List.mem_singleton] at hx; rw [hx]; rfl
    · simp at hx
  · split_ifs at hx
    · simp only [List.mem_singleton] at hx; rw [hx]; rfl
    · simp at hx
  · split_ifs at hx
    · simp only [List.mem_cons, List.mem_singleton, List.not_mem_nil, or_false] at hx
      rcases hx with hx | hx <;> (rw [hx]; rfl)
    · simp at hx

theorem prints_neutral (out : List String) : ∀ x ∈ out.map Action.print, x.is_neutral = true := by
  intro x hx
  simp only [List.mem_map] at hx
  obtain ⟨o, _, rfl⟩ := hx
  rfl

/-- What a run of the reaper adds to the trace: printed lines, and the error
line of `unix_error` when it ends the process. -/
theorem sigchld_handler_trace (ws : List WaitRet) (s : Shell) :
    ∃ t, (sigchld_handler s ws).sh.trace = s.trace ++ t ∧
      (∀ x ∈ t, x.is_neutral = true) ∧
      (∀ s1, sigchld_handler s ws = Outcome.returned () s1 →
        ∀ x ∈ t, ∃ line, x = Action.print line) := by
  induction ws generalizing s with
  | nil => exact ⟨[], by simp [sigchld_handler, Outcome.sh], by simp, by simp⟩
  | cons w ws ih =>
    unfold sigchld_handler
    by_cases h1 : w.pid < 0
    · rw [if_pos h1]
      by_cases h2 : w.errno = ECHILD
      · rw [if_pos h2]
        exact ⟨[], by simp [Outcome.sh], by simp, by simp⟩
      · rw [if_neg h2]
        by_cases h3 : w.errno = EINTR
        · rw [if_pos h3]
          exact ih s
        · rw [if_neg h3]
          refine ⟨[Action.perror "waitpid returned unspecified error."], ?_, ?_, ?_⟩
          · simp [unix_error, Outcome.sh, Shell.emit]
          · intro x hx
            rw [List.mem_singleton.mp hx]
            rfl
          · intro s1 h
            exact Outcome.noConfusion h
    · rw [if_neg h1]
      by_cases h2 : w.pid = 0
      · rw [if_pos h2]
        exact ⟨[], by simp [Outcome.sh], by simp, by simp⟩
      · rw [if_neg h2]
        have hrep : ∃ u, (sigchld_report s w.pid w.status).sh.trace = s.trace ++ u ∧
            ∀ x ∈ u, ∃ line, x = Action.print line := by
          cases w.status with
          | exited c =>
            exact ⟨[], by simp [sigchld_report, Outcome.sh, Shell.deletejob], by simp⟩
          | signaled sig =>
            simp only [sigchld_report]
            cases deref s.jobs (getjobpid s.jobs w.pid) with
            | none => exact ⟨[], by simp [Outcome.sh], by simp⟩
            | some job =>
              exact ⟨[Action.print (fmt_terminated job.jid w.pid sig)],
                by simp [Outcome.sh, Shell.deletejob, Shell.emit],
                fun x hx => ⟨_, List.mem_singleton.mp hx⟩⟩
          | stopped sig =>
            simp only [sigchld_report]
            cases deref s.jobs (getjobpid s.jobs w.pid) with
            | none => exact ⟨[], by simp [Outcome.sh], by simp⟩
            | some job =>
              refine ⟨[Action.print (fmt_stopped job.jid w.pid sig)], ?_,
                fun x hx => ⟨_, List.mem_singleton.mp hx⟩⟩
              simp only [Shell.emit]
              cases getjobpid s.jobs w.pid <;> simp [Outcome.sh]
          | other => exact ⟨[], by simp [sigchld_report, Outcome.sh], by simp⟩
        obtain ⟨u, hu, hup⟩ := hrep
        have hun : ∀ x ∈ u, x.is_neutral = true := by
          intro x hx
          obtain ⟨line, rfl⟩ := hup x hx
          rfl
        cases hr : sigchld_report s w.pid w.status with
        | returned v s2 =>
          rw [hr] at hu
          simp only [Outcome.sh] at hu
          obtain ⟨t, ht, htn, htp⟩ := ih s2
          simp only
          refine ⟨u ++ t, ?_, ?_, ?_⟩
          · rw [ht, hu, List.append_assoc]
          · intro x hx
            rcases List.mem_append.mp hx with hx | hx
            · exact hun x hx
            · exact htn x hx
          · intro s1 h x hx
            rcases List.mem_append.mp hx with hx | hx
            · exact hup x hx
            · exact htp s1 h x hx
        | exited c s2 =>
          rw [hr] at hu
          exact ⟨u, hu, hun, fun s1 h => Outcome.noConfusion h⟩
        | execed s2 =>
          rw [hr] at hu
          exact ⟨u, hu, hun, fun s1 h => Outcome.noConfusion h⟩
        | nullDeref s2 =>
          rw [hr] at hu
          exact ⟨u, hu, hun, fun s1 h => Outcome.noConfusion h⟩

/-- The trace of the parent's part of `eval`: the `close` calls, what `addjob`
printed, the call of `addjob`, the unblocking, then what the reaper run at the
unblocking adds and at most one more line; when `eval_parent` returns, that
last part is printed lines only. -/
theorem eval_parent_trace (s : Shell) (sc : Scan) (pid bg : Int) (cmdline : String)
    (pending : List WaitRet) :
    ∃ mid tail st r, (eval_parent s sc pid bg cmdline pending).sh.trace =
        s.trace ++ (mid ++ Action.addjob pid st r :: Action.sigunblock :: tail) ∧
      (∀ x ∈ mid, x.is_neutral = true) ∧ (∀ x ∈ tail, x.is_neutral = true) ∧
      (∀ s1, eval_parent s sc pid bg cmdline pending = Outcome.returned () s1 →
        ∀ x ∈ tail, ∃ line, x = Action.print line) := by
  rw [eval_parent_eq]
  simp only
  obtain ⟨t, ht, htn, htp⟩ := sigchld_handler_trace pending
    (({ s with trace := s.trace ++ close_actions sc }.addjob pid
      (if bg ≠ 0 then BG else FG) cmdline).2.emit Action.sigunblock)
  have hbase : (({ s with trace := s.trace ++ close_actions sc }.addjob pid
      (if bg ≠ 0 then BG else FG) cmdline).2.emit Action.sigunblock).trace =
      s.trace ++ ((close_actions sc ++
        (addjob s.verbose s.jobs s.nextjid pid (if bg ≠ 0 then BG else FG) cmdline).out.map
          Action.print) ++
        Action.addjob pid (if bg ≠ 0 then BG else FG)
          (addjob s.verbose s.jobs s.nextjid pid (if bg ≠ 0 then BG else FG) cmdline).ret ::
        [Action.sigunblock]) := by
    simp [Shell.addjob, Shell.emit, Shell.prints]
  have hmid : ∀ x ∈ close_actions sc ++
      (addjob s.verbose s.jobs s.nextjid pid (if bg ≠ 0 then BG else FG) cmdline).out.map
        Action.print, x.is_neutral = true := by
    intro x hx
    rcases List.mem_append.mp hx with hx | hx
    · exact close_actions_neutral sc x hx
    · exact prints_neutral _ x hx
  suffices key : ∃ tail,
      ((sigchld_handler (({ s with trace := s.trace ++ close_actions sc }.addjob pid
          (if bg ≠ 0 then BG else FG) cmdline).2.emit Action.sigunblock) pending).bind
        (fun _ s6 =>
          if bg = 0 then Outcome.returned () (waitfg s6 pid)
          else
            match deref s6.jobs (getjobpid s6.jobs pid) with
            | none => Outcome.nullDeref s6
            | some job =>
              Outcome.returned ()
                (s6.emit (Action.print
                  ("[" ++ toString job.jid ++ "] (" ++ toString pid ++ ") " ++ cmdline))))).sh.trace =
        s.trace ++ ((close_actions sc ++
          (addjob s.verbose s.jobs s.nextjid pid (if bg ≠ 0 then BG else FG) cmdline).out.map
            Action.print) ++
          Action.addjob pid (if bg ≠ 0 then BG else FG)
            (addjob s.verbose s.jobs s.nextjid pid (if bg ≠ 0 then BG else FG) cmdline).ret ::
          Action.sigunblock :: tail) ∧
      (∀ x ∈ tail, x.is_neutral = true) ∧
      (∀ s1, (sigchld_handler (({ s with trace := s.trace ++ close_actions sc }.addjob pid
          (if bg ≠ 0 then BG else FG) cmdline).2.emit Action.sigunblock) pending).bind
        (fun _ s6 =>
          if bg = 0 then Outcome.returned () (waitfg s6 pid)
          else
            match deref s6.jobs (getjobpid s6.jobs pid) with
            | none => Outcome.nullDeref s6
            | some job =>
              Outcome.returned ()
                (s6.emit (Action.print
                  ("[" ++ toString job.jid ++ "] (" ++ toString pid ++ ") " ++ cmdline)))) =
          Outcome.returned () s1 → ∀ x ∈ tail, ∃ line, x = Action.print line) by
    obtain ⟨tail, k1, k2, k3⟩ := key
    exact ⟨_, tail, _, _, k1, hmid, k2, k3⟩
  cases hh : sigchld_handler (({ s with trace := s.trace ++ close_actions sc }.addjob pid
      (if bg ≠ 0 then BG else FG) cmdline).2.emit Action.sigunblock) pending with
  | returned v s6 =>
    rw [hh] at ht
    simp only [Outcome.sh] at ht
    have htp6 := htp s6 (by rw [hh])
    simp only [Outcome.bind]
    by_cases hbg : bg = 0
    · rw [if_pos hbg]
      refine ⟨t, ?_, htn, fun _ _ => htp6⟩
      simp only [Outcome.sh, waitfg]
      rw [ht, hbase]
      simp
    · rw [if_neg hbg]
      cases deref s6.jobs (getjobpid s6.jobs pid) with
      | none =>
        refine ⟨t, ?_, htn, fun _ h => Outcome.noConfusion h⟩
        simp only [Outcome.sh]
        rw [ht, hbase]
        simp
      | some job =>
        refine ⟨t ++ [Action.print ("[" ++ toString job.jid ++ "] (" ++ toString pid ++
          ") " ++ cmdline)], ?_, ?_, ?_⟩
        · simp only [Outcome.sh, Shell.emit]
          rw [ht, hbase]
          simp
        · intro x hx
          rcases List.mem_append.mp hx with hx | hx
          · exact htn x hx
          · rw [List.mem_singleton.mp hx]; rfl
        · intro _ _ x hx
          rcases List.mem_append.mp hx with hx | hx
          · exact htp6 x hx
          · exact ⟨_, List.mem_singleton.mp hx⟩
  | exited c s6 =>
    rw [hh] at ht
    simp only [Outcome.sh] at ht
    refine ⟨t, ?_, htn, fun _ h => Outcome.noConfusion h⟩
    simp only [Outcome.bind, Outcome.sh]
    rw [ht, hbase]
    simp
  | execed s6 =>
    rw [hh] at ht
    simp only [Outcome.sh] at ht
    refine ⟨t, ?_, htn, fun _ h => Outcome.noConfusion h⟩
    simp only [Outcome.bind, Outcome.sh]
    rw [ht, hbase]
    simp
  | nullDeref s6 =>
    rw [hh] at ht
    simp only [Outcome.sh] at ht
    refine ⟨t, ?_, htn, fun _ h => Outcome.noConfusion h⟩
    simp only [Outcome.bind, Outcome.sh]
    rw [ht, hbase]
    simp

theorem forks_head_ne_zero (env : Sys) (h : ∀ p ∈ env.forks, p ≠ 0) :
    env.forks.headD (-1) ≠ 0 ∧ env.forks.tail.headD (-1) ≠ 0 := by
  cases hf : env.forks with
  | nil => simp
  | cons a rest =>
    rw [hf] at h
    refine ⟨h a (by simp), ?_⟩
    cases rest with
    | nil => simp
    | cons b rest2 => exact h b (by simp)

theorem parent_discipline (ts fs mid tail : List Action) (pid st r : Int)
    (hts : ∀ x ∈ ts, x.is_neutral = true) (hfs : ∀ x ∈ fs, ∃ q, x = Action.fork q)
    (hmid : ∀ x ∈ mid, x.is_neutral = true) (htail : ∀ x ∈ tail, x.is_neutral = true) :
    sigchld_discipline true false
      (ts ++ (fs ++ (mid ++ Action.addjob pid st r :: Action.sigunblock :: tail))) = true := by
  rw [discipline_neutral ts _ true false hts]
  have hforks : ∀ (fs : List Action), (∀ x ∈ fs, ∃ q, x = Action.fork q) → ∀ (u : List Action),
      sigchld_discipline true false (fs ++ u) = sigchld_discipline true false u := by
    intro fs
    induction fs with
    | nil => intro _ u; rfl
    | cons f rest ih =>
      intro h u
      obtain ⟨q, rfl⟩ := h f (by simp)
      simp only [List.cons_append, sigchld_discipline, Bool.true_and]
      exact ih (fun x hx => h x (by simp [hx])) u
  rw [hforks fs hfs, discipline_neutral mid _ true false hmid]
  simp only [sigchld_discipline, Bool.true_and]
  exact discipline_neutral_only _ _ _ htail

/-- C19: for every external command, in the process that stays the shell (no
`fork` returns 0 in it), the part of the trace that `eval` adds starts with the
blocking of `SIGCHLD`; from there on every `fork` and the call of `addjob`
happen while the signal is blocked, and it is unblocked only after `addjob`
has returned.  When `eval` returns, that part is: actions among which the
first stage is forked and the signal mask is not touched, then `addjob` for
the first stage's pid, then the unblocking, then printed lines only (those of
a reaper run let in by the unblocking, and the background line). -/
theorem eval_sigchld_discipline (s : Shell) (env : Sys) (L a0 : String) (args : List String)
    (hparse : (parseline L).2 = a0 :: args)
    (hext : a0 ≠ "quit" ∧ a0 ≠ "&" ∧ a0 ≠ "jobs" ∧ a0 ≠ "fg" ∧ a0 ≠ "bg" ∧ a0 ≠ "kill")
    (hshell : ∀ p ∈ env.forks, p ≠ 0) :
    ∃ t, (eval s env L).sh.trace = s.trace ++ Action.sigblock :: t ∧
      sigchld_discipline true false t = true ∧
      (∀ s1, eval s env L = Outcome.returned () s1 →
        ∃ t1 t2 p st r, t = t1 ++ Action.addjob p st r :: Action.sigunblock :: t2 ∧
          Action.fork p ∈ t1 ∧
          (∀ x ∈ t1, x.is_neutral = true ∨ ∃ q, x = Action.fork q) ∧
          (∀ x ∈ t2, ∃ line, x = Action.print line)) := by
  have heval : eval s env L = eval_launch s env (a0 :: args) (parseline L).1 L := by
    unfold eval
    simp only [hparse]
    rw [builtin_cmd_external s a0 args env.preempt hext]
    simp only [Outcome.bind, if_true]
  rw [heval]
  obtain ⟨ts, hts, hscan⟩ := scan_loop_trace (a0 :: args) (s.emit Action.sigblock) env Scan.init
  have htsn : ∀ x ∈ ts, x.is_neutral = true := fun x hx => is_scan_neutral x (hscan x hx)
  have hbase : (s.emit Action.sigblock).trace ++ ts = s.trace ++ Action.sigblock :: ts := by
    simp [Shell.emit]
  unfold eval_launch
  cases hsc : scan_loop (s.emit Action.sigblock) env Scan.init (a0 :: args) with
  | exited c s2 =>
    rw [hsc] at hts
    refine ⟨ts, ?_, discipline_neutral_only ts true false htsn, ?_⟩
    · simp only [Outcome.bind, Outcome.sh] at hts ⊢
      rw [hts, hbase]
    · intro s1 h; simp only [Outcome.bind] at h; exact Outcome.noConfusion h
  | execed s2 =>
    rw [hsc] at hts
    refine ⟨ts, ?_, discipline_neutral_only ts true false htsn, ?_⟩
    · simp only [Outcome.bind, Outcome.sh] at hts ⊢
      rw [hts, hbase]
    · intro s1 h; simp only [Outcome.bind] at h; exact Outcome.noConfusion h
  | nullDeref s2 =>
    rw [hsc] at hts
    refine ⟨ts, ?_, discipline_neutral_only ts true false htsn, ?_⟩
    · simp only [Outcome.bind, Outcome.sh] at hts ⊢
      rw [hts, hbase]
    · intro s1 h; simp only [Outcome.bind] at h; exact Outcome.noConfusion h
  | returned v s2 =>
    obtain ⟨sc, env1⟩ := v
    rw [hsc] at hts
    simp only [Outcome.sh] at hts
    rw [hbase] at hts
    obtain ⟨_, _, _, _, e5⟩ := scan_loop_frame _ _ _ _ _ _ _ hsc
    have hz := forks_head_ne_zero env hshell
    rw [← e5] at hz
    simp only [Outcome.bind]
    by_cases hneg : env1.forks.headD (-1) < 0
    · rw [if_pos hneg]
      refine ⟨ts ++ [Action.fork (env1.forks.headD (-1)), Action.perror "fork"], ?_, ?_, ?_⟩
      · simp [unix_error, Outcome.sh, Shell.emit, hts]
      · rw [discipline_neutral ts _ true false htsn]
        rfl
      · intro s1 h; exact Outcome.noConfusion h
    · rw [if_neg hneg, if_neg hz.1]
      cases ha : sc.argv2 with
      | none =>
        simp only
        obtain ⟨mid, tail, st, r, htr, hmid, htail, htailp⟩ :=
          eval_parent_trace (s2.emit (Action.fork (env1.forks.headD (-1)))) sc
            (env1.forks.headD (-1)) (parseline L).1 L env.pending
        refine ⟨ts ++ ([Action.fork (env1.forks.headD (-1))] ++
          (mid ++ Action.addjob (env1.forks.headD (-1)) st r :: Action.sigunblock :: tail)),
          ?_, ?_, ?_⟩
        · rw [htr]; simp [Shell.emit, hts]
        · exact parent_discipline ts _ mid tail _ st r htsn
            (fun x hx => ⟨_, List.mem_singleton.mp hx⟩) hmid htail
        · intro s1 hret
          refine ⟨ts ++ ([Action.fork (env1.forks.headD (-1))] ++ mid), tail,
            env1.forks.headD (-1), st, r, by simp, by simp, ?_, htailp s1 hret⟩
          intro x hx
          simp only [List.mem_append, List.mem_singleton] at hx
          rcases hx with hx | hx | hx
          · exact Or.inl (htsn x hx)
          · exact Or.inr ⟨_, hx⟩
          · exact Or.inl (hmid x hx)
      | some k =>
        simp only
        by_cases hneg2 : env1.forks.tail.headD (-1) < 0
        · rw [if_pos hneg2]
          refine ⟨ts ++ [Action.fork (env1.forks.headD (-1)),
            Action.fork (env1.forks.tail.headD (-1)), Action.perror "fork"], ?_, ?_, ?_⟩
          · simp [unix_error, Outcome.sh, Shell.emit, hts]
          · rw [discipline_neutral ts _ true false htsn]
            rfl
          · intro s1 h; exact Outcome.noConfusion h
        · rw [if_neg hneg2, if_neg hz.2]
          obtain ⟨mid, tail, st, r, htr, hmid, htail, htailp⟩ :=
            eval_parent_trace ((s2.emit (Action.fork (env1.forks.headD (-1)))).emit
                (Action.fork (env1.forks.tail.headD (-1)))) sc
              (env1.forks.headD (-1)) (parseline L).1 L env.pending
          refine ⟨ts ++ ([Action.fork (env1.forks.headD (-1)),
              Action.fork (env1.forks.tail.headD (-1))] ++
            (mid ++ Action.addjob (env1.forks.headD (-1)) st r :: Action.sigunblock :: tail)),
            ?_, ?_, ?_⟩
          · rw [htr]; simp [Shell.emit, hts]
          · refine parent_discipline ts _ mid tail _ st r htsn ?_ hmid htail
            intro x hx
            simp only [List.mem_cons, List.mem_singleton, List.not_mem_nil, or_false] at hx
            rcases hx with hx | hx
            · exact ⟨_, hx⟩
            · exact ⟨_, hx⟩
          · intro s1 hret
            refine ⟨ts ++ ([Action.fork (env1.forks.headD (-1)),
                Action.fork (env1.forks.tail.headD (-1))] ++ mid), tail,
              env1.forks.headD (-1), st, r, by simp, by simp, ?_, htailp s1 hret⟩
            intro x hx
            simp only [List.mem_append, List.mem_cons, List.mem_singleton, List.not_mem_nil,
              or_false] at hx
            rcases hx with hx | (hx | hx) | hx
            · exact Or.inl (htsn x hx)
            · exact Or.inr ⟨_, hx⟩
            · exact Or.inr ⟨_, hx⟩
            · exact Or.inl (hmid x hx)

/-! ## The tokenizer on lines made of words -/

theorem skip_spaces_spaces (n : Nat) (r : List Char) :
    skip_spaces (spaces n ++ r) = skip_spaces r := by
  induction n with
  | zero => rfl
  | succ k ih =>
    show skip_spaces (Char.ofNat 32 :: (spaces k ++ r)) = skip_spaces r
    simp only [skip_spaces, if_true]
    exact ih

theorem skip_spaces_of_head (c : Char) (r : List Char) (h : c ≠ Char.ofNat 32) :
    skip_spaces (c :: r) = c :: r := by
  simp [skip_spaces, h]

theorem words_chars_cons (w : List Char) (n : Nat) (rest : List (List Char × Nat)) :
    words_chars ((w, n) :: rest) = w ++ Char.ofNat 32 :: (spaces n ++ words_chars rest) := by
  simp [words_chars, List.flatMap_cons]

theorem skip_spaces_words (ws : List (List Char × Nat)) (h : ∀ w ∈ ws, is_word w.1) :
    skip_spaces (words_chars ws) = words_chars ws := by
  cases ws with
  | nil => rfl
  | cons w rest =>
    obtain ⟨w, n⟩ := w
    rw [words_chars_cons]
    obtain ⟨hne, _, hsp⟩ := h (w, n) (by simp)
    cases w with
    | nil => exact absurd rfl hne
    | cons c cs => exact skip_spaces_of_head c _ (hsp c (by simp))

theorem strchr_word (w r : List Char) (h : ∀ c ∈ w, c ≠ Char.ofNat 32) :
    strchr (Char.ofNat 32) (w ++ Char.ofNat 32 :: r) = some (w, r) := by
  induction w with
  | nil => simp [strchr]
  | cons c cs ih =>
    have hc : c ≠ Char.ofNat 32 := h c (by simp)
    have := ih (fun x hx => h x (by simp [hx]))
    simp [strchr, hc, this]

theorem find_delim_word (w r : List Char) (h : is_word w) :
    find_delim (w ++ Char.ofNat 32 :: r) = some (w, r) := by
  obtain ⟨hne, hq, hsp⟩ := h
  cases w with
  | nil => exact absurd rfl hne
  | cons c cs =>
    have hc : c ≠ Char.ofNat 39 := by
      intro e
      rw [e] at hq
      exact hq rfl
    have := strchr_word (c :: cs) r hsp
    simp only [List.cons_append] at this ⊢
    simp only [find_delim, hc, if_false]
    exact this

theorem parse_args_words (ws : List (List Char × Nat)) (fuel : Nat)
    (h : ∀ w ∈ ws, is_word w.1) (hf : ws.length ≤ fuel) :
    parse_args fuel (words_chars ws) = ws.map (fun w => String.mk w.1) := by
  induction ws generalizing fuel with
  | nil =>
    cases fuel with
    | zero => rfl
    | succ f => simp [parse_args, words_chars, find_delim, strchr]
  | cons w rest ih =>
    obtain ⟨w, n⟩ := w
    cases fuel with
    | zero => simp at hf
    | succ f =>
      have hw := h (w, n) (by simp)
      have hrest : ∀ x ∈ rest, is_word x.1 := fun x hx => h x (by simp [hx])
      rw [words_chars_cons]
      simp only [parse_args, find_delim_word w _ hw, List.map_cons]
      rw [skip_spaces_spaces, skip_spaces_words rest hrest,
        ih f hrest (by simpa using hf)]

theorem words_chars_length (ws : List (List Char × Nat)) :
    ws.length ≤ (words_chars ws).length := by
  induction ws with
  | nil => simp
  | cons w rest ih =>
    obtain ⟨w, n⟩ := w
    rw [words_chars_cons]
    simp only [List.length_cons, List.length_append]
    omega

theorem words_chars_dropLast (ws : List (List Char × Nat)) (h : ws ≠ []) :
    (words_chars ws).dropLast ++ [Char.ofNat 32] = words_chars ws := by
  induction ws with
  | nil => exact absurd rfl h
  | cons w rest ih =>
    obtain ⟨w, n⟩ := w
    rw [words_chars_cons]
    have hlast : ∀ (l : List Char), l ≠ [] → l.getLast? = some (Char.ofNat 32) →
        l.dropLast ++ [Char.ofNat 32] = l := by
      intro l hl hlast
      have := List.dropLast_append_getLast? (Char.ofNat 32) (by rw [hlast]; rfl : Char.ofNat 32 ∈ l.getLast?)
      exact this
    apply hlast
    · simp
    · cases rest with
      | nil =>
        have : words_chars [] = [] := rfl
        rw [this, List.append_nil]
        cases n with
        | zero => simp [spaces]
        | succ k =>
          have : w ++ Char.ofNat 32 :: spaces (k + 1) =
              (w ++ Char.ofNat 32 :: spaces k) ++ [Char.ofNat 32] := by
            simp [spaces, List.replicate_succ']
          rw [this, List.getLast?_append]
          rfl
      | cons w2 rest2 =>
        have ih' := ih (by simp)
        have : w ++ Char.ofNat 32 :: (spaces n ++ words_chars (w2 :: rest2)) =
            (w ++ Char.ofNat 32 :: (spaces n ++ (words_chars (w2 :: rest2)).dropLast)) ++
              [Char.ofNat 32] := by
          rw [← ih']
          simp
        rw [this, List.getLast?_append]
        rfl

/-- The buffer `parseline` works on, for a line made of words. -/
theorem blank_last_line (lead : Nat) (ws : List (List Char × Nat))
    (h : ∀ w ∈ ws, is_word w.1) :
    skip_spaces (blank_last (line_chars lead ws)) = words_chars ws := by
  have hb : blank_last (line_chars lead ws) =
      spaces lead ++ ((words_chars ws).dropLast ++ [Char.ofNat 32]) := by
    unfold blank_last line_chars
    have hne : ¬ (spaces lead ++ (words_chars ws).dropLast ++ [Char.ofNat 10] = []) := by
      simp
    rw [if_neg hne, List.dropLast_concat, List.append_assoc]
  rw [hb, skip_spaces_spaces]
  cases ws with
  | nil =>
    have : words_chars [] = [] := rfl
    rw [this]
    simp [skip_spaces]
  | cons w rest =>
    rw [words_chars_dropLast (w :: rest) (by simp)]
    exact skip_spaces_words (w :: rest) h

/-- C20 as amended: for a command line made of at most `MAXARGS - 1`
space-separated unquoted words and ending in a newline, `parseline` returns
the background flag exactly when there is no word or the final word begins
with `&`, and then `argv` is all the words except the final one; otherwise the
flag is 0 and `argv` is all the words in order. -/
theorem parseline_words (lead : Nat) (ws : List (List Char × Nat))
    (hw : ∀ w ∈ ws, is_word w.1) (_hargs : ws.length < MAXARGS)
    (_hline : (line_chars lead ws).length < MAXLINE) :
    parseline (String.mk (line_chars lead ws)) =
      (match (ws.map (fun w => w.1)).getLast? with
       | none => (1, [])
       | some last =>
         if last.head? = some (Char.ofNat 38) then
           (1, (ws.map (fun w => String.mk w.1)).dropLast)
         else (0, ws.map (fun w => String.mk w.1))) := by
  unfold parseline
  simp only [blank_last_line lead ws hw]
  rw [parse_args_words ws _ hw (by have := words_chars_length ws; omega)]
  rw [show ws.map (fun w => String.mk w.1) = (ws.map (fun w => w.1)).map String.mk by simp]
  rw [List.getLast?_map]
  cases (ws.map (fun w => w.1)).getLast? with
  | none => rfl
  | some last => rfl

/-- C20 at a concrete line: `sleep 5 &` is three words, the last one `&`;
`parseline` sets the flag and returns the first two words. -/
theorem parseline_words_witness :
    String.mk (line_chars 0 [("sleep".data, 0), ("5".data, 0), ("&".data, 0)]) = "sleep 5 &\n" ∧
    parseline (String.mk (line_chars 0 [("sleep".data, 0), ("5".data, 0), ("&".data, 0)])) =
      (1, ["sleep", "5"]) :=
  ⟨by decide,
   (parseline_words 0 [("sleep".data, 0), ("5".data, 0), ("&".data, 0)]
      (by
        intro w hw
        simp only [List.mem_cons, List.mem_singleton, List.not_mem_nil, or_false] at hw
        rcases hw with rfl | rfl | rfl <;> exact ⟨by decide, by decide, by decide⟩)
      (by decide) (by decide)).trans (by decide)⟩

/-- C20 (the claim fails as stated): on the line `sleep 5 &x` the final word is
`&x`, not `&`, yet `parseline` returns the background flag and drops that
word; on a blank line there is no final word and the flag is returned too. -/
theorem parseline_flag_without_final_amp :
    parseline "sleep 5 &x\n" = (1, ["sleep", "5"]) ∧
    ¬ ((parseline "sleep 5 &x\n").1 ≠ 0 ↔ "&x" = "&") ∧
    String.mk (line_chars 0 [("sleep".data, 0), ("5".data, 0), ("&x".data, 0)]) = "sleep 5 &x\n" ∧
    parseline "\n" = (1, []) := by
  decide

/-- C19 at a concrete launch: the trace of `/bin/ls | /bin/wc &` from the
empty table, with children 100 and 101, keeps the discipline: block, pipe,
both forks, the closes, `addjob`, unblock, the printed line. -/
theorem eval_sigchld_discipline_witness :
    (eval (Shell.init false) (sys_forks 100) "/bin/ls | /bin/wc &\n").sh.trace =
      [Action.sigblock, Action.pipe 0 3 4, Action.fork 100, Action.fork 101,
       Action.close 3, Action.close 4, Action.addjob 100 BG 1, Action.sigunblock,
       Action.print "[1] (100) /bin/ls | /bin/wc &\n"] ∧
    ∃ t, (eval (Shell.init false) (sys_forks 100) "/bin/ls | /bin/wc &\n").sh.trace =
        (Shell.init false).trace ++ Action.sigblock :: t ∧
      sigchld_discipline true false t = true ∧
      (∀ s1, eval (Shell.init false) (sys_forks 100) "/bin/ls | /bin/wc &\n" =
          Outcome.returned () s1 →
        ∃ t1 t2 p st r, t = t1 ++ Action.addjob p st r :: Action.sigunblock :: t2 ∧
          Action.fork p ∈ t1 ∧
          (∀ x ∈ t1, x.is_neutral = true ∨ ∃ q, x = Action.fork q) ∧
          (∀ x ∈ t2, ∃ line, x = Action.print line)) :=
  ⟨by decide,
   eval_sigchld_discipline (Shell.init false) (sys_forks 100) "/bin/ls | /bin/wc &\n"
     "/bin/ls" ["|", "/bin/wc"] (by decide) (by decide) (by decide)⟩

/-! ## Arguments outside the range of int -/

/-- C22 (code evaluated at the failing input): `4294967297` is `2^32 + 1`;
`int id = strtol(...)` keeps the low 32 bits, so `id` is 1 and none of the
range tests fires.  With the stopped job (pid 100, jid 1) in the table,
`bg %4294967297` resumes that job, `fg %4294967297` puts it in the
foreground, and `kill 4294967396` (`2^32 + 100`) kills the process group
`-100`; no `argument must be a PID or %jobid` line is printed. -/
theorem out_of_range_argument_truncated :
    parse_id "4294967297" = { pct := false, id := 1, bad := false } ∧
    parse_id "%4294967297" = { pct := true, id := 1, bad := false } ∧
    parse_id "4294967396" = { pct := false, id := 100, bad := false } ∧
    eval stopped_job_shell (sys_forks 101) "bg %4294967297\n" =
      Outcome.returned ()
        { stopped_job_shell with
            jobs := { pid := 100, jid := 1, state := BG, cmdline := "/bin/cat\n" } ::
              List.replicate 15 { pid := 0, jid := 0, state := UNDEF, cmdline := "" }
            trace := [Action.kill (-100) SIGCONT] } ∧
    eval stopped_job_shell (sys_forks 101) "fg %4294967297\n" =
      Outcome.returned ()
        { stopped_job_shell with
            jobs := { pid := 100, jid := 1, state := FG, cmdline := "/bin/cat\n" } ::
              List.replicate 15 { pid := 0, jid := 0, state := UNDEF, cmdline := "" }
            trace := [Action.kill (-100) SIGCONT]
            waiting := some 100 } ∧
    eval stopped_job_shell (sys_forks 101) "kill 4294967396\n" =
      Outcome.returned ()
        { stopped_job_shell with trace := [Action.kill (-100) SIGKILL] } := by
  decide

/-- No decimal numeral is ever rejected, however large: up to `LONG_MAX` the
`id` looked up is the numeral's value reduced to its low 32 bits; beyond that
`strtol` returns `LONG_MAX`, whose low 32 bits are the int -1. -/
theorem parse_id_decimal_never_rejected (pct : Bool) (ds : List Char) (h : is_decimal ds) :
    (parse_id (id_arg pct ds)).bad = false ∧
    (parse_id (id_arg pct ds)).pct = pct ∧
    (parse_id (id_arg pct ds)).id =
      (if decimal_value ds > LONG_MAX then -1 else long_to_int (decimal_value ds)) := by
  obtain ⟨c, rest, hds⟩ : ∃ c rest, ds = c :: rest := by
    cases ds with
    | nil => exact absurd rfl h.1
    | cons c rest => exact ⟨c, rest, rfl⟩
  have hc : isdigit c = true := h.2 c (by rw [hds]; simp)
  have h37 : c ≠ Char.ofNat 37 := isdigit_ne_of_toNat c 37 hc (by omega) (by decide)
  have hstart : (if (id_arg pct ds).data.head? = some (Char.ofNat 37)
      then (id_arg pct ds).data.tail else (id_arg pct ds).data) = ds ∧
      decide ((id_arg pct ds).data.head? = some (Char.ofNat 37)) = pct := by
    cases pct with
    | true =>
      have hdata : (id_arg true ds).data = Char.ofNat 37 :: ds := rfl
      rw [hdata]; simp
    | false =>
      have hdata : (id_arg false ds).data = c :: rest := by rw [← hds]; rfl
      rw [hdata]
      simp [h37, hds]
  have hst := strtol_decimal ds h
  have hbad : (parse_id (id_arg pct ds)).bad = false := by
    cases hb : (parse_id (id_arg pct ds)).bad with
    | false => rfl
    | true =>
      have := (parse_id_bad_iff (id_arg pct ds)).mp hb
      rw [hstart.1, hst] at this
      split_ifs at this <;> simp at this
  refine ⟨hbad, ?_, ?_⟩
  · unfold parse_id
    simp only []
    exact hstart.2
  · unfold parse_id
    simp only [decide_eq_true_eq, hstart.1, hst]
    by_cases hbig : decimal_value ds > LONG_MAX
    · rw [if_pos hbig, if_pos hbig]
      decide
    · rw [if_neg hbig, if_neg hbig]

/-! ## The scan of the argument vector -/

/-- The array after the scan: every special token has become `NULL`, every
other token is in place. -/
theorem scan_loop_argv (toks : List String) (s s1 : Shell) (env env1 : Sys) (sc sc1 : Scan)
    (hr : scan_loop s env sc toks = Outcome.returned (sc1, env1) s1) :
    sc1.argv = sc.argv ++ toks.map (fun t => if is_special t = true then none else some t) := by
  induction toks generalizing s env sc with
  | nil =>
    simp only [scan_loop] at hr
    injection hr with hv _
    injection hv with hsc _
    rw [← hsc]; simp
  | cons tok rest ih =>
    unfold scan_loop at hr
    by_cases h1 : tok = "<"
    · rw [if_pos h1] at hr
      rw [ih _ _ _ hr]
      simp [h1, is_special]
    · rw [if_neg h1] at hr
      by_cases h2 : tok = "|"
      · rw [if_pos h2] at hr
        simp only at hr
        by_cases hp : (env.pipes.headD (-1, -1, -1)).1 < 0
        · rw [if_pos hp] at hr; exact Outcome.noConfusion hr
        · rw [if_neg hp] at hr
          rw [ih _ _ _ hr]
          simp [h2, is_special]
      · rw [if_neg h2] at hr
        by_cases h3 : tok = ">"
        · rw [if_pos h3] at hr
          rw [ih _ _ _ hr]
          simp [h3, is_special]
        · rw [if_neg h3] at hr
          rw [ih _ _ _ hr]
          simp [h1, h2, h3, is_special]

/-- Without a pipe token the scan cannot fail, and leaves `argv2` and the pipe
descriptors alone. -/
theorem scan_loop_no_pipe (toks : List String) (s : Shell) (env : Sys) (sc : Scan)
    (h : "|" ∉ toks) :
    ∃ sc1 env1 s1, scan_loop s env sc toks = Outcome.returned (sc1, env1) s1 ∧
      sc1.argv2 = sc.argv2 ∧ sc1.pipe_rd = sc.pipe_rd ∧ sc1.pipe_wr = sc.pipe_wr ∧
      env1.pipes = env.pipes := by
  induction toks generalizing s env sc with
  | nil => exact ⟨sc, env, s, rfl, rfl, rfl, rfl, rfl⟩
  | cons tok rest ih =>
    have htok : tok ≠ "|" := fun e => h (by simp [e])
    have hrest : "|" ∉ rest := fun e => h (by simp [e])
    unfold scan_loop
    by_cases h1 : tok = "<"
    · rw [if_pos h1]
      obtain ⟨sc1, env1, s1, hr, a, b, c, d⟩ := ih
        (if env.opens.headD (-1) < 0 then
          (s.emit (Action.open_rd rest.head? (env.opens.headD (-1)))).emit
            (Action.perror "Could not open file for reading")
         else s.emit (Action.open_rd rest.head? (env.opens.headD (-1))))
        { env with opens := env.opens.tail }
        { sc with infd := env.opens.headD (-1), argv := sc.argv ++ [none] } hrest
      exact ⟨sc1, env1, s1, hr, a, b, c, d⟩
    · rw [if_neg h1, if_neg htok]
      by_cases h3 : tok = ">"
      · rw [if_pos h3]
        obtain ⟨sc1, env1, s1, hr, a, b, c, d⟩ := ih
          (if env.opens.headD (-1) < 0 then
            (s.emit (Action.open_wr rest.head? (env.opens.headD (-1)))).emit
              (Action.perror "Could not open file for writing")
           else s.emit (Action.open_wr rest.head? (env.opens.headD (-1))))
          { env with opens := env.opens.tail }
          { sc with outfd := env.opens.headD (-1), argv := sc.argv ++ [none] } hrest
        exact ⟨sc1, env1, s1, hr, a, b, c, d⟩
      · rw [if_neg h3]
        obtain ⟨sc1, env1, s1, hr, a, b, c, d⟩ := ih s env
          { sc with argv := sc.argv ++ [some tok] } hrest
        exact ⟨sc1, env1, s1, hr, a, b, c, d⟩

/-- Without a `<` token the scan leaves `infd` alone and opens nothing for
reading. -/
theorem scan_loop_no_lt (toks : List String) (s s1 : Shell) (env env1 : Sys) (sc sc1 : Scan)
    (h : "<" ∉ toks) (hr : scan_loop s env sc toks = Outcome.returned (sc1, env1) s1) :
    sc1.infd = sc.infd ∧ opened_rd s1.trace = opened_rd s.trace := by
  induction toks generalizing s env sc with
  | nil =>
    simp only [scan_loop] at hr
    injection hr with hv hs
    injection hv with hsc _
    rw [← hsc, ← hs]
    exact ⟨rfl, rfl⟩
  | cons tok rest ih =>
    have htok : tok ≠ "<" := fun e => h (by simp [e])
    have hrest : "<" ∉ rest := fun e => h (by simp [e])
    unfold scan_loop at hr
    rw [if_neg htok] at hr
    by_cases h2 : tok = "|"
    · rw [if_pos h2] at hr
      simp only at hr
      by_cases hp : (env.pipes.headD (-1, -1, -1)).1 < 0
      · rw [if_pos hp] at hr; exact Outcome.noConfusion hr
      · rw [if_neg hp] at hr
        obtain ⟨a, b⟩ := ih _ _ _ hrest hr
        exact ⟨a, b.trans (by simp [opened_rd, Shell.emit, List.filterMap_append])⟩
    · rw [if_neg h2] at hr
      by_cases h3 : tok = ">"
      · rw [if_pos h3] at hr
        obtain ⟨a, b⟩ := ih _ _ _ hrest hr
        refine ⟨a, b.trans ?_⟩
        simp only [opened_rd, Shell.emit]
        split_ifs <;> simp [List.filterMap_append]
      · rw [if_neg h3] at hr
        have hi := ih _ _ _ hrest hr
        exact hi

/-- Without a `>` token the scan leaves `outfd` alone and opens nothing for
writing. -/
theorem scan_loop_no_gt (toks : List String) (s s1 : Shell) (env env1 : Sys) (sc sc1 : Scan)
    (h : ">" ∉ toks) (hr : scan_loop s env sc toks = Outcome.returned (sc1, env1) s1) :
    sc1.outfd = sc.outfd ∧ opened_wr s1.trace = opened_wr s.trace := by
  induction toks generalizing s env sc with
  | nil =>
    simp only [scan_loop] at hr
    injection hr with hv hs
    injection hv with hsc _
    rw [← hsc, ← hs]
    exact ⟨rfl, rfl⟩
  | cons tok rest ih =>
    have htok : tok ≠ ">" := fun e => h (by simp [e])
    have hrest : ">" ∉ rest := fun e => h (by simp [e])
    unfold scan_loop at hr
    by_cases h1 : tok = "<"
    · rw [if_pos h1] at hr
      obtain ⟨a, b⟩ := ih _ _ _ hrest hr
      refine ⟨a, b.trans ?_⟩
      simp only [opened_wr, Shell.emit]
      split_ifs <;> simp [List.filterMap_append]
    · rw [if_neg h1] at hr
      by_cases h2 : tok = "|"
      · rw [if_pos h2] at hr
        simp only at hr
        by_cases hp : (env.pipes.headD (-1, -1, -1)).1 < 0
        · rw [if_pos hp] at hr; exact Outcome.noConfusion hr
        · rw [if_neg hp] at hr
          obtain ⟨a, b⟩ := ih _ _ _ hrest hr
          exact ⟨a, b.trans (by simp [opened_wr, Shell.emit, List.filterMap_append])⟩
      · rw [if_neg h2, if_neg htok] at hr
        have hi := ih _ _ _ hrest hr
        exact hi

theorem argv_from_map (toks : List String) :
    ((toks.map (fun t => if is_special t = true then none else some t)).takeWhile
      Option.isSome).filterMap id = toks.takeWhile (fun t => !is_special t) := by
  induction toks with
  | nil => rfl
  | cons tok rest ih =>
    by_cases h : is_special tok = true
    · simp [List.takeWhile, h]
    · simp only [Bool.not_eq_true] at h
      simp [List.takeWhile, h, ih]

theorem tokens_after_cons_self (tok : String) (rest : List String) :
    tokens_after tok (tok :: rest) = rest := by
  simp [tokens_after, List.dropWhile]

theorem tokens_after_cons_ne (tok t : String) (rest : List String) (h : t ≠ tok) :
    tokens_after tok (t :: rest) = tokens_after tok rest := by
  simp [tokens_after, List.dropWhile, h]

theorem count_cons_self_le_one (tok : String) (rest : List String)
    (h : (tok :: rest).count tok ≤ 1) : tok ∉ rest := by
  intro hmem
  have := List.count_pos_iff.mpr hmem
  simp only [List.count_cons_self] at h
  omega

theorem count_cons_ne_le_one (tok t : String) (rest : List String) (hne : t ≠ tok)
    (h : (t :: rest).count tok ≤ 1) : rest.count tok ≤ 1 := by
  rw [List.count_cons_of_ne (Ne.symm hne)] at h
  exact h

/-- With at most one pipe token whose `pipe` call succeeds, the scan runs to
its end. -/
theorem scan_loop_total (toks : List String) (s : Shell) (env : Sys) (sc : Scan)
    (hcount : toks.count "|" ≤ 1)
    (hpipe : "|" ∈ toks → 0 ≤ (env.pipes.headD (-1, -1, -1)).1) :
    ∃ sc1 env1 s1, scan_loop s env sc toks = Outcome.returned (sc1, env1) s1 := by
  induction toks generalizing s env sc with
  | nil => exact ⟨sc, env, s, rfl⟩
  | cons tok rest ih =>
    unfold scan_loop
    by_cases h1 : tok = "<"
    · rw [if_pos h1]
      have hne : tok ≠ "|" := by rw [h1]; decide
      exact ih _ _ _ (count_cons_ne_le_one "|" tok rest hne hcount)
        (fun hm => hpipe (by simp [hm]))
    · rw [if_neg h1]
      by_cases h2 : tok = "|"
      · rw [if_pos h2]
        simp only
        have hok : ¬ (env.pipes.headD (-1, -1, -1)).1 < 0 := by
          have := hpipe (by simp [h2])
          omega
        rw [if_neg hok]
        have hrest : "|" ∉ rest := count_cons_self_le_one "|" rest (by rw [h2] at hcount; exact hcount)
        obtain ⟨sc1, env1, s1, hr, _⟩ := scan_loop_no_pipe rest
          (s.emit (Action.pipe (env.pipes.headD (-1, -1, -1)).1
            (env.pipes.headD (-1, -1, -1)).2.1 (env.pipes.headD (-1, -1, -1)).2.2))
          { env with pipes := env.pipes.tail }
          { sc with pipe_rd := (env.pipes.headD (-1, -1, -1)).2.1,
                    pipe_wr := (env.pipes.headD (-1, -1, -1)).2.2,
                    argv := sc.argv ++ [none], argv2 := some (sc.argv.length + 1) } hrest
        exact ⟨sc1, env1, s1, hr⟩
      · rw [if_neg h2]
        by_cases h3 : tok = ">"
        · rw [if_pos h3]
          exact ih _ _ _ (count_cons_ne_le_one "|" tok rest h2 hcount)
            (fun hm => hpipe (by simp [hm]))
        · rw [if_neg h3]
          exact ih _ _ _ (count_cons_ne_le_one "|" tok rest h2 hcount)
            (fun hm => hpipe (by simp [hm]))

/-- The input file: with at most one `<`, the one `open` for reading is made
on the token after it, and `infd` is what that call returned. -/
theorem scan_loop_input (toks : List String) (s s1 : Shell) (env env1 : Sys) (sc sc1 : Scan)
    (hcount : toks.count "<" ≤ 1)
    (hr : scan_loop s env sc toks = Outcome.returned (sc1, env1) s1) :
    ("<" ∈ toks →
      opened_rd s1.trace = opened_rd s.trace ++ [(spec_input_file toks, sc1.infd)]) ∧
    ("<" ∉ toks → sc1.infd = sc.infd ∧ opened_rd s1.trace = opened_rd s.trace) := by
  induction toks generalizing s env sc with
  | nil =>
    refine ⟨fun h => absurd h (by simp), fun _ => ?_⟩
    exact scan_loop_no_lt [] s s1 env env1 sc sc1 (by simp) hr
  | cons tok rest ih =>
    refine ⟨?_, fun h => scan_loop_no_lt _ s s1 env env1 sc sc1 h hr⟩
    intro _
    by_cases h1 : tok = "<"
    · subst h1
      have hrest : "<" ∉ rest := count_cons_self_le_one "<" rest hcount
      unfold scan_loop at hr
      rw [if_pos rfl] at hr
      obtain ⟨a, b⟩ := scan_loop_no_lt rest _ s1 _ env1 _ sc1 hrest hr
      rw [b, a]
      simp only [spec_input_file, tokens_after_cons_self, opened_rd, Shell.emit]
      split_ifs <;> simp [List.filterMap_append]
    · have hcnt : rest.count "<" ≤ 1 := count_cons_ne_le_one "<" tok rest h1 hcount
      have hmem : "<" ∈ rest := by
        rename_i hm
        rcases List.mem_cons.mp hm with e | e
        · exact absurd e.symm h1
        · exact e
      have hspec : spec_input_file (tok :: rest) = spec_input_file rest := by
        simp only [spec_input_file, tokens_after_cons_ne "<" tok rest h1]
      rw [hspec]
      unfold scan_loop at hr
      rw [if_neg h1] at hr
      by_cases h2 : tok = "|"
      · rw [if_pos h2] at hr
        simp only at hr
        by_cases hp : (env.pipes.headD (-1, -1, -1)).1 < 0
        · rw [if_pos hp] at hr; exact Outcome.noConfusion hr
        · rw [if_neg hp] at hr
          rw [(ih _ _ _ hcnt hr).1 hmem]
          simp [opened_rd, Shell.emit, List.filterMap_append]
      · rw [if_neg h2] at hr
        by_cases h3 : tok = ">"
        · rw [if_pos h3] at hr
          rw [(ih _ _ _ hcnt hr).1 hmem]
          simp only [opened_rd, Shell.emit]
          split_ifs <;> simp [List.filterMap_append]
        · rw [if_neg h3] at hr
          exact (ih _ _ _ hcnt hr).1 hmem

/-- The output file: with at most one `>`, the one `open` for writing is made
on the token after it, and `outfd` is what that call returned. -/
theorem scan_loop_output (toks : List String) (s s1 : Shell) (env env1 : Sys) (sc sc1 : Scan)
    (hcount : toks.count ">" ≤ 1)
    (hr : scan_loop s env sc toks = Outcome.returned (sc1, env1) s1) :
    (">" ∈ toks →
      opened_wr s1.trace = opened_wr s.trace ++ [(spec_output_file toks, sc1.outfd)]) ∧
    (">" ∉ toks → sc1.outfd = sc.outfd ∧ opened_wr s1.trace = opened_wr s.trace) := by
  induction toks generalizing s env sc with
  | nil =>
    refine ⟨fun h => absurd h (by simp), fun _ => ?_⟩
    exact scan_loop_no_gt [] s s1 env env1 sc sc1 (by simp) hr
  | cons tok rest ih =>
    refine ⟨?_, fun h => scan_loop_no_gt _ s s1 env env1 sc sc1 h hr⟩
    intro hm
    by_cases h3 : tok = ">"
    · subst h3
      have hrest : ">" ∉ rest := count_cons_self_le_one ">" rest hcount
      unfold scan_loop at hr
      have e1 : (">" = "<") = False := by decide
      have e2 : (">" = "|") = False := by decide
      simp only [e1, e2, if_false, if_true] at hr
      obtain ⟨a, b⟩ := scan_loop_no_gt rest _ s1 _ env1 _ sc1 hrest hr
      rw [b, a]
      simp only [spec_output_file, tokens_after_cons_self, opened_wr, Shell.emit]
      split_ifs <;> simp [List.filterMap_append]
    · have hcnt : rest.count ">" ≤ 1 := count_cons_ne_le_one ">" tok rest h3 hcount
      have hmem : ">" ∈ rest := by
        rcases List.mem_cons.mp hm with e | e
        · exact absurd e.symm h3
        · exact e
      have hspec : spec_output_file (tok :: rest) = spec_output_file rest := by
        simp only [spec_output_file, tokens_after_cons_ne ">" tok rest h3]
      rw [hspec]
      unfold scan_loop at hr
      by_cases h1 : tok = "<"
      · rw [if_pos h1] at hr
        rw [(ih _ _ _ hcnt hr).1 hmem]
        simp only [opened_wr, Shell.emit]
        split_ifs <;> simp [List.filterMap_append]
      · rw [if_neg h1] at hr
        by_cases h2 : tok = "|"
        · rw [if_pos h2] at hr
          simp only at hr
          by_cases hp : (env.pipes.headD (-1, -1, -1)).1 < 0
          · rw [if_pos hp] at hr; exact Outcome.noConfusion hr
          · rw [if_neg hp] at hr
            rw [(ih _ _ _ hcnt hr).1 hmem]
            simp [opened_wr, Shell.emit, List.filterMap_append]
        · rw [if_neg h2, if_neg h3] at hr
          exact (ih _ _ _ hcnt hr).1 hmem

theorem scan_loop_no_pipe_eq (toks : List String) (s s1 : Shell) (env env1 : Sys)
    (sc sc1 : Scan) (h : "|" ∉ toks)
    (hr : scan_loop s env sc toks = Outcome.returned (sc1, env1) s1) :
    sc1.argv2 = sc.argv2 ∧ sc1.pipe_rd = sc.pipe_rd ∧ sc1.pipe_wr = sc.pipe_wr := by
  obtain ⟨sc2, env2, s2, hr2, a, b, c, _⟩ := scan_loop_no_pipe toks s env sc h
  rw [hr] at hr2
  injection hr2 with hv _
  injection hv with hsc _
  rw [hsc]
  exact ⟨a, b, c⟩

/-- The second program: with at most one pipe token, `argv2` is set exactly
when the token occurs, and the vector it points to holds the tokens after the
pipe token up to the next special token. -/
theorem scan_loop_second (toks : List String) (s s1 : Shell) (env env1 : Sys) (sc sc1 : Scan)
    (hcount : toks.count "|" ≤ 1)
    (hr : scan_loop s env sc toks = Outcome.returned (sc1, env1) s1) :
    ("|" ∈ toks → sc1.argv2.map (argv_from sc1.argv) =
      some ((tokens_after "|" toks).takeWhile (fun t => !is_special t))) ∧
    ("|" ∉ toks → sc1.argv2 = sc.argv2 ∧ sc1.pipe_rd = sc.pipe_rd ∧ sc1.pipe_wr = sc.pipe_wr) := by
  induction toks generalizing s env sc with
  | nil =>
    exact ⟨fun h => absurd h (by simp), fun h => scan_loop_no_pipe_eq [] s s1 env env1 sc sc1 h hr⟩
  | cons tok rest ih =>
    refine ⟨?_, fun h => scan_loop_no_pipe_eq _ s s1 env env1 sc sc1 h hr⟩
    intro hm
    by_cases h2 : tok = "|"
    · subst h2
      have hrest : "|" ∉ rest := count_cons_self_le_one "|" rest hcount
      unfold scan_loop at hr
      have e1 : ("|" = "<") = False := by decide
      simp only [e1, if_false, if_true] at hr
      by_cases hp : (env.pipes.headD (-1, -1, -1)).1 < 0
      · rw [if_pos hp] at hr; exact Outcome.noConfusion hr
      · rw [if_neg hp] at hr
        obtain ⟨a, _, _⟩ := scan_loop_no_pipe_eq rest _ s1 _ env1 _ sc1 hrest hr
        have hargv := scan_loop_argv rest _ s1 _ env1 _ sc1 hr
        rw [a, hargv, tokens_after_cons_self]
        simp only [Option.map_some', argv_from]
        rw [List.drop_left' (by simp)]
        rw [argv_from_map]
    · have hcnt : rest.count "|" ≤ 1 := count_cons_ne_le_one "|" tok rest h2 hcount
      have hmem : "|" ∈ rest := by
        rcases List.mem_cons.mp hm with e | e
        · exact absurd e.symm h2
        · exact e
      rw [tokens_after_cons_ne "|" tok rest h2]
      unfold scan_loop at hr
      rw [if_neg h2] at hr
      by_cases h1 : tok = "<"
      · rw [if_pos h1] at hr
        exact (ih _ _ _ hcnt hr).1 hmem
      · rw [if_neg h1] at hr
        by_cases h3 : tok = ">"
        · rw [if_pos h3] at hr
          exact (ih _ _ _ hcnt hr).1 hmem
        · rw [if_neg h3] at hr
          exact (ih _ _ _ hcnt hr).1 hmem

/-- The scan leaves the part of the environment it does not consume alone. -/
theorem scan_loop_env (toks : List String) (s s1 : Shell) (env env1 : Sys) (sc sc1 : Scan)
    (hr : scan_loop s env sc toks = Outcome.returned (sc1, env1) s1) :
    env1.exec_ok = env.exec_ok ∧ env1.pending = env.pending ∧ env1.preempt = env.preempt := by
  induction toks generalizing s env sc with
  | nil =>
    simp only [scan_loop] at hr
    injection hr with hv _
    injection hv with _ he
    rw [← he]
    exact ⟨rfl, rfl, rfl⟩
  | cons tok rest ih =>
    unfold scan_loop at hr
    by_cases h1 : tok = "<"
    · rw [if_pos h1] at hr
      have hi := ih _ _ _ hr
      exact hi
    · rw [if_neg h1] at hr
      by_cases h2 : tok = "|"
      · rw [if_pos h2] at hr
        simp only at hr
        by_cases hp : (env.pipes.headD (-1, -1, -1)).1 < 0
        · rw [if_pos hp] at hr; exact Outcome.noConfusion hr
        · rw [if_neg hp] at hr
          have hi := ih _ _ _ hr
          exact hi
      · rw [if_neg h2] at hr
        by_cases h3 : tok = ">"
        · rw [if_pos h3] at hr
          have hi := ih _ _ _ hr
          exact hi
        · rw [if_neg h3] at hr
          have hi := ih _ _ _ hr
          exact hi

/-- Without a pipe token ahead, the results of `pipe` not yet consumed stay
as they are until the first pipe token. -/
theorem scan_loop_pipe_fds (toks : List String) (s s1 : Shell) (env env1 : Sys) (sc sc1 : Scan)
    (hcount : toks.count "|" ≤ 1) (hm : "|" ∈ toks)
    (hr : scan_loop s env sc toks = Outcome.returned (sc1, env1) s1) :
    sc1.pipe_rd = (env.pipes.headD (-1, -1, -1)).2.1 ∧
    sc1.pipe_wr = (env.pipes.headD (-1, -1, -1)).2.2 := by
  induction toks generalizing s env sc with
  | nil => exact absurd hm (by simp)
  | cons tok rest ih =>
    by_cases h2 : tok = "|"
    · subst h2
      have hrest : "|" ∉ rest := count_cons_self_le_one "|" rest hcount
      unfold scan_loop at hr
      have e1 : ("|" = "<") = False := by decide
      simp only [e1, if_false, if_true] at hr
      by_cases hp : (env.pipes.headD (-1, -1, -1)).1 < 0
      · rw [if_pos hp] at hr; exact Outcome.noConfusion hr
      · rw [if_neg hp] at hr
        obtain ⟨_, b, c⟩ := scan_loop_no_pipe_eq rest _ s1 _ env1 _ sc1 hrest hr
        exact ⟨b, c⟩
    · have hcnt : rest.count "|" ≤ 1 := count_cons_ne_le_one "|" tok rest h2 hcount
      have hmem : "|" ∈ rest := by
        rcases List.mem_cons.mp hm with e | e
        · exact absurd e.symm h2
        · exact e
      unfold scan_loop at hr
      rw [if_neg h2] at hr
      by_cases h1 : tok = "<"
      · rw [if_pos h1] at hr
        have hi := ih _ _ _ hcnt hmem hr
        exact hi
      · rw [if_neg h1] at hr
        by_cases h3 : tok = ">"
        · rw [if_pos h3] at hr
          have hi := ih _ _ _ hcnt hmem hr
          exact hi
        · rw [if_neg h3] at hr
          have hi := ih _ _ _ hcnt hmem hr
          exact hi

/-- The first child, with its trace written out. -/
theorem child1_eq (s : Shell) (env : Sys) (sc : Scan) :
    child1 s env sc =
      (if env.exec_ok = true then
        Outcome.execed
          { s with trace := s.trace ++ [Action.sigunblock, Action.setpgid 0 0] ++
              (if 0 < sc.infd then [Action.dup2 sc.infd 0, Action.close sc.infd] else []) ++
              (if 0 < sc.pipe_wr then
                  [Action.dup2 sc.pipe_wr 1, Action.close sc.pipe_rd, Action.close sc.pipe_wr]
                else if 0 < sc.outfd then [Action.dup2 sc.outfd 1, Action.close sc.outfd]
                else []) ++
              [Action.execve (argv_from sc.argv 0).head? (argv_from sc.argv 0)] }
       else
        match (argv_from sc.argv 0).head? with
        | none =>
          Outcome.nullDeref
            { s with trace := s.trace ++ [Action.sigunblock, Action.setpgid 0 0] ++
                (if 0 < sc.infd then [Action.dup2 sc.infd 0, Action.close sc.infd] else []) ++
                (if 0 < sc.pipe_wr then
                    [Action.dup2 sc.pipe_wr 1, Action.close sc.pipe_rd, Action.close sc.pipe_wr]
                  else if 0 < sc.outfd then [Action.dup2 sc.outfd 1, Action.close sc.outfd]
                  else []) ++
                [Action.execve (argv_from sc.argv 0).head? (argv_from sc.argv 0)] }
        | some a0 =>
          Outcome.exited 0
            { s with trace := s.trace ++ [Action.sigunblock, Action.setpgid 0 0] ++
                (if 0 < sc.infd then [Action.dup2 sc.infd 0, Action.close sc.infd] else []) ++
                (if 0 < sc.pipe_wr then
                    [Action.dup2 sc.pipe_wr 1, Action.close sc.pipe_rd, Action.close sc.pipe_wr]
                  else if 0 < sc.outfd then [Action.dup2 sc.outfd 1, Action.close sc.outfd]
                  else []) ++
                [Action.execve (argv_from sc.argv 0).head? (argv_from sc.argv 0),
                 Action.print (a0 ++ ": command not found.\n")] }) := by
  unfold child1
  simp only [gt_iff_lt]
  by_cases hx : env.exec_ok = true
  · rw [if_pos hx, if_pos hx]
    simp only [Shell.emit]
    split_ifs <;> simp
  · rw [if_neg hx, if_neg hx]
    cases h0 : (argv_from sc.argv 0).head? with
    | none =>
      simp only [Shell.emit]
      split_ifs <;> simp
    | some a0 =>
      simp only [Shell.emit]
      split_ifs <;> simp

/-- The second child, with its trace written out. -/
theorem child2_eq (s : Shell) (env : Sys) (sc : Scan) (pid : Int) (k : Nat) :
    child2 s env sc pid k =
      (if env.exec_ok = true then
        Outcome.execed
          { s with trace := s.trace ++
              [Action.sigunblock, Action.setpgid pid pid, Action.dup2 sc.pipe_rd 0,
               Action.close sc.pipe_rd, Action.close sc.pipe_wr] ++
              (if 0 < sc.outfd then [Action.dup2 sc.outfd 1, Action.close sc.outfd] else []) ++
              [Action.execve (argv_from sc.argv k).head? (argv_from sc.argv k)] }
       else
        match (argv_from sc.argv 0).head? with
        | none =>
          Outcome.nullDeref
            { s with trace := s.trace ++
                [Action.sigunblock, Action.setpgid pid pid, Action.dup2 sc.pipe_rd 0,
                 Action.close sc.pipe_rd, Action.close sc.pipe_wr] ++
                (if 0 < sc.outfd then [Action.dup2 sc.outfd 1, Action.close sc.outfd] else []) ++
                [Action.execve (argv_from sc.argv k).head? (argv_from sc.argv k)] }
        | some a0 =>
          Outcome.exited 0
            { s with trace := s.trace ++
                [Action.sigunblock, Action.setpgid pid pid, Action.dup2 sc.pipe_rd 0,
                 Action.close sc.pipe_rd, Action.close sc.pipe_wr] ++
                (if 0 < sc.outfd then [Action.dup2 sc.outfd 1, Action.close sc.outfd] else []) ++
                [Action.execve (argv_from sc.argv k).head? (argv_from sc.argv k),
                 Action.print (a0 ++ ": command not found.\n")] }) := by
  unfold child2
  simp only [gt_iff_lt]
  by_cases hx : env.exec_ok = true
  · rw [if_pos hx, if_pos hx]
    simp only [Shell.emit]
    split_ifs <;> simp
  · rw [if_neg hx, if_neg hx]
    cases h0 : (argv_from sc.argv 0).head? with
    | none =>
      simp only [Shell.emit]
      split_ifs <;> simp
    | some a0 =>
      simp only [Shell.emit]
      split_ifs <;> simp

/-- The parent's part of `eval` up to the unblocking: the `close` calls for
the descriptors that are positive, what `addjob` printed, the call of `addjob`
for the first child with the state the background flag selects, and the
unblocking; when no `SIGCHLD` is pending at the unblocking, the table and the
counter are left as `addjob` left them. -/
theorem eval_parent_registers (s : Shell) (sc : Scan) (pid bg : Int) (cmdline : String)
    (pending : List WaitRet) :
    (∃ tail, (eval_parent s sc pid bg cmdline pending).sh.trace =
      s.trace ++
        ((if 0 < sc.infd then [Action.close sc.infd] else []) ++
         (if 0 < sc.outfd then [Action.close sc.outfd] else []) ++
         (if 0 < sc.pipe_rd then [Action.close sc.pipe_rd, Action.close sc.pipe_wr] else []) ++
         (addjob s.verbose s.jobs s.nextjid pid (if bg ≠ 0 then BG else FG) cmdline).out.map
           Action.print ++
         [Action.addjob pid (if bg ≠ 0 then BG else FG)
            (addjob s.verbose s.jobs s.nextjid pid (if bg ≠ 0 then BG else FG) cmdline).ret,
          Action.sigunblock] ++ tail)) ∧
    (pending = [] →
      (eval_parent s sc pid bg cmdline pending).sh.jobs =
        (addjob s.verbose s.jobs s.nextjid pid (if bg ≠ 0 then BG else FG) cmdline).jobs ∧
      (eval_parent s sc pid bg cmdline pending).sh.nextjid =
        (addjob s.verbose s.jobs s.nextjid pid (if bg ≠ 0 then BG else FG) cmdline).nextjid) := by
  constructor
  · have hbase : ∃ tail, (eval_parent s sc pid bg cmdline pending).sh.trace =
        s.trace ++ ((close_actions sc ++
          (addjob s.verbose s.jobs s.nextjid pid (if bg ≠ 0 then BG else FG) cmdline).out.map
            Action.print) ++
          Action.addjob pid (if bg ≠ 0 then BG else FG)
            (addjob s.verbose s.jobs s.nextjid pid (if bg ≠ 0 then BG else FG) cmdline).ret ::
          Action.sigunblock :: tail) := by
      rw [eval_parent_eq]
      simp only
      obtain ⟨t, ht, _, _⟩ := sigchld_handler_trace pending
        (({ s with trace := s.trace ++ close_actions sc }.addjob pid
          (if bg ≠ 0 then BG else FG) cmdline).2.emit Action.sigunblock)
      have hb : (({ s with trace := s.trace ++ close_actions sc }.addjob pid
          (if bg ≠ 0 then BG else FG) cmdline).2.emit Action.sigunblock).trace =
          s.trace ++ ((close_actions sc ++
            (addjob s.verbose s.jobs s.nextjid pid (if bg ≠ 0 then BG else FG) cmdline).out.map
              Action.print) ++
            Action.addjob pid (if bg ≠ 0 then BG else FG)
              (addjob s.verbose s.jobs s.nextjid pid (if bg ≠ 0 then BG else FG) cmdline).ret ::
            [Action.sigunblock]) := by
        simp [Shell.addjob, Shell.emit, Shell.prints]
      cases hh : sigchld_handler (({ s with trace := s.trace ++ close_actions sc }.addjob pid
          (if bg ≠ 0 then BG else FG) cmdline).2.emit Action.sigunblock) pending with
      | returned v s6 =>
        rw [hh] at ht
        simp only [Outcome.sh] at ht
        simp only [Outcome.bind]
        by_cases hbg : bg = 0
        · rw [if_pos hbg]
          refine ⟨t, ?_⟩
          simp only [Outcome.sh, waitfg]
          rw [ht, hb]; simp
        · rw [if_neg hbg]
          cases deref s6.jobs (getjobpid s6.jobs pid) with
          | none =>
            refine ⟨t, ?_⟩
            simp only [Outcome.sh]
            rw [ht, hb]; simp
          | some job =>
            refine ⟨t ++ [Action.print ("[" ++ toString job.jid ++ "] (" ++ toString pid ++
              ") " ++ cmdline)], ?_⟩
            simp only [Outcome.sh, Shell.emit]
            rw [ht, hb]; simp
      | exited c s6 =>
        rw [hh] at ht
        simp only [Outcome.sh] at ht
        refine ⟨t, ?_⟩
        simp only [Outcome.bind, Outcome.sh]
        rw [ht, hb]; simp
      | execed s6 =>
        rw [hh] at ht
        simp only [Outcome.sh] at ht
        refine ⟨t, ?_⟩
        simp only [Outcome.bind, Outcome.sh]
        rw [ht, hb]; simp
      | nullDeref s6 =>
        rw [hh] at ht
        simp only [Outcome.sh] at ht
        refine ⟨t, ?_⟩
        simp only [Outcome.bind, Outcome.sh]
        rw [ht, hb]; simp
    obtain ⟨tail, ht⟩ := hbase
    refine ⟨tail, ?_⟩
    rw [ht]
    simp [close_actions]
  · intro hp
    subst hp
    rw [eval_parent_eq]
    simp only [Shell.addjob, Shell.emit, Shell.prints, sigchld_handler, Outcome.bind]
    by_cases hbg : bg = 0
    · simp [hbg, Outcome.sh, waitfg]
    · simp only [hbg, if_false]
      cases deref (addjob s.verbose s.jobs s.nextjid pid (if bg ≠ 0 then BG else FG)
          cmdline).jobs
        (getjobpid (addjob s.verbose s.jobs s.nextjid pid (if bg ≠ 0 then BG else FG)
          cmdline).jobs pid) <;> simp [Outcome.sh, hbg]

/-! ## The reaper inside `do_bgfg` -/

/-- C2 (code evaluated at the failing schedule): two background jobs are
launched (pids 100 and 101, jids 1 and 2); `fg %1` is typed as child 100
exits.  `do_bgfg` runs with `SIGCHLD` unblocked: it obtains `job = &jobs[0]`,
the reaper then clears that slot with `deletejob`, and `job->state = FG` is
written into the cleared slot; `waitfg(job->pid)` is `waitfg(0)` and returns at
once.  `fg %2` then passes the guard `fgpid(jobs) != 0` (the first `FG` slot
has pid 0) and makes job 2 `FG`: two table entries have state `FG`.  `fgpid`
is 0 although job 2 runs in the foreground, so `sigint_handler` forwards
nothing. -/
theorem fg_race_two_foreground :
    run (Shell.init false) fg_race_events = some fg_race_shell ∧
    fgcount fg_race_shell.jobs = 2 ∧
    fgpid fg_race_shell.jobs = 0 ∧
    sigint_handler fg_race_shell SIGINT 0 = Outcome.returned () fg_race_shell := by
  decide

/-- C15 (code evaluated at the failing schedule): after two background
launches and `fg %1` typed as child 100 exits (the reaper running between the
lookup and the write of `do_bgfg`), slot 0 is (pid 0, jid 0, `FG`, empty
command line), which is neither clear nor live.  In terms of the job-list
calls: `addjob` for pid 100, the lookup `getjobjid(jobs, 1) = &jobs[0]`,
`deletejob(jobs, 100)` by the reaper, then the write `job->state = FG`. -/
theorem fg_race_slot_not_clear_nor_live :
    (run (Shell.init false) fg_race_prefix).map (fun s => s.jobs.head?) =
      some (some { pid := 0, jid := 0, state := FG, cmdline := "" }) ∧
    ¬ slot_ok { pid := 0, jid := 0, state := FG, cmdline := "" } ∧
    getjobjid (addjob false emptyJobs 1 100 BG "/bin/sleep 1 &\n").jobs 1 = some 0 ∧
    set_state
        (deletejob (addjob false emptyJobs 1 100 BG "/bin/sleep 1 &\n").jobs 2 100).jobs 0 FG =
      { pid := 0, jid := 0, state := FG, cmdline := "" } ::
        List.replicate 15 { pid := 0, jid := 0, state := UNDEF, cmdline := "" } :=
  ⟨by decide, by unfold slot_ok; decide, by decide, by decide⟩

/-! ## The reaper at the unblocking in `eval` -/

/-- C14 (code evaluated at the failing input): `/bin/true &` from the empty
table, the child being pid 100 and having exited before the parent unblocks
`SIGCHLD`.  `addjob` registers the job; the pending signal is delivered at
`sigprocmask(SIG_UNBLOCK)`, the reaper deletes the entry; the background
`printf` then evaluates `getjobpid(jobs, pid)->jid` on `NULL`.  No line is
printed and no entry is left. -/
theorem background_child_reaped_at_unblock :
    eval (Shell.init false) (sys_child_exited 100) "/bin/true &\n" =
      Outcome.nullDeref
        { jobs := List.replicate 16 { pid := 0, jid := 0, state := UNDEF, cmdline := "" }
          nextjid := 1
          verbose := false
          trace := [Action.sigblock, Action.fork 100, Action.addjob 100 BG 1,
            Action.sigunblock]
          waiting := none } := by
  decide

/-- A command line that ends in `&` without a space before it is a foreground
command: `parseline` tests the first character of the last word only.  For
`sleep 5&` the flag is 0, the last word is `5&`, the job is registered as `FG`,
the main flow waits for it, and no background line is printed. -/
theorem launch_amp_attached_is_foreground :
    parseline "sleep 5&\n" = (0, ["sleep", "5&"]) ∧
    eval (Shell.init false) (sys_forks 100) "sleep 5&\n" =
      Outcome.returned ()
        { jobs := { pid := 100, jid := 1, state := FG, cmdline := "sleep 5&\n" } ::
            List.replicate 15 { pid := 0, jid := 0, state := UNDEF, cmdline := "" }
          nextjid := 2
          verbose := false
          trace := [Action.sigblock, Action.fork 100, Action.addjob 100 FG 1,
            Action.sigunblock]
          waiting := some 100 } := by
  decide

/-! ## Arguments that name no job -/

/-- C12 (code evaluated at the failing input): in a table whose one job is
(pid 100, jid 1, stopped), no job has pid 4294967396 and none has jid
4294967297, so `kill 4294967396`, `fg 4294967396` and `bg %4294967297` resolve
to no live job.  The code narrows the numbers to 100 and 1 before any test:
`kill` sends `SIGKILL` to the group `-100`; `fg` and `bg` send `SIGCONT` and
change the state of the job; none prints a diagnostic. -/
theorem unresolvable_argument_acted_on :
    (∀ j ∈ stopped_job_shell.jobs, j.pid ≠ 4294967396 ∧ j.jid ≠ 4294967297) ∧
    builtin_cmd stopped_job_shell ["kill", "4294967396"] [] =
      Outcome.returned 1 { stopped_job_shell with trace := [Action.kill (-100) SIGKILL] } ∧
    builtin_cmd stopped_job_shell ["fg", "4294967396"] [] =
      Outcome.returned 1
        { stopped_job_shell with
            jobs := { pid := 100, jid := 1, state := FG, cmdline := "/bin/cat\n" } ::
              List.replicate 15 { pid := 0, jid := 0, state := UNDEF, cmdline := "" }
            trace := [Action.kill (-100) SIGCONT]
            waiting := some 100 } ∧
    builtin_cmd stopped_job_shell ["bg", "%4294967297"] [] =
      Outcome.returned 1
        { stopped_job_shell with
            jobs := { pid := 100, jid := 1, state := BG, cmdline := "/bin/cat\n" } ::
              List.replicate 15 { pid := 0, jid := 0, state := UNDEF, cmdline := "" }
            trace := [Action.kill (-100) SIGCONT] } := by
  decide

theorem count_emit (s : Shell) (a b : Action) :
    (s.emit a).trace.count b = s.trace.count b + (if a = b then 1 else 0) := by
  simp only [Shell.emit, List.count_append, List.count_cons, List.count_nil, beq_iff_eq,
    Nat.zero_add]

/-- Without a `<` token the scan reports no failed `open` for reading. -/
theorem scan_loop_no_lt_perror (toks : List String) (s s1 : Shell) (env env1 : Sys)
    (sc sc1 : Scan) (h : "<" ∉ toks)
    (hr : scan_loop s env sc toks = Outcome.returned (sc1, env1) s1) :
    s1.trace.count (Action.perror "Could not open file for reading") =
      s.trace.count (Action.perror "Could not open file for reading") := by
  induction toks generalizing s env sc with
  | nil =>
    simp only [scan_loop] at hr
    injection hr with _ hs
    rw [← hs]
  | cons tok rest ih =>
    have htok : tok ≠ "<" := fun e => h (by simp [e])
    have hrest : "<" ∉ rest := fun e => h (by simp [e])
    unfold scan_loop at hr
    rw [if_neg htok] at hr
    by_cases h2 : tok = "|"
    · rw [if_pos h2] at hr
      simp only at hr
      by_cases hp : (env.pipes.headD (-1, -1, -1)).1 < 0
      · rw [if_pos hp] at hr; exact Outcome.noConfusion hr
      · rw [if_neg hp] at hr
        have hi := ih _ _ _ hrest hr
        rw [hi, count_emit]
        simp
    · rw [if_neg h2] at hr
      by_cases h3 : tok = ">"
      · rw [if_pos h3] at hr
        have hi := ih _ _ _ hrest hr
        rw [hi]
        have hne : (Action.perror "Could not open file for writing" =
            Action.perror "Could not open file for reading") = False := by decide
        split_ifs
        · rw [count_emit, count_emit]
          simp [hne]
        · rw [count_emit]
          simp
      · rw [if_neg h3] at hr
        have hi := ih _ _ _ hrest hr
        exact hi

/-- Without a `>` token the scan reports no failed `open` for writing. -/
theorem scan_loop_no_gt_perror (toks : List String) (s s1 : Shell) (env env1 : Sys)
    (sc sc1 : Scan) (h : ">" ∉ toks)
    (hr : scan_loop s env sc toks = Outcome.returned (sc1, env1) s1) :
    s1.trace.count (Action.perror "Could not open file for writing") =
      s.trace.count (Action.perror "Could not open file for writing") := by
  induction toks generalizing s env sc with
  | nil =>
    simp only [scan_loop] at hr
    injection hr with _ hs
    rw [← hs]
  | cons tok rest ih =>
    have htok : tok ≠ ">" := fun e => h (by simp [e])
    have hrest : ">" ∉ rest := fun e => h (by simp [e])
    unfold scan_loop at hr
    by_cases h1 : tok = "<"
    · rw [if_pos h1] at hr
      have hi := ih _ _ _ hrest hr
      rw [hi]
      have hne : (Action.perror "Could not open file for reading" =
          Action.perror "Could not open file for writing") = False := by decide
      split_ifs
      · rw [count_emit, count_emit]
        simp [hne]
      · rw [count_emit]
        simp
    · rw [if_neg h1] at hr
      by_cases h2 : tok = "|"
      · rw [if_pos h2] at hr
        simp only at hr
        by_cases hp : (env.pipes.headD (-1, -1, -1)).1 < 0
        · rw [if_pos hp] at hr; exact Outcome.noConfusion hr
        · rw [if_neg hp] at hr
          have hi := ih _ _ _ hrest hr
          rw [hi, count_emit]
          simp
      · rw [if_neg h2, if_neg htok] at hr
        have hi := ih _ _ _ hrest hr
        exact hi

/-- A failed `open` for reading is reported with `perror`, once; nothing else
is reported with that text. -/
theorem scan_loop_input_perror (toks : List String) (s s1 : Shell) (env env1 : Sys)
    (sc sc1 : Scan) (hcount : toks.count "<" ≤ 1)
    (hr : scan_loop s env sc toks = Outcome.returned (sc1, env1) s1) :
    s1.trace.count (Action.perror "Could not open file for reading") =
      s.trace.count (Action.perror "Could not open file for reading") +
        (if "<" ∈ toks ∧ sc1.infd < 0 then 1 else 0) := by
  induction toks generalizing s env sc with
  | nil =>
    simp only [scan_loop] at hr
    injection hr with _ hs
    rw [← hs]
    simp
  | cons tok rest ih =>
    by_cases h1 : tok = "<"
    · subst h1
      have hrest : "<" ∉ rest := count_cons_self_le_one "<" rest hcount
      unfold scan_loop at hr
      rw [if_pos rfl] at hr
      have hc := scan_loop_no_lt_perror rest _ s1 _ env1 _ sc1 hrest hr
      obtain ⟨a, _⟩ := scan_loop_no_lt rest _ s1 _ env1 _ sc1 hrest hr
      rw [hc, a]
      simp only [List.mem_cons, true_or, true_and]
      by_cases hfd : env.opens.headD (-1) < 0
      · rw [if_pos hfd, if_pos hfd, count_emit, count_emit]
        simp
      · rw [if_neg hfd, if_neg hfd, count_emit]
        simp
    · have hcnt : rest.count "<" ≤ 1 := count_cons_ne_le_one "<" tok rest h1 hcount
      have hif : (if "<" ∈ tok :: rest ∧ sc1.infd < 0 then 1 else 0) =
          (if "<" ∈ rest ∧ sc1.infd < 0 then 1 else 0) := by
        simp [Ne.symm h1]
      rw [hif]
      unfold scan_loop at hr
      rw [if_neg h1] at hr
      by_cases h2 : tok = "|"
      · rw [if_pos h2] at hr
        simp only at hr
        by_cases hp : (env.pipes.headD (-1, -1, -1)).1 < 0
        · rw [if_pos hp] at hr; exact Outcome.noConfusion hr
        · rw [if_neg hp] at hr
          have hi := ih _ _ _ hcnt hr
          rw [hi, count_emit]
          simp
      · rw [if_neg h2] at hr
        by_cases h3 : tok = ">"
        · rw [if_pos h3] at hr
          have hi := ih _ _ _ hcnt hr
          rw [hi]
          have hne : (Action.perror "Could not open file for writing" =
              Action.perror "Could not open file for reading") = False := by decide
          by_cases hfd : env.opens.headD (-1) < 0
          · rw [if_pos hfd, count_emit, count_emit]
            simp [hne]
          · rw [if_neg hfd, count_emit]
            simp
        · rw [if_neg h3] at hr
          have hi := ih _ _ _ hcnt hr
          exact hi

/-- A failed `open` for writing is reported with `perror`, once; nothing else
is reported with that text. -/
theorem scan_loop_output_perror (toks : List String) (s s1 : Shell) (env env1 : Sys)
    (sc sc1 : Scan) (hcount : toks.count ">" ≤ 1)
    (hr : scan_loop s env sc toks = Outcome.returned (sc1, env1) s1) :
    s1.trace.count (Action.perror "Could not open file for writing") =
      s.trace.count (Action.perror "Could not open file for writing") +
        (if ">" ∈ toks ∧ sc1.outfd < 0 then 1 else 0) := by
  induction toks generalizing s env sc with
  | nil =>
    simp only [scan_loop] at hr
    injection hr with _ hs
    rw [← hs]
    simp
  | cons tok rest ih =>
    by_cases h3 : tok = ">"
    · subst h3
      have hrest : ">" ∉ rest := count_cons_self_le_one ">" rest hcount
      unfold scan_loop at hr
      have e1 : (">" = "<") = False := by decide
      have e2 : (">" = "|") = False := by decide
      simp only [e1, e2, if_false, if_true] at hr
      have hc := scan_loop_no_gt_perror rest _ s1 _ env1 _ sc1 hrest hr
      obtain ⟨a, _⟩ := scan_loop_no_gt rest _ s1 _ env1 _ sc1 hrest hr
      rw [hc, a]
      simp only [List.mem_cons, true_or, true_and]
      by_cases hfd : env.opens.headD (-1) < 0
      · rw [if_pos hfd, if_pos hfd, count_emit, count_emit]
        simp
      · rw [if_neg hfd, if_neg hfd, count_emit]
        simp
    · have hcnt : rest.count ">" ≤ 1 := count_cons_ne_le_one ">" tok rest h3 hcount
      have hif : (if ">" ∈ tok :: rest ∧ sc1.outfd < 0 then 1 else 0) =
          (if ">" ∈ rest ∧ sc1.outfd < 0 then 1 else 0) := by
        simp [Ne.symm h3]
      rw [hif]
      unfold scan_loop at hr
      by_cases h1 : tok = "<"
      · rw [if_pos h1] at hr
        have hi := ih _ _ _ hcnt hr
        rw [hi]
        have hne : (Action.perror "Could not open file for reading" =
            Action.perror "Could not open file for writing") = False := by decide
        by_cases hfd : env.opens.headD (-1) < 0
        · rw [if_pos hfd, count_emit, count_emit]
          simp [hne]
        · rw [if_neg hfd, count_emit]
          simp
      · rw [if_neg h1] at hr
        by_cases h2 : tok = "|"
        · rw [if_pos h2] at hr
          simp only at hr
          by_cases hp : (env.pipes.headD (-1, -1, -1)).1 < 0
          · rw [if_pos hp] at hr; exact Outcome.noConfusion hr
          · rw [if_neg hp] at hr
            have hi := ih _ _ _ hcnt hr
            rw [hi, count_emit]
            simp
        · rw [if_neg h2, if_neg h3] at hr
          have hi := ih _ _ _ hcnt hr
          exact hi

/-- C21: for every argument vector in which each of `<`, `>` and `|` occurs at
most once (and the `pipe` call succeeds when `|` occurs), the scan of `eval`
runs to its end and yields: the first program's vector = the tokens before the
first special token; the one `open` for reading is on the token after `<` and
`infd` holds what it returned (no `<`: nothing opened, `infd = 0`), and
`perror` reports it exactly when it failed; the same for `>` and `outfd`;
`argv2` is set iff `|` occurs and then points to the
tokens after `|` up to the next special token or the end; the pipe
descriptors are those the `pipe` call stored (no `|`: both -1).  A failed
`open` leaves a negative descriptor, and only the `dup2` guarded by that
descriptor is left out.  The first child (`fork` returned 0) unblocks, calls
`setpgid(0, 0)`, connects standard input to `infd` iff `infd > 0`, standard
output to the pipe's write end if there is a pipe and else to `outfd` iff
`outfd > 0`, and calls `execve` on the first vector.  The second child (second
`fork` returned 0) unblocks, joins the first child's process group, connects
standard input to the pipe's read end, standard output to `outfd` iff
`outfd > 0`, and calls `execve` on the second vector.  Either child, when
`execve` fails, prints the `command not found` line with the first program's
name and exits.  The parent (`fork` returned pids) closes the descriptors that
are positive and registers the job with `addjob` for the first pid, whatever
the `open` calls returned. -/
theorem scan_splits_command (s : Shell) (env : Sys) (argv : List String) (bg : Int)
    (cmdline : String)
    (hlt : argv.count "<" ≤ 1) (hgt : argv.count ">" ≤ 1) (hbar : argv.count "|" ≤ 1)
    (hpipe : "|" ∈ argv → 0 ≤ (env.pipes.headD (-1, -1, -1)).1) :
    ∃ sc env1 s1,
      scan_loop (s.emit Action.sigblock) env Scan.init argv = Outcome.returned (sc, env1) s1 ∧
      argv_from sc.argv 0 = spec_first_argv argv ∧
      sc.argv2.map (argv_from sc.argv) = spec_second_argv argv ∧
      opened_rd s1.trace = opened_rd s.trace ++
        (if "<" ∈ argv then [(spec_input_file argv, sc.infd)] else []) ∧
      opened_wr s1.trace = opened_wr s.trace ++
        (if ">" ∈ argv then [(spec_output_file argv, sc.outfd)] else []) ∧
      ("<" ∉ argv → sc.infd = 0) ∧ (">" ∉ argv → sc.outfd = 0) ∧
      s1.trace.count (Action.perror "Could not open file for reading") =
        s.trace.count (Action.perror "Could not open file for reading") +
          (if "<" ∈ argv ∧ sc.infd < 0 then 1 else 0) ∧
      s1.trace.count (Action.perror "Could not open file for writing") =
        s.trace.count (Action.perror "Could not open file for writing") +
          (if ">" ∈ argv ∧ sc.outfd < 0 then 1 else 0) ∧
      (sc.pipe_rd, sc.pipe_wr) =
        (if "|" ∈ argv then (env.pipes.headD (-1, -1, -1)).2 else (-1, -1)) ∧
      (env.forks.headD (-1) = 0 → ∃ c1 : Shell,
        c1 = { s1 with trace := s1.trace ++
            [Action.fork 0, Action.sigunblock, Action.setpgid 0 0] ++
            (if 0 < sc.infd then [Action.dup2 sc.infd 0, Action.close sc.infd] else []) ++
            (if 0 < sc.pipe_wr then
                [Action.dup2 sc.pipe_wr 1, Action.close sc.pipe_rd, Action.close sc.pipe_wr]
              else if 0 < sc.outfd then [Action.dup2 sc.outfd 1, Action.close sc.outfd]
              else []) ++
            [Action.execve (spec_first_argv argv).head? (spec_first_argv argv)] } ∧
        eval_launch s env argv bg cmdline =
          (if env.exec_ok = true then Outcome.execed c1
           else
             match (spec_first_argv argv).head? with
             | none => Outcome.nullDeref c1
             | some a0 =>
               Outcome.exited 0 (c1.emit (Action.print (a0 ++ ": command not found.\n"))))) ∧
      (0 < env.forks.headD (-1) → env.forks.tail.headD (-1) = 0 →
        ∀ argv2, spec_second_argv argv = some argv2 → ∃ c2 : Shell,
          c2 = { s1 with trace := s1.trace ++
              [Action.fork (env.forks.headD (-1)), Action.fork 0, Action.sigunblock,
               Action.setpgid (env.forks.headD (-1)) (env.forks.headD (-1)),
               Action.dup2 sc.pipe_rd 0, Action.close sc.pipe_rd, Action.close sc.pipe_wr] ++
              (if 0 < sc.outfd then [Action.dup2 sc.outfd 1, Action.close sc.outfd] else []) ++
              [Action.execve argv2.head? argv2] } ∧
          eval_launch s env argv bg cmdline =
            (if env.exec_ok = true then Outcome.execed c2
             else
               match (spec_first_argv argv).head? with
               | none => Outcome.nullDeref c2
               | some a0 =>
                 Outcome.exited 0 (c2.emit (Action.print (a0 ++ ": command not found.\n"))))) ∧
      (0 < env.forks.headD (-1) → ("|" ∈ argv → 0 < env.forks.tail.headD (-1)) →
        (∃ tail, (eval_launch s env argv bg cmdline).sh.trace =
          s1.trace ++ Action.fork (env.forks.headD (-1)) ::
            ((if "|" ∈ argv then [Action.fork (env.forks.tail.headD (-1))] else []) ++
             (if 0 < sc.infd then [Action.close sc.infd] else []) ++
             (if 0 < sc.outfd then [Action.close sc.outfd] else []) ++
             (if 0 < sc.pipe_rd then [Action.close sc.pipe_rd, Action.close sc.pipe_wr]
              else []) ++
             (addjob s.verbose s.jobs s.nextjid (env.forks.headD (-1))
               (if bg ≠ 0 then BG else FG) cmdline).out.map Action.print ++
             [Action.addjob (env.forks.headD (-1)) (if bg ≠ 0 then BG else FG)
                (addjob s.verbose s.jobs s.nextjid (env.forks.headD (-1))
                  (if bg ≠ 0 then BG else FG) cmdline).ret,
              Action.sigunblock] ++ tail)) ∧
        (env.pending = [] →
          (eval_launch s env argv bg cmdline).sh.jobs =
            (addjob s.verbose s.jobs s.nextjid (env.forks.headD (-1))
              (if bg ≠ 0 then BG else FG) cmdline).jobs ∧
          (eval_launch s env argv bg cmdline).sh.nextjid =
            (addjob s.verbose s.jobs s.nextjid (env.forks.headD (-1))
              (if bg ≠ 0 then BG else FG) cmdline).nextjid)) := by
  obtain ⟨sc, env1, s1, hr⟩ := scan_loop_total argv (s.emit Action.sigblock) env Scan.init
    hbar hpipe
  obtain ⟨e1, e2, _, e4, e5⟩ := scan_loop_frame _ _ _ _ _ _ _ hr
  obtain ⟨eok, _, _⟩ := scan_loop_env _ _ _ _ _ _ _ hr
  have hargv := scan_loop_argv argv _ s1 _ env1 _ sc hr
  have hin := scan_loop_input argv _ s1 _ env1 _ sc hlt hr
  have hout := scan_loop_output argv _ s1 _ env1 _ sc hgt hr
  have hsec := scan_loop_second argv _ s1 _ env1 _ sc hbar hr
  have hfirst : argv_from sc.argv 0 = spec_first_argv argv := by
    rw [hargv]
    simp only [argv_from, Scan.init, List.nil_append, List.drop_zero, spec_first_argv]
    exact argv_from_map argv
  have hsecond : sc.argv2.map (argv_from sc.argv) = spec_second_argv argv := by
    unfold spec_second_argv
    by_cases hm : "|" ∈ argv
    · rw [if_pos hm]; exact hsec.1 hm
    · rw [if_neg hm, (hsec.2 hm).1]; rfl
  have hsb_rd : opened_rd (s.emit Action.sigblock).trace = opened_rd s.trace := by
    simp [opened_rd, Shell.emit, List.filterMap_append]
  have hsb_wr : opened_wr (s.emit Action.sigblock).trace = opened_wr s.trace := by
    simp [opened_wr, Shell.emit, List.filterMap_append]
  have hnone : sc.argv2 = none → eval_launch s env argv bg cmdline =
      (if env.forks.headD (-1) < 0 then
         unix_error (s1.emit (Action.fork (env.forks.headD (-1)))) "fork"
       else if env.forks.headD (-1) = 0 then
         child1 (s1.emit (Action.fork (env.forks.headD (-1)))) env1 sc
       else eval_parent (s1.emit (Action.fork (env.forks.headD (-1)))) sc
             (env.forks.headD (-1)) bg cmdline env.pending) := by
    intro hk
    unfold eval_launch
    rw [hr]
    simp only [Outcome.bind, e5, hk]
  have hsome : ∀ k, sc.argv2 = some k → eval_launch s env argv bg cmdline =
      (if env.forks.headD (-1) < 0 then
         unix_error (s1.emit (Action.fork (env.forks.headD (-1)))) "fork"
       else if env.forks.headD (-1) = 0 then
         child1 (s1.emit (Action.fork (env.forks.headD (-1)))) env1 sc
       else if env.forks.tail.headD (-1) < 0 then
         unix_error ((s1.emit (Action.fork (env.forks.headD (-1)))).emit
           (Action.fork (env.forks.tail.headD (-1)))) "fork"
       else if env.forks.tail.headD (-1) = 0 then
         child2 ((s1.emit (Action.fork (env.forks.headD (-1)))).emit
           (Action.fork (env.forks.tail.headD (-1)))) env1 sc (env.forks.headD (-1)) k
       else eval_parent ((s1.emit (Action.fork (env.forks.headD (-1)))).emit
           (Action.fork (env.forks.tail.headD (-1)))) sc (env.forks.headD (-1)) bg cmdline
           env.pending) := by
    intro k hk
    unfold eval_launch
    rw [hr]
    simp only [Outcome.bind, e5, hk]
  have hchild : env.forks.headD (-1) = 0 → eval_launch s env argv bg cmdline =
      child1 (s1.emit (Action.fork 0)) env1 sc := by
    intro h0
    cases hk : sc.argv2 with
    | none => rw [hnone hk, h0]; simp only [lt_self_iff_false, if_false, if_true]
    | some k => rw [hsome k hk, h0]; simp only [lt_self_iff_false, if_false, if_true]
  refine ⟨sc, env1, s1, hr, hfirst, hsecond, ?_, ?_, ?_, ?_, ?_, ?_, ?_, ?_, ?_, ?_⟩
  · by_cases hm : "<" ∈ argv
    · rw [if_pos hm, hin.1 hm, hsb_rd]
    · rw [if_neg hm, (hin.2 hm).2, hsb_rd]; simp
  · by_cases hm : ">" ∈ argv
    · rw [if_pos hm, hout.1 hm, hsb_wr]
    · rw [if_neg hm, (hout.2 hm).2, hsb_wr]; simp
  · intro hm; rw [(hin.2 hm).1]; rfl
  · intro hm; rw [(hout.2 hm).1]; rfl
  · rw [scan_loop_input_perror argv _ s1 _ env1 _ sc hlt hr, count_emit]
    simp
  · rw [scan_loop_output_perror argv _ s1 _ env1 _ sc hgt hr, count_emit]
    simp
  · by_cases hm : "|" ∈ argv
    · obtain ⟨a, b⟩ := scan_loop_pipe_fds argv _ s1 _ env1 _ sc hbar hm hr
      rw [if_pos hm, a, b]
    · rw [if_neg hm, (hsec.2 hm).2.1, (hsec.2 hm).2.2]; rfl
  · intro h0
    refine ⟨_, rfl, ?_⟩
    rw [hchild h0, child1_eq, hfirst, eok]
    by_cases hx : env.exec_ok = true
    · rw [if_pos hx, if_pos hx]
      simp [Shell.emit]
    · rw [if_neg hx, if_neg hx]
      cases (spec_first_argv argv).head? <;> simp [Shell.emit]
  · intro hp h0 argv2 ha
    rw [← hsecond] at ha
    obtain ⟨k, hk, hk2⟩ := Option.map_eq_some'.mp ha
    refine ⟨_, rfl, ?_⟩
    rw [hsome k hk, if_neg (by omega), if_neg (by omega), h0]
    simp only [lt_self_iff_false, if_false, if_true]
    rw [child2_eq, hfirst, eok, hk2]
    by_cases hx : env.exec_ok = true
    · rw [if_pos hx, if_pos hx]
      simp [Shell.emit]
    · rw [if_neg hx, if_neg hx]
      cases (spec_first_argv argv).head? <;> simp [Shell.emit]
  · intro hp hp2
    have hfork : ∀ (s3 : Shell) (fs : List Action), s3.jobs = s.jobs → s3.nextjid = s.nextjid →
        s3.verbose = s.verbose → s3.trace = s1.trace ++ Action.fork (env.forks.headD (-1)) :: fs →
        (∃ tail, (eval_parent s3 sc (env.forks.headD (-1)) bg cmdline env.pending).sh.trace =
          s1.trace ++ Action.fork (env.forks.headD (-1)) ::
            (fs ++
             (if 0 < sc.infd then [Action.close sc.infd] else []) ++
             (if 0 < sc.outfd then [Action.close sc.outfd] else []) ++
             (if 0 < sc.pipe_rd then [Action.close sc.pipe_rd, Action.close sc.pipe_wr]
              else []) ++
             (addjob s.verbose s.jobs s.nextjid (env.forks.headD (-1))
               (if bg ≠ 0 then BG else FG) cmdline).out.map Action.print ++
             [Action.addjob (env.forks.headD (-1)) (if bg ≠ 0 then BG else FG)
                (addjob s.verbose s.jobs s.nextjid (env.forks.headD (-1))
                  (if bg ≠ 0 then BG else FG) cmdline).ret,
              Action.sigunblock] ++ tail)) ∧
        (env.pending = [] →
          (eval_parent s3 sc (env.forks.headD (-1)) bg cmdline env.pending).sh.jobs =
            (addjob s.verbose s.jobs s.nextjid (env.forks.headD (-1))
              (if bg ≠ 0 then BG else FG) cmdline).jobs ∧
          (eval_parent s3 sc (env.forks.headD (-1)) bg cmdline env.pending).sh.nextjid =
            (addjob s.verbose s.jobs s.nextjid (env.forks.headD (-1))
              (if bg ≠ 0 then BG else FG) cmdline).nextjid) := by
      intro s3 fs hj hn hv htr
      obtain ⟨⟨tail, ht⟩, b⟩ :=
        eval_parent_registers s3 sc (env.forks.headD (-1)) bg cmdline env.pending
      rw [hj, hn, hv] at ht b
      refine ⟨⟨tail, ?_⟩, b⟩
      rw [ht, htr]
      simp
    cases hk : sc.argv2 with
    | none =>
      have hm : "|" ∉ argv := by
        intro hm
        have := hsec.1 hm
        rw [hk] at this
        exact Option.noConfusion this
      rw [hnone hk, if_neg (by omega), if_neg (by omega), if_neg hm]
      exact hfork _ [] e1 e2 e4 (by simp [Shell.emit])
    | some k =>
      have hm : "|" ∈ argv := by
        by_contra hm
        rw [(hsec.2 hm).1] at hk
        exact Option.noConfusion hk
      have := hp2 hm
      rw [hsome k hk, if_neg (by omega), if_neg (by omega), if_neg (by omega),
        if_neg (by omega), if_pos hm]
      exact hfork _ [Action.fork (env.forks.tail.headD (-1))] e1 e2 e4 (by simp [Shell.emit])

/-- C21 at `/bin/cat < missing.txt | /bin/wc > out.txt` from the empty table,
where the `open` for reading fails (-1), the one for writing returns 5, the
pipe is (3, 4) and the children are 100 and 101: the scan returns with first
vector `/bin/cat`, second vector `/bin/wc`, `infd = -1` from the `open` on
`missing.txt` with one `perror` line for it, `outfd = 5` from the one on
`out.txt` with none, the pipe descriptors 3 and 4, and the job is registered
as (pid 100, jid 1, `FG`). -/
theorem scan_splits_command_witness :
    (["/bin/cat", "<", "missing.txt", "|", "/bin/wc", ">", "out.txt"].count "<" ≤ 1 ∧
     ["/bin/cat", "<", "missing.txt", "|", "/bin/wc", ">", "out.txt"].count ">" ≤ 1 ∧
     ["/bin/cat", "<", "missing.txt", "|", "/bin/wc", ">", "out.txt"].count "|" ≤ 1 ∧
     0 ≤ (sys_open_fails.pipes.headD (-1, -1, -1)).1) ∧
    ∃ sc env1 s1,
      scan_loop ((Shell.init false).emit Action.sigblock) sys_open_fails Scan.init
          ["/bin/cat", "<", "missing.txt", "|", "/bin/wc", ">", "out.txt"] =
        Outcome.returned (sc, env1) s1 ∧
      argv_from sc.argv 0 = ["/bin/cat"] ∧
      sc.argv2.map (argv_from sc.argv) = some ["/bin/wc"] ∧
      opened_rd s1.trace = [(some "missing.txt", sc.infd)] ∧
      opened_wr s1.trace = [(some "out.txt", sc.outfd)] ∧
      sc.infd = -1 ∧ sc.outfd = 5 ∧ (sc.pipe_rd, sc.pipe_wr) = (3, 4) ∧
      s1.trace.count (Action.perror "Could not open file for reading") = 1 ∧
      s1.trace.count (Action.perror "Could not open file for writing") = 0 ∧
      (eval_launch (Shell.init false) sys_open_fails
          ["/bin/cat", "<", "missing.txt", "|", "/bin/wc", ">", "out.txt"] 0
          "/bin/cat < missing.txt | /bin/wc > out.txt\n").sh.jobs =
        { pid := 100, jid := 1, state := FG,
          cmdline := "/bin/cat < missing.txt | /bin/wc > out.txt\n" } ::
          List.replicate 15 { pid := 0, jid := 0, state := UNDEF, cmdline := "" } := by
  obtain ⟨sc, env1, s1, h1, h2, h3, h4, h5, _, _, hp1, hp2, h8, _, _, h11⟩ :=
    scan_splits_command (Shell.init false) sys_open_fails
      ["/bin/cat", "<", "missing.txt", "|", "/bin/wc", ">", "out.txt"] 0
      "/bin/cat < missing.txt | /bin/wc > out.txt\n"
      (by decide) (by decide) (by decide) (fun _ => by decide)
  have hc : scan_loop ((Shell.init false).emit Action.sigblock) sys_open_fails Scan.init
      ["/bin/cat", "<", "missing.txt", "|", "/bin/wc", ">", "out.txt"] =
      Outcome.returned
        ({ infd := -1, outfd := 5, pipe_rd := 3, pipe_wr := 4,
           argv := [some "/bin/cat", none, some "missing.txt", none, some "/bin/wc", none,
             some "out.txt"],
           argv2 := some 4 },
         { opens := [], pipes := [], forks := [100, 101], exec_ok := true,
           pending := [], preempt := [] })
        { jobs := List.replicate 16 { pid := 0, jid := 0, state := UNDEF, cmdline := "" }
          nextjid := 1
          verbose := false
          trace := [Action.sigblock, Action.open_rd (some "missing.txt") (-1),
            Action.perror "Could not open file for reading", Action.pipe 0 3 4,
            Action.open_wr (some "out.txt") 5]
          waiting := none } := by decide
  have hsc := h1.symm.trans hc
  injection hsc with hv _
  injection hv with hsc _
  refine ⟨⟨by decide, by decide, by decide, by decide⟩, sc, env1, s1, h1,
    h2.trans (by decide), h3.trans (by decide), ?_, ?_, ?_, ?_, ?_, ?_, ?_, ?_⟩
  · rw [h4, if_pos (by decide)]
    have : spec_input_file ["/bin/cat", "<", "missing.txt", "|", "/bin/wc", ">", "out.txt"] =
        some "missing.txt" := by decide
    rw [this]
    rfl
  · rw [h5, if_pos (by decide)]
    have : spec_output_file ["/bin/cat", "<", "missing.txt", "|", "/bin/wc", ">", "out.txt"] =
        some "out.txt" := by decide
    rw [this]
    rfl
  · rw [hsc]
  · rw [hsc]
  · exact h8.trans (by decide)
  · rw [hp1, hsc]; decide
  · rw [hp2, hsc]; decide
  · exact ((h11 (by decide) (fun _ => by decide)).2 rfl).1.trans (by decide)

/-- The first child after a failed `open`: for `/bin/cat < missing.txt > out.txt`
where the `open` for reading fails and the one for writing returns 5, the
child (`fork` returned 0) makes no `dup2` onto standard input, still connects
standard output to descriptor 5, and calls `execve` on `/bin/cat`. -/
theorem launch_after_failed_open :
    eval (Shell.init false)
        { opens := [-1, 5], pipes := [], forks := [0], exec_ok := true,
          pending := [], preempt := [] }
        "/bin/cat < missing.txt > out.txt\n" =
      Outcome.execed
        { jobs := List.replicate 16 { pid := 0, jid := 0, state := UNDEF, cmdline := "" }
          nextjid := 1
          verbose := false
          trace := [Action.sigblock, Action.open_rd (some "missing.txt") (-1),
            Action.perror "Could not open file for reading",
            Action.open_wr (some "out.txt") 5, Action.fork 0, Action.sigunblock,
            Action.setpgid 0 0, Action.dup2 5 1, Action.close 5,
            Action.execve (some "/bin/cat") ["/bin/cat"]]
          waiting := none } := by
  decide

/-- The second child after a failed `open`: for
`/bin/cat < in.txt | /bin/wc > missing/out.txt` where the `open` for reading
returns 5 and the one for writing fails, the second child (first `fork`
returned 100, second returned 0) joins the process group 100, connects
standard input to the read end of the pipe, makes no `dup2` onto standard
output, and calls `execve` on `/bin/wc`. -/
theorem second_stage_after_failed_open :
    eval (Shell.init false)
        { opens := [5, -1], pipes := [(0, 3, 4)], forks := [100, 0], exec_ok := true,
          pending := [], preempt := [] }
        "/bin/cat < in.txt | /bin/wc > missing/out.txt\n" =
      Outcome.execed
        { jobs := List.replicate 16 { pid := 0, jid := 0, state := UNDEF, cmdline := "" }
          nextjid := 1
          verbose := false
          trace := [Action.sigblock, Action.open_rd (some "in.txt") 5, Action.pipe 0 3 4,
            Action.open_wr (some "missing/out.txt") (-1),
            Action.perror "Could not open file for writing",
            Action.fork 100, Action.fork 0, Action.sigunblock, Action.setpgid 100 100,
            Action.dup2 3 0, Action.close 3, Action.close 4,
            Action.execve (some "/bin/wc") ["/bin/wc"]]
          waiting := none } := by
  decide

end Tsh
